import Mathlib

/-!
# Shallow embedding of `src/utils/reg.c` (register-map layer of fw_utils)

Machine integers are modelled as `Nat` with explicit wrap-around where the C
code computes modulo `2^32` / `2^64` (`size_t`, `uint32_t`, `uint64_t` are all
treated as 64-bit except where the code truncates to 32 bits).  Stateful C
functions become Lean functions returning a pair of the C return value and the
updated device state.  Nullable pointers are modelled as `Option` or as a
`has_*` boolean when only the null check is observable.  The transport
callbacks `read_fn`/`write_fn` are modelled as pure functions carried in the
device state; the `load_fn` callback of virtual devices is modelled likewise,
and `reg_adjust` additionally returns the list of map ids passed to `load_fn`
so that load events are observable.  The device carries a ghost field `wlog`
recording the `(reg, val)` arguments of every `write_fn` invocation in call
order, so the hardware write sequence is observable; no modelled function
reads it.
-/
/-- `2^64`, the modulus of `size_t` / `uint64_t` arithmetic. -/
def U64 : Nat := 2 ^ 64

/-- `2^32`, the modulus of `uint32_t` arithmetic. -/
def U32 : Nat := 2 ^ 32

/-- C `size_t` subtraction `a - b` (wraps modulo `2^64`; both args `< 2^64`). -/
def wsub (a b : Nat) : Nat := if b ≤ a then a - b else U64 + a - b

/-- C `size_t` addition `a + b` (wraps modulo `2^64`). -/
def wadd (a b : Nat) : Nat := (a + b) % U64

/-- C 32-bit bitwise complement `~m` of a value `m < 2^32`. -/
def compl32 (m : Nat) : Nat := m ^^^ (U32 - 1)

/-- `#define MAX_REG WIDTH_OF(uint32_t)` -/
def MAX_REG : Nat := 32

/-- `#define MAX_FIELD WIDTH_OF(uint64_t)` -/
def MAX_FIELD : Nat := 64

/-- `reg_min`: minimum of `size_t` inputs. -/
def reg_min (a b : Nat) : Nat := if a < b then a else b

/-- `reg_cdiv`: ceiling division (callers guarantee `y ≠ 0`). -/
def reg_cdiv (x y : Nat) : Nat := (x + y - 1) / y

/-- `reg_mask64`: bitmask of `len` consecutive bits starting at `start`,
or 0 on invalid arguments. -/
def reg_mask64 (start len : Nat) : Nat :=
  if len = 0 ∨ len > MAX_FIELD then 0
  else if start ≥ MAX_FIELD ∨ start + len > MAX_FIELD then 0
  else (if len = MAX_FIELD then U64 - 1 else (1 <<< len) - 1) <<< start

/-- `reg_mask32`: 32-bit variant; the final `(uint32_t)` cast is `% 2^32`. -/
def reg_mask32 (start len : Nat) : Nat :=
  if len = 0 ∨ len > MAX_REG then 0
  else if start ≥ MAX_REG ∨ start + len > MAX_REG then 0
  else reg_mask64 start len % U32

/-- `reg_fits`: check if a value fits in a field of given width. -/
def reg_fits (val width : Nat) : Bool :=
  if width < 64 then val >>> width == 0 else true

/-- The C test `name[0] == '_'` (underscore-prefixed field name); an empty
string has `name[0] == '\\0'`, matching `head? = none`. -/
def underscore (s : String) : Bool := s.data.head? == some '_'

/-- Flag bit values from `reg.h`. -/
def REG_READONLY : Nat := 1

def REG_WRITEONLY : Nat := 2

def REG_VOLATILE : Nat := 4

def REG_NOCOMM : Nat := 8

def REG_ALIAS : Nat := 16

def REG_DESCEND : Nat := 32

def REG_MSR_FIRST : Nat := 64

def REG_NORESET : Nat := 128

/-- `struct reg_field` (`name` is non-null inside a map; the terminating
sentinel of a C map is represented by the end of the Lean list). -/
structure reg_field where
  name : String
  reg : Nat
  offs : Nat
  width : Nat
  flags : Nat
deriving Repr, DecidableEq, Inhabited

/-- `struct reg_dev`.  `data` is the buffer (one `Nat < 2^32` per word);
`has_data` models the nullness of the `data` pointer, `has_read_fn` /
`has_write_fn` the nullness of the transport callbacks, `field_map = none`
a null map pointer, and `lock_fn`/`unlock_fn` are modelled by the status
value the callback returns when invoked (`none` = null pointer). -/
structure reg_dev where
  flags : Nat
  reg_width : Nat
  reg_num : Nat
  field_map : Option (List reg_field)
  arg : Int
  has_read_fn : Bool
  read_fn : Int → Nat → Nat
  has_write_fn : Bool
  write_fn : Int → Nat → Nat → Int
  has_data : Bool
  data : List Nat
  has_mutex : Bool
  lock_fn : Option Int
  unlock_fn : Option Int
  lock_count : Int
  wlog : List (Nat × Nat)

/-- `reg_flags`: check field and device flags (either pointer may be null). -/
def reg_flags (d : Option reg_dev) (f : Option reg_field) (flags : Nat) : Bool :=
  match d, f with
  | some d, some f => (d.flags &&& flags != 0) || (f.flags &&& flags != 0)
  | some d, none => d.flags &&& flags != 0
  | none, some f => f.flags &&& flags != 0
  | none, none => false

/-- `reg_empty`: check that all the usual fields are filled out
(the null-device check is outside the model: a `reg_dev` value exists). -/
def reg_empty (d : reg_dev) : Int :=
  if !d.has_read_fn then -1
  else if !d.has_write_fn then -1
  else if d.reg_width = 0 then -1
  else if d.reg_width > MAX_REG then -1
  else if !d.has_data then -1
  else if d.field_map.isNone then -1
  else 0

/-- `reg_lock`. -/
def reg_lock (d : reg_dev) : Int × reg_dev :=
  if reg_empty d ≠ 0 then (-1, d)
  else if d.has_mutex && (match d.lock_fn with | some r => r != 0 | none => false) then
    (-1, d)
  else if d.lock_count ≠ 0 then (-1, d)
  else (0, { d with lock_count := d.lock_count + 1 })

/-- `reg_unlock`. -/
def reg_unlock (d : reg_dev) : Int × reg_dev :=
  if reg_empty d ≠ 0 then (-1, d)
  else if d.has_mutex && (match d.unlock_fn with | some r => r != 0 | none => false) then
    (-1, d)
  else if d.lock_count ≠ 1 then (-1, d)
  else (0, { d with lock_count := d.lock_count - 1 })

/-- `reg_read`.  The `uint32_t` return of `read_fn` is modelled by `% 2^32`. -/
def reg_read (d : reg_dev) (reg : Nat) : Nat × reg_dev :=
  if reg_empty d ≠ 0 then (0, d)
  else if reg ≥ d.reg_num then (0, d)
  else if !(reg_flags (some d) none REG_NOCOMM) then
    let val := d.read_fn d.arg reg % U32
    if val &&& compl32 (reg_mask32 0 d.reg_width) ≠ 0 then (0, d)
    else
      let d1 := { d with data := d.data.set reg val }
      (d1.data.getD reg 0, d1)
  else (d.data.getD reg 0, d)

/-- `reg_write`. -/
def reg_write (d : reg_dev) (reg : Nat) (val : Nat) : Int × reg_dev :=
  if reg_empty d ≠ 0 then (-1, d)
  else if reg ≥ d.reg_num then (-1, d)
  else if val &&& compl32 (reg_mask32 0 d.reg_width) ≠ 0 then (-1, d)
  else
    let d0 := if !(reg_flags (some d) none REG_NOCOMM) then
                { d with wlog := d.wlog ++ [(reg, val)] }
              else d
    if !(reg_flags (some d) none REG_NOCOMM) ∧ d.write_fn d.arg reg val ≠ 0 then
      (-1, d0)
    else (0, { d0 with data := d0.data.set reg val })

/-- `memset(d->data, 0, n * sizeof(uint32_t))`: zero the first `n` words. -/
def clearN : Nat → List Nat → List Nat
  | 0, data => data
  | n + 1, data => (clearN n data).set n 0

/-- `memcpy(dst, src, n * sizeof(uint32_t))`: copy the first `n` words. -/
def copyN : Nat → List Nat → List Nat → List Nat
  | 0, _, dst => dst
  | n + 1, src, dst => (copyN n src dst).set n (src.getD n 0)

/-- `reg_bulk` (the `data` argument may be null). -/
def reg_bulk (d : reg_dev) (data : Option (List Nat)) : Int × reg_dev :=
  if reg_empty d ≠ 0 then (-1, d)
  else if d.reg_num = 0 then (0, d)
  else
    let lk := reg_lock d
    if lk.1 ≠ 0 then (-1, lk.2)
    else
      let d2 := { lk.2 with data :=
        match data with
        | none => clearN lk.2.reg_num lk.2.data
        | some src => copyN lk.2.reg_num src lk.2.data }
      let ul := reg_unlock d2
      if ul.1 ≠ 0 then (-1, ul.2) else (0, ul.2)

/-- `reg_field_mask`: mask of register bits occupied by chunk `n` of a field
(all four parameters are `uint8_t` in C; callers pass reduced values). -/
def reg_field_mask (n f_offs f_width reg_width : Nat) : Nat :=
  let len0 := wsub (reg_min (f_offs + f_width) reg_width) f_offs
  if n = 0 then reg_mask32 f_offs len0
  else
    let len := wsub (wsub f_width len0) ((n - 1) * reg_width)
    reg_mask32 0 (reg_min len reg_width)

/-- `reg_get_chunk`: the part of a field in a given register, shifted to its
position in the field value. -/
def reg_get_chunk (d : reg_dev) (f : reg_field) (n : Nat) : Nat × reg_dev :=
  if reg_empty d ≠ 0 then (0, d)
  else if reg_flags (some d) (some f) REG_DESCEND ∧ f.reg < n then (0, d)
  else
    let len0 := wsub (reg_min (f.offs + f.width) d.reg_width) f.offs
    if n ≠ 0 ∧ wadd len0 ((n - 1) * d.reg_width) ≥ 64 then (0, d)
    else
      let r := if reg_flags (some d) (some f) REG_DESCEND then f.reg - n
               else wadd f.reg n
      let d1 :=
        if !(reg_flags (some d) (some f) REG_NOCOMM) &&
           reg_flags (some d) (some f) REG_VOLATILE then
          (reg_read d r).2
        else d
      let chunk0 :=
        if reg_flags (some d) (some f) REG_DESCEND then d1.data.getD (f.reg - n) 0
        else d1.data.getD (wadd f.reg n) 0
      let chunk1 := chunk0 &&& reg_field_mask n f.offs f.width d.reg_width
      let chunk2 :=
        if n = 0 then chunk1 >>> f.offs
        else (chunk1 <<< wadd len0 ((n - 1) * d.reg_width)) % U64
      (chunk2, d1)

/-- `reg_set_chunk`: store the part of a field in a given register; the buffer
word is updated before `write_fn` is consulted, so a failed transport write
leaves the chunk stored (as in the source). -/
def reg_set_chunk (d : reg_dev) (f : reg_field) (n : Nat) (val : Nat) :
    Int × reg_dev :=
  if reg_empty d ≠ 0 then (-1, d)
  else if reg_flags (some d) (some f) REG_DESCEND ∧ f.reg < n then (-1, d)
  else
    let val1 :=
      if n = 0 then (val <<< f.offs) % U64
      else
        let len0 := wsub (reg_min (f.offs + f.width) d.reg_width) f.offs
        val >>> wadd len0 ((n - 1) * d.reg_width)
    let mask := reg_field_mask n f.offs f.width d.reg_width
    let val2 := val1 &&& mask
    let r := if reg_flags (some d) (some f) REG_DESCEND then f.reg - n
             else wadd f.reg n
    let d1 :=
      { d with data := d.data.set r ((d.data.getD r 0 &&& compl32 mask) ||| val2) }
    let d2 := if !(reg_flags (some d) (some f) REG_NOCOMM) then
                { d1 with wlog := d1.wlog ++ [(r, d1.data.getD r 0)] }
              else d1
    if !(reg_flags (some d) (some f) REG_NOCOMM) ∧
       d.write_fn d.arg r (d1.data.getD r 0) ≠ 0 then (-1, d2)
    else (0, d2)

/-- `reg_check_field_width`. -/
def reg_check_field_width (d : reg_dev) (f : reg_field) : Int :=
  if f.width = 0 then -1
  else if f.width > MAX_FIELD then -1
  else if f.reg ≥ d.reg_num then -1
  else
    let num_regs := reg_cdiv (f.offs + f.width) d.reg_width
    if reg_flags (some d) (some f) REG_DESCEND then
      if wadd f.reg 1 < num_regs then -1 else 0
    else
      if wadd f.reg num_regs > d.reg_num then -1 else 0

/-- `reg_get_field`: assemble chunks into a single number (the `uint8_t`
chunk-number parameter truncates the loop index modulo 256). -/
def reg_get_field (d : reg_dev) (f : reg_field) : Nat × reg_dev :=
  if reg_empty d ≠ 0 then (0, d)
  else if reg_check_field_width d f ≠ 0 then (0, d)
  else
    let num_regs := reg_cdiv (f.offs + f.width) d.reg_width
    (List.range num_regs).foldl
      (fun acc n =>
        let c := reg_get_chunk acc.2 f (n % 256)
        (acc.1 ||| c.1, c.2))
      (0, d)

/-- Chunk loop of `reg_set_field` (early exit on chunk failure; the
`unlock_fn` call on that path touches neither `lock_count` nor the buffer,
so it has no effect on the modelled state). -/
def reg_set_field_go (f : reg_field) (val : Nat) (num_regs : Nat) :
    List Nat → reg_dev → Int × reg_dev
  | [], d => (0, d)
  | n :: rest, d =>
    let n_eff := if reg_flags (some d) (some f) REG_MSR_FIRST then
                   num_regs - n - 1
                 else n
    let st := reg_set_chunk d f (n_eff % 256) val
    if st.1 ≠ 0 then (-1, st.2) else reg_set_field_go f val num_regs rest st.2

/-- `reg_set_field`. -/
def reg_set_field (d : reg_dev) (f : reg_field) (val : Nat) : Int × reg_dev :=
  if reg_empty d ≠ 0 then (-1, d)
  else if reg_check_field_width d f ≠ 0 then (-1, d)
  else if !(reg_fits val f.width) then (-1, d)
  else
    let num_regs := reg_cdiv (f.offs + f.width) d.reg_width
    reg_set_field_go f val num_regs (List.range num_regs) d

/-- `reg_check_fields`: width check plus duplicate-name scan (the underscore
test inside the `j` loop looks only at field `i`, so it is loop-invariant). -/
def reg_check_fields (d : reg_dev) (i : Nat) : Int :=
  let map := d.field_map.getD []
  let fi := map.getD i default
  if reg_check_field_width d fi ≠ 0 then -1
  else if !(underscore fi.name) &&
          (map.drop (i + 1)).any (fun fj => fj.name == fi.name) then -1
  else 0

/-- `reg_clear_buffer`: zero `data[0..reg_num)`. -/
def reg_clear_buffer (d : reg_dev) : Int × reg_dev :=
  if reg_empty d ≠ 0 then (-1, d)
  else (0, { d with data := clearN d.reg_num d.data })

/-- Clear-other-fields loop of `reg_check_field_overlaps`. -/
def overlaps_clear_go (i : Nat) :
    List (Nat × reg_field) → reg_dev → Int × reg_dev
  | [], d => (0, d)
  | (j, fj) :: rest, d =>
    if j ≠ i then
      if underscore fj.name then overlaps_clear_go i rest d
      else
        let st := reg_set_field d fj 0
        if st.1 ≠ 0 then (-1, st.2) else overlaps_clear_go i rest st.2
    else overlaps_clear_go i rest d

/-- Final read-back-zero loop of `reg_check_field_overlaps`. -/
def overlaps_readzero_go : List reg_field → reg_dev → Int × reg_dev
  | [], d => (0, d)
  | fj :: rest, d =>
    let gv := reg_get_field d fj
    if gv.1 ≠ 0 then (-1, gv.2) else overlaps_readzero_go rest gv.2

/-- `reg_check_field_overlaps`. -/
def reg_check_field_overlaps (d : reg_dev) (i : Nat) : Int × reg_dev :=
  let map := d.field_map.getD []
  let fi := map.getD i default
  let mask := reg_mask64 0 fi.width
  let s1 := reg_set_field d fi mask
  if s1.1 ≠ 0 then (-1, s1.2)
  else
    let s2 := overlaps_clear_go i map.enum s1.2
    if s2.1 ≠ 0 then (-1, s2.2)
    else
      let g := reg_get_field s2.2 fi
      if g.1 ≠ mask then (-1, g.2)
      else
        let s3 := reg_set_field g.2 fi 0
        if s3.1 ≠ 0 then (-1, s3.2)
        else
          let z := overlaps_readzero_go map s3.2
          if z.1 ≠ 0 then (-1, z.2) else (0, z.2)

/-- Saturate-all-fields loop of `reg_check_field_partial_coverage`. -/
def coverage_set_go : List reg_field → reg_dev → Int × reg_dev
  | [], d => (0, d)
  | fi :: rest, d =>
    let st := reg_set_field d fi (reg_mask64 0 fi.width)
    if st.1 ≠ 0 then (-1, st.2) else coverage_set_go rest st.2

/-- Read-back-all-ones loop of `reg_check_field_partial_coverage`. -/
def coverage_read_go : List reg_field → reg_dev → Int × reg_dev
  | [], d => (0, d)
  | fi :: rest, d =>
    let g := reg_get_field d fi
    if g.1 ≠ reg_mask64 0 fi.width then (-1, g.2) else coverage_read_go rest g.2

/-- `reg_check_field_partial_coverage` (the `unlock_fn` call on the failure
path changes no modelled state). -/
def reg_check_field_partial_coverage (d : reg_dev) : Int × reg_dev :=
  let s1 := coverage_set_go (d.field_map.getD []) d
  if s1.1 ≠ 0 then (-1, s1.2)
  else
    let s2 := coverage_read_go (d.field_map.getD []) s1.2
    if s2.1 ≠ 0 then (-1, s2.2)
    else if (List.range s2.2.reg_num).any (fun i =>
        let val := s2.2.data.getD i 0
        val != 0 && val != reg_mask32 0 s2.2.reg_width) then (-1, s2.2)
    else (0, s2.2)

/-- Per-field loop of `reg_check` (name/width checks then overlap check). -/
def check_fields_go : List Nat → reg_dev → Int × reg_dev
  | [], d => (0, d)
  | i :: rest, d =>
    if reg_check_fields d i ≠ 0 then (-1, d)
    else
      let ov := reg_check_field_overlaps d i
      if ov.1 ≠ 0 then (-1, ov.2) else check_fields_go rest ov.2

/-- `reg_check`.  Failure paths after the lock was taken return without
restoring the flags or releasing the lock, exactly as in the source. -/
def reg_check (d : reg_dev) : Int × reg_dev :=
  if reg_empty d ≠ 0 then (-1, d)
  else if (d.lock_fn.isSome && d.unlock_fn.isNone) ||
          (d.lock_fn.isNone && d.unlock_fn.isSome) then (-1, d)
  else
    let lk := reg_lock d
    if lk.1 ≠ 0 then (-1, lk.2)
    else
      let flags := lk.2.flags
      let d2 := { lk.2 with flags := lk.2.flags ||| REG_NOCOMM }
      let cb := reg_clear_buffer d2
      if cb.1 ≠ 0 then (-1, cb.2)
      else
        let ck := check_fields_go (List.range (cb.2.field_map.getD []).length) cb.2
        if ck.1 ≠ 0 then (-1, ck.2)
        else
          let cb2 := reg_clear_buffer ck.2
          if cb2.1 ≠ 0 then (-1, cb2.2)
          else
            let pc := reg_check_field_partial_coverage cb2.2
            if pc.1 ≠ 0 then (-1, pc.2)
            else
              let cb3 := reg_clear_buffer pc.2
              if cb3.1 ≠ 0 then (-1, cb3.2)
              else
                let d3 := { cb3.2 with flags := flags }
                let ul := reg_unlock d3
                if ul.1 ≠ 0 then (-1, ul.2) else (0, ul.2)

/-- `reg_find`: find a field by name, first match wins (the null-`field`
argument check is outside the model). -/
def reg_find (map : Option (List reg_field)) (field : String) :
    Option reg_field :=
  match map with
  | none => none
  | some m => m.find? (fun f => f.name == field)

/-- `reg_get` (public).  When the lookup fails the source returns 0 while
still holding the lock; this is mirrored faithfully. -/
def reg_get (d : reg_dev) (field : String) : Nat × reg_dev :=
  let lk := reg_lock d
  if lk.1 ≠ 0 then (0, lk.2)
  else
    match reg_find lk.2.field_map field with
    | none => (0, lk.2)
    | some f =>
      let g := reg_get_field lk.2 f
      let ul := reg_unlock g.2
      if ul.1 ≠ 0 then (0, ul.2) else (g.1, ul.2)

/-- `reg_set` (public).  A failed lookup returns 0 (not -1) while holding the
lock, and a failed `reg_set_field` returns -1 without unlocking, exactly as
in the source. -/
def reg_set (d : reg_dev) (field : String) (val : Nat) : Int × reg_dev :=
  let lk := reg_lock d
  if lk.1 ≠ 0 then (-1, lk.2)
  else
    match reg_find lk.2.field_map field with
    | none => (0, lk.2)
    | some f =>
      let st := reg_set_field lk.2 f val
      if st.1 ≠ 0 then (-1, st.2)
      else
        let ul := reg_unlock st.2
        if ul.1 ≠ 0 then (-1, ul.2) else (0, ul.2)

/-- `reg_fwidth`: the C `return -1` in a `uint8_t` function is 255, and the
returned `f->width` is a `uint8_t`. -/
def reg_fwidth (d : reg_dev) (field : String) : Nat :=
  match reg_find d.field_map field with
  | none => 255
  | some f => f.width % 256

/-- `struct reg_virt`.  `has_data` models nullness of the virtual value
buffer pointer, `has_load_fn` nullness of the load callback; the callback's
`int id` argument is the (nonnegative) map index, typed `Nat` here. -/
structure reg_virt where
  fields : List String
  has_data : Bool
  data : List Nat
  maps : List (List reg_field)
  has_load_fn : Bool
  load_fn : Int → Nat → Int
  base : reg_dev

/-- `reg_bad`: check that all the virtual device fields are filled out. -/
def reg_bad (v : reg_virt) : Int :=
  if v.fields.isEmpty then -1
  else if !v.has_data then -1
  else if v.maps.isEmpty then -1
  else if !v.has_load_fn then -1
  else 0

/-- `reg_verify_maps` loop: install each map and run `reg_check`. -/
def reg_verify_maps_go : List (List reg_field) → reg_virt → Int × reg_virt
  | [], v => (0, v)
  | m :: rest, v =>
    let v1 := { v with base := { v.base with field_map := some m } }
    let ck := reg_check v1.base
    let v2 := { v1 with base := ck.2 }
    if ck.1 ≠ 0 then (-1, v2) else reg_verify_maps_go rest v2

/-- `reg_verify_maps`. -/
def reg_verify_maps (v : reg_virt) : Int × reg_virt :=
  reg_verify_maps_go v.maps v

/-- `reg_verify`. -/
def reg_verify (v : reg_virt) : Int × reg_virt :=
  if reg_bad v ≠ 0 then (-1, v)
  else
    let vm := reg_verify_maps v
    if vm.1 ≠ 0 then (-1, vm.2)
    else if reg_empty vm.2.base ≠ 0 then (-1, vm.2)
    else if vm.2.fields.any (fun nm =>
        !(underscore nm) &&
        vm.2.maps.all (fun m => (reg_find (some m) nm).isNone)) then
      (-1, vm.2)
    else (0, { vm.2 with base := { vm.2.base with field_map := none } })

/-- `reg_obtain`.  The C `return -1` in a `uint64_t` function is `2^64 - 1`;
an unknown field name returns 0. -/
def reg_obtain (v : reg_virt) (field : String) : Nat :=
  if reg_bad v ≠ 0 then U64 - 1
  else
    match v.fields.findIdx? (fun nm => nm == field) with
    | some i => v.data.getD i 0
    | none => 0

/-- Field loop of `reg_reset`.  `except` is the index (in the active map) of
the field that must not be skipped by the NORESET/underscore rule — the C
code compares field pointers, which within one map is index equality. -/
def reg_reset_go (except : Nat) :
    List (Nat × reg_field) → reg_virt → Int × reg_virt
  | [], v => (0, v)
  | (i, fi) :: rest, v =>
    if i ≠ except ∧
       ((reg_flags (some v.base) (some fi) REG_NORESET) ||
        underscore fi.name) then
      reg_reset_go except rest v
    else
      let fi_val := reg_obtain v fi.name
      if !(reg_fits fi_val fi.width) then reg_reset_go except rest v
      else
        let st := reg_set_field v.base fi fi_val
        let v1 := { v with base := st.2 }
        if st.1 ≠ 0 then (-1, v1) else reg_reset_go except rest v1

/-- `reg_reset`: clear the device buffer and re-set all fields of the active
map from the virtual buffer. -/
def reg_reset (v : reg_virt) (except : Nat) : Int × reg_virt :=
  let v1 :=
    { v with base := { v.base with data := clearN v.base.reg_num v.base.data } }
  reg_reset_go except (v1.base.field_map.getD []).enum v1

/-- Map scan of `reg_adjust`: first map id whose map contains `field` with a
width that fits `val`, together with the found field. -/
def adjust_scan (maps : List (List reg_field)) (field : String) (val : Nat) :
    Option (Nat × reg_field) :=
  (maps.enum.find? (fun p =>
    match reg_find (some p.2) field with
    | some f => reg_fits val f.width
    | none => false)).map
    (fun p => (p.1, (reg_find (some p.2) field).getD default))

/-- Map-switch tail of `reg_adjust`: load a new configuration, install the
new map, and run the reset pass (the `v->maps[id]` null check cannot fire: a
found id is a list index). -/
def reg_adjust_switch (v2 : reg_virt) (field : String) (val : Nat)
    (log0 : List Nat) : Int × reg_virt × List Nat :=
  match adjust_scan v2.maps field val with
  | none => (-1, v2, log0)
  | some (id, _f) =>
    if v2.load_fn v2.base.arg id ≠ 0 then (-1, v2, log0 ++ [id])
    else
      let v3 :=
        { v2 with base := { v2.base with field_map := some (v2.maps.getD id []) } }
      let except := (v2.maps.getD id []).findIdx (fun g => g.name == field)
      let rs := reg_reset v3 except
      if rs.1 ≠ 0 then (-1, rs.2, log0 ++ [id])
      else (0, rs.2, log0 ++ [id])

/-- `reg_adjust`.  The third component is the list of map ids passed to
`load_fn`, in call order, making load events observable in the model. -/
def reg_adjust (v : reg_virt) (field : String) (val : Nat) :
    Int × reg_virt × List Nat :=
  if reg_bad v ≠ 0 then (-1, v, [])
  else
    match v.fields.findIdx? (fun nm => nm == field) with
    | none => (-1, v, [])
    | some i =>
      let v1 := { v with data := v.data.set i val }
      if underscore field then (0, v1, [])
      else
        match v1.base.field_map with
        | none =>
          if v1.load_fn v1.base.arg 0 ≠ 0 then (-1, v1, [0])
          else
            let v2 :=
              { v1 with base :=
                { v1.base with field_map := some (v1.maps.getD 0 []) } }
            match reg_find v2.base.field_map field with
            | some f =>
              if reg_fits val f.width then
                let st := reg_set_field v2.base f val
                (st.1, { v2 with base := st.2 }, [0])
              else reg_adjust_switch v2 field val [0]
            | none => reg_adjust_switch v2 field val [0]
        | some _ =>
          match reg_find v1.base.field_map field with
          | some f =>
            if reg_fits val f.width then
              let st := reg_set_field v1.base f val
              (st.1, { v1 with base := st.2 }, [])
            else reg_adjust_switch v1 field val []
          | none => reg_adjust_switch v1 field val []

/-- The fields actually re-set by the reset pass of `reg_reset v e`: a field
is written iff it is the triggering field (index `e`) or is neither NORESET
nor underscore-named, and its virtual value fits its width. -/
def reset_selected (v : reg_virt) (e : Nat) : List (Nat × reg_field) :=
  ((v.base.field_map.getD []).enum).filter (fun p =>
    (decide (p.1 = e) ||
      !((reg_flags (some v.base) (some p.2) REG_NORESET) || underscore p.2.name))
    && reg_fits (reg_obtain v p.2.name) p.2.width)

/-- Sequential re-materialization of the given fields, each set to its value
in the virtual buffer of `v0`, aborting with -1 on the first failure. -/
def reset_apply (v0 : reg_virt) : List (Nat × reg_field) → reg_virt → Int × reg_virt
  | [], v => (0, v)
  | (_, fi) :: rest, v =>
    let st := reg_set_field v.base fi (reg_obtain v0 fi.name)
    let v1 := { v with base := st.2 }
    if st.1 ≠ 0 then (-1, v1) else reset_apply v0 rest v1

/-- A concrete well-formed device used for witnesses and counterexamples. -/
def mk_dev (W RN : Nat) (map : List reg_field) (dt : List Nat) : reg_dev :=
  { flags := 0, reg_width := W, reg_num := RN, field_map := some map,
    arg := 0, has_read_fn := true, read_fn := fun _ _ => 0,
    has_write_fn := true, write_fn := fun _ _ _ => 0,
    has_data := true, data := dt, has_mutex := false,
    lock_fn := none, unlock_fn := none, lock_count := 0, wlog := [] }

def c4dev : reg_dev := mk_dev 16 2 [⟨"A", 0, 0, 16, 0⟩, ⟨"C", 1, 0, 16, 0⟩] [0, 0]

def c4f : reg_field := ⟨"A", 0, 0, 16, 0⟩

def c9dev : reg_dev := mk_dev 16 2 [⟨"D", 1, 0, 32, REG_DESCEND⟩] [0, 0]

def c9f : reg_field := ⟨"D", 1, 0, 32, REG_DESCEND⟩

def c5dev : reg_dev := mk_dev 16 1 [⟨"A", 0, 0, 16, 0⟩] [0]

def c6dev : reg_dev := mk_dev 16 2 [⟨"_x", 0, 0, 16, 0⟩, ⟨"C", 1, 0, 16, 0⟩] [5, 0]

def c10map : List reg_field := [⟨"A", 0, 0, 8, 0⟩]

def c10v : reg_virt :=
  { fields := ["A"], has_data := true, data := [0], maps := [c10map],
    has_load_fn := true, load_fn := fun _ _ => 0,
    base := mk_dev 8 1 c10map [0] }

def c7map1 : List reg_field :=
  [⟨"A", 0, 0, 8, 0⟩, ⟨"B", 0, 8, 8, 0⟩, ⟨"C", 1, 0, 16, 0⟩]

def c7map2 : List reg_field :=
  [⟨"P", 0, 0, 8, 0⟩, ⟨"Q", 0, 8, 8, REG_NORESET⟩, ⟨"A", 1, 0, 16, 0⟩]

def c7v : reg_virt :=
  { fields := ["A", "B", "C", "P", "Q"], has_data := true,
    data := [0, 0, 0, 0, 0], maps := [c7map1, c7map2],
    has_load_fn := true, load_fn := fun _ _ => 0,
    base := mk_dev 16 2 c7map1 [0, 0] }

def c8map1 : List reg_field :=
  [⟨"T", 0, 0, 8, 0⟩, ⟨"O", 0, 8, 8, 0⟩, ⟨"X", 1, 0, 16, 0⟩]

def c8map2 : List reg_field :=
  [⟨"T", 0, 0, 16, 0⟩, ⟨"O", 1, 0, 16, 0⟩]

def c8v : reg_virt :=
  { fields := ["T", "O", "X"], has_data := true, data := [1, 2, 0],
    maps := [c8map1, c8map2], has_load_fn := true, load_fn := fun _ _ => 0,
    base := mk_dev 16 2 c8map1 [513, 0] }

/-!
## Chunk geometry

Ghost definitions describing where the codec places each chunk of a field:
`len0v` is the bit count of the least-significant chunk, `nchunks` the chunk
count, `chunkStart n` the position of chunk `n` inside the 64-bit field
value, `chunkLen n` its length, `chunkBit n` its starting bit inside its
register, and `chunkRegOf n` its register index.
-/

def len0v (o w W : Nat) : Nat := min (o + w) W - o

def nchunks (o w W : Nat) : Nat := reg_cdiv (o + w) W

def chunkStart (o w W n : Nat) : Nat := if n = 0 then 0 else len0v o w W + (n - 1) * W

def chunkLen (o w W n : Nat) : Nat :=
  if n = 0 then len0v o w W else min W (w - len0v o w W - (n - 1) * W)

def chunkBit (o n : Nat) : Nat := if n = 0 then o else 0

def chunkRegOf (d : reg_dev) (f : reg_field) (n : Nat) : Nat :=
  if reg_flags (some d) (some f) REG_DESCEND then f.reg - n else f.reg + n

def chunkOf (o w W k : Nat) : Nat :=
  if k < len0v o w W then 0 else (k - len0v o w W) / W + 1

/-- Geometry preconditions: register width in [1,32], offset inside the
register (spec data model §3), field width in [1,64]. -/
def geomOK (o w W : Nat) : Prop :=
  1 ≤ W ∧ W ≤ 32 ∧ o < W ∧ 1 ≤ w ∧ w ≤ 64

/-- Value shift applied to `val` for chunk `n` in `reg_set_chunk` (wrap-free
form, valid under the geometry preconditions). -/
def chunkValShift (d : reg_dev) (f : reg_field) (n v : Nat) : Nat :=
  if n = 0 then (v <<< f.offs) % U64
  else v >>> (len0v f.offs f.width d.reg_width + (n - 1) * d.reg_width)

/-- The register word produced by `reg_set_chunk` for chunk `n` when the
register previously held `x`. -/
def chunkWordOf (d : reg_dev) (f : reg_field) (x n v : Nat) : Nat :=
  (x &&& compl32 (reg_field_mask n f.offs f.width d.reg_width)) |||
  (chunkValShift d f n v &&& reg_field_mask n f.offs f.width d.reg_width)

/-- The value contributed by chunk `n` in `reg_get_chunk` (wrap-free form). -/
def chunkGetOf (d : reg_dev) (f : reg_field) (n : Nat) : Nat :=
  if n = 0 then
    (d.data.getD (chunkRegOf d f n) 0 &&&
      reg_field_mask n f.offs f.width d.reg_width) >>> f.offs
  else
    ((d.data.getD (chunkRegOf d f n) 0 &&&
      reg_field_mask n f.offs f.width d.reg_width) <<<
      (len0v f.offs f.width d.reg_width + (n - 1) * d.reg_width)) % U64

/-- The chunk index processed at loop position `n` in the set-field loop
(the `uint8_t` parameter truncates modulo 256). -/
def effChunk (d : reg_dev) (f : reg_field) (num n : Nat) : Nat :=
  (if reg_flags (some d) (some f) REG_MSR_FIRST = true then num - n - 1 else n) % 256

/-- A buffer word has no bits set at or above `W`. -/
def wordOK (W x : Nat) : Bool := x &&& compl32 (reg_mask32 0 W) == 0

/-- The claimed invariant: every buffer word fits in `reg_width` bits. -/
def dataInv (d : reg_dev) : Bool := d.data.all (wordOK d.reg_width)

/-- Chunk `n` of field `f` places register bit `b` of register `r`:
`fieldCovers d f r b` says some chunk of `f` occupies bit `b` of register
`r` (ghost predicate over the chunk geometry of the codec). -/
def fieldCovers (d : reg_dev) (f : reg_field) (r b : Nat) : Bool :=
  (List.range (nchunks f.offs f.width d.reg_width)).any (fun n =>
    decide (chunkRegOf d f n = r) &&
    decide (chunkBit f.offs n ≤ b) &&
    decide (b < chunkBit f.offs n + chunkLen f.offs f.width d.reg_width n))

/-- The chunk index of field `f` that lands on register `r` (inverse of
`chunkRegOf`, meaningful when some chunk does land there). -/
def chunkIdxAt (d : reg_dev) (f : reg_field) (r : Nat) : Nat :=
  if reg_flags (some d) (some f) REG_DESCEND then f.reg - r else r - f.reg

/-- The position inside the field value corresponding to register bit
`(r, b)` of field `f`. -/
def fieldValBit (d : reg_dev) (f : reg_field) (r b : Nat) : Nat :=
  chunkStart f.offs f.width d.reg_width (chunkIdxAt d f r)
    + (b - chunkBit f.offs (chunkIdxAt d f r))

/-- Defect: some field fails the per-field width/span check (zero width,
width over 64, base register or chunk span outside the device). -/
def widthDefect (d : reg_dev) : Bool :=
  (d.field_map.getD []).any (fun f => decide (reg_check_field_width d f ≠ 0))

/-- Defect: two distinct fields share a name that does not start with an
underscore. -/
def dupNameDefect (d : reg_dev) : Bool :=
  (List.range (d.field_map.getD []).length).any (fun i =>
    (List.range (d.field_map.getD []).length).any (fun j =>
      decide (i < j) &&
      !(underscore (((d.field_map.getD []).getD i default)).name) &&
      ((((d.field_map.getD []).getD i default)).name
        == (((d.field_map.getD []).getD j default)).name)))

/-- Defect: two distinct fields, at least one of them non-underscore,
share a register bit. -/
def overlapDefect (d : reg_dev) : Bool :=
  (List.range (d.field_map.getD []).length).any (fun i =>
    (List.range (d.field_map.getD []).length).any (fun j =>
      decide (i ≠ j) &&
      (!(underscore (((d.field_map.getD []).getD i default)).name) ||
       !(underscore (((d.field_map.getD []).getD j default)).name)) &&
      (List.range d.reg_num).any (fun r =>
        (List.range d.reg_width).any (fun b =>
          fieldCovers d ((d.field_map.getD []).getD i default) r b &&
          fieldCovers d ((d.field_map.getD []).getD j default) r b))))

/-- Register bit `(r, b)` is occupied by some field of the map. -/
def coveredBit (d : reg_dev) (r b : Nat) : Bool :=
  (d.field_map.getD []).any (fun f => fieldCovers d f r b)

/-- Defect: some register is partially covered — at least one of its
`reg_width` bits is occupied by a field and at least one is not. -/
def coverageDefect (d : reg_dev) : Bool :=
  (List.range d.reg_num).any (fun r =>
    (List.range d.reg_width).any (fun b => coveredBit d r b) &&
    (List.range d.reg_width).any (fun b => !(coveredBit d r b)))

/-!
## State-shape lemmas

Every codec operation changes only the buffer `data` and the ghost write log
`wlog` of the device; these lemmas record that and are reused throughout.
-/

lemma reg_empty_update (d : reg_dev) (a : List Nat) (l : List (Nat × Nat)) :
    reg_empty { d with data := a, wlog := l } = reg_empty d := rfl

lemma reg_empty_update_data (d : reg_dev) (a : List Nat) :
    reg_empty { d with data := a } = reg_empty d := rfl

lemma reg_empty_set_lock (d : reg_dev) (c : Int) :
    reg_empty { d with lock_count := c } = reg_empty d := rfl

lemma reg_read_state (d : reg_dev) (reg : Nat) :
    ∃ a, (reg_read d reg).2 = { d with data := a } := by
  unfold reg_read
  dsimp only
  split_ifs <;> first | exact ⟨d.data, rfl⟩ | exact ⟨_, rfl⟩

lemma reg_get_chunk_state (d : reg_dev) (f : reg_field) (n : Nat) :
    ∃ a, (reg_get_chunk d f n).2 = { d with data := a } := by
  unfold reg_get_chunk
  dsimp only
  split_ifs <;> first | exact ⟨d.data, rfl⟩ | exact reg_read_state d _

lemma reg_set_chunk_state (d : reg_dev) (f : reg_field) (n val : Nat) :
    ∃ a l, (reg_set_chunk d f n val).2 = { d with data := a, wlog := l } := by
  unfold reg_set_chunk
  dsimp only
  split_ifs <;> first | exact ⟨d.data, d.wlog, rfl⟩ | exact ⟨_, _, rfl⟩

lemma reg_get_field_state (d : reg_dev) (f : reg_field) :
    ∃ a, (reg_get_field d f).2 = { d with data := a } := by
  unfold reg_get_field
  dsimp only
  split_ifs with h1 h2
  · exact ⟨d.data, rfl⟩
  · exact ⟨d.data, rfl⟩
  · generalize List.range (reg_cdiv (f.offs + f.width) d.reg_width) = l
    have : ∀ (l : List Nat) (v0 : Nat) (d0 : reg_dev), ∃ a,
        (l.foldl (fun acc n =>
          let c := reg_get_chunk acc.2 f (n % 256)
          (acc.1 ||| c.1, c.2)) (v0, d0)).2 = { d0 with data := a } := by
      intro l
      induction l with
      | nil => exact fun v0 d0 => ⟨d0.data, rfl⟩
      | cons n rest ih =>
        intro v0 d0
        rw [List.foldl_cons]
        obtain ⟨a1, ha1⟩ := reg_get_chunk_state d0 f (n % 256)
        obtain ⟨a2, ha2⟩ := ih (v0 ||| (reg_get_chunk d0 f (n % 256)).1)
          (reg_get_chunk d0 f (n % 256)).2
        exact ⟨a2, by rw [ha2, ha1]⟩
    exact this l 0 d

lemma reg_set_field_go_state (f : reg_field) (val num_regs : Nat)
    (l : List Nat) (d : reg_dev) :
    ∃ a w, (reg_set_field_go f val num_regs l d).2 = { d with data := a, wlog := w } := by
  induction l generalizing d with
  | nil => exact ⟨d.data, d.wlog, rfl⟩
  | cons n rest ih =>
    unfold reg_set_field_go
    dsimp only
    generalize (if reg_flags (some d) (some f) REG_MSR_FIRST = true
                then num_regs - n - 1 else n) % 256 = ne
    split_ifs with hst
    · exact reg_set_chunk_state d f ne val
    · obtain ⟨a1, w1, h1⟩ := reg_set_chunk_state d f ne val
      rw [h1]
      exact ih _

lemma reg_set_field_state (d : reg_dev) (f : reg_field) (val : Nat) :
    ∃ a w, (reg_set_field d f val).2 = { d with data := a, wlog := w } := by
  unfold reg_set_field
  dsimp only
  split_ifs with h1 h2 h3
  · exact ⟨d.data, d.wlog, rfl⟩
  · exact ⟨d.data, d.wlog, rfl⟩
  · exact ⟨d.data, d.wlog, rfl⟩
  · exact reg_set_field_go_state f val _ _ d

/-- `wadd` is plain addition when no wrap occurs. -/
lemma wadd_eq (a b : Nat) (h : a + b < U64) : wadd a b = a + b :=
  Nat.mod_eq_of_lt h

/-- C4: for every field `F` and value `v` with `¬fits(v, F.width)`,
`reg_set_field` returns the failure status -1 and leaves the device (in
particular the whole data buffer) unchanged: the fit check runs before any
chunk is stored. -/
theorem reg_set_field_unfit_fails_unchanged (d : reg_dev) (f : reg_field)
    (v : Nat) (h : reg_fits v f.width = false) :
    (reg_set_field d f v).1 = -1 ∧ (reg_set_field d f v).2 = d := by
  unfold reg_set_field
  dsimp only
  split_ifs with h1 h2 h3
  · exact ⟨rfl, rfl⟩
  · exact ⟨rfl, rfl⟩
  · exact ⟨rfl, rfl⟩
  · rw [h] at h3
    simp at h3

/-- Witness for C4 at a concrete input: value 65536 does not fit width 16. -/
theorem reg_set_field_unfit_fails_unchanged_witness :
    (reg_set_field c4dev c4f 65536).1 = -1 ∧
    (reg_set_field c4dev c4f 65536).2 = c4dev :=
  reg_set_field_unfit_fails_unchanged c4dev c4f 65536 (by decide)

/-- C9: the register holding a field's least-significant chunk (n = 0) is
`F.reg` with or without DESCEND; with DESCEND chunk `n` is stored at register
`F.reg - n`, without it at `F.reg + n`; and for a DESCEND field that passes
`reg_check_field_width` the number of chunks `N` satisfies `N ≤ F.reg + 1`
(that is, `F.reg ≥ N - 1`). -/
theorem reg_chunk_register_addressing (d : reg_dev) (f : reg_field)
    (n val : Nat) (hemp : reg_empty d = 0)
    (hdesc : reg_flags (some d) (some f) REG_DESCEND = true → n ≤ f.reg)
    (hreg : f.reg + n < U64) (hreg1 : f.reg + 1 < U64) :
    (∃ w, ((reg_set_chunk d f n val).2).data
        = d.data.set (if reg_flags (some d) (some f) REG_DESCEND = true
                      then f.reg - n else f.reg + n) w)
    ∧ (∃ w0, ((reg_set_chunk d f 0 val).2).data = d.data.set f.reg w0)
    ∧ (reg_flags (some d) (some f) REG_DESCEND = true →
        reg_check_field_width d f = 0 →
        reg_cdiv (f.offs + f.width) d.reg_width ≤ f.reg + 1) := by
  have key : ∀ n' : Nat, (reg_flags (some d) (some f) REG_DESCEND = true → n' ≤ f.reg) →
      f.reg + n' < U64 →
      ∃ w, ((reg_set_chunk d f n' val).2).data
        = d.data.set (if reg_flags (some d) (some f) REG_DESCEND = true
                      then f.reg - n' else f.reg + n') w := by
    intro n' hd hr
    unfold reg_set_chunk
    dsimp only
    rw [wadd_eq f.reg n' hr]
    rw [if_neg (by rw [hemp]; exact fun h => h rfl)]
    rw [if_neg (fun h => (Nat.not_le.mpr h.2) (hd h.1))]
    split_ifs <;> exact ⟨_, rfl⟩
  refine ⟨key n hdesc hreg, ?_, ?_⟩
  · have := key 0 (fun _ => Nat.zero_le _) (by omega)
    obtain ⟨w0, hw0⟩ := this
    refine ⟨w0, ?_⟩
    rw [hw0]
    by_cases hD : reg_flags (some d) (some f) REG_DESCEND = true <;> simp [hD]
  · intro hD hck
    unfold reg_check_field_width at hck
    rw [if_pos hD] at hck
    try dsimp only at hck
    split_ifs at hck with h1 h2 h3 h4
    all_goals first
      | exact absurd hck (by decide)
      | (rw [wadd_eq f.reg 1 hreg1] at h4; omega)

/-- Witness for C9 at a concrete input: a DESCEND field at reg 1 of width 32
on a 16-bit-register device; chunk 1 lives at register 0. -/
theorem reg_chunk_register_addressing_witness :
    (∃ w, ((reg_set_chunk c9dev c9f 1 77).2).data
        = c9dev.data.set (if reg_flags (some c9dev) (some c9f) REG_DESCEND = true
                          then c9f.reg - 1 else c9f.reg + 1) w)
    ∧ (∃ w0, ((reg_set_chunk c9dev c9f 0 77).2).data = c9dev.data.set c9f.reg w0)
    ∧ (reg_flags (some c9dev) (some c9f) REG_DESCEND = true →
        reg_check_field_width c9dev c9f = 0 →
        reg_cdiv (c9f.offs + c9f.width) c9dev.reg_width ≤ c9f.reg + 1) :=
  reg_chunk_register_addressing c9dev c9f 1 77 (by decide) (fun _ => by decide)
    (by decide) (by decide)

/-- C5 (failing input): on a valid idle device, `reg_get` of a name that is
not in the map acquires the lock, fails the lookup, and returns 0 without
releasing the lock — `lock_count` stays 1 after the call, so the lock is not
released on this failure path. -/
theorem reg_get_missing_field_leaks_lock :
    c5dev.lock_count = 0 ∧ (reg_get c5dev "NOPE").1 = 0 ∧
    ((reg_get c5dev "NOPE").2).lock_count = 1 :=
  ⟨rfl, rfl, rfl⟩

/-- C6 counterexample: `reg_get` of the underscore-named field `"_x"` returns
its stored value 5 (not the failure sentinel 0), and `reg_set` of `"_x"`
returns success and stores the value — underscore names are not skipped by
the public getters and setters. -/
theorem reg_underscore_field_exposed :
    (reg_get c6dev "_x").1 = 5 ∧ (reg_get c6dev "_x").1 ≠ 0 ∧
    (reg_set c6dev "_x" 7).1 = 0 ∧ ((reg_set c6dev "_x" 7).2).data = [7, 0] :=
  ⟨rfl, by decide, rfl, rfl⟩

lemma reg_lock_ok (d : reg_dev) (hemp : reg_empty d = 0)
    (hmtx : d.has_mutex = false) (hlc : d.lock_count = 0) :
    reg_lock d = (0, { d with lock_count := 1 }) := by
  unfold reg_lock
  rw [if_neg (by rw [hemp]; exact fun h => h rfl)]
  rw [if_neg (by rw [hmtx]; simp)]
  rw [if_neg (by rw [hlc]; exact fun h => h rfl)]
  rw [hlc]
  simp

lemma reg_unlock_ok (d : reg_dev) (hemp : reg_empty d = 0)
    (hmtx : d.has_mutex = false) (hlc : d.lock_count = 1) :
    reg_unlock d = (0, { d with lock_count := 0 }) := by
  unfold reg_unlock
  rw [if_neg (by rw [hemp]; exact fun h => h rfl)]
  rw [if_neg (by rw [hmtx]; simp)]
  rw [if_neg (by rw [hlc]; exact fun h => h rfl)]
  rw [hlc]
  simp

lemma reg_get_found (d d1 : reg_dev) (name : String) (f : reg_field)
    (hlk : reg_lock d = (0, d1)) (hfind : reg_find d1.field_map name = some f)
    (hemp1 : reg_empty d1 = 0) (hmtx1 : d1.has_mutex = false)
    (hlc1 : d1.lock_count = 1) :
    (reg_get d name).1 = (reg_get_field d1 f).1 := by
  unfold reg_get
  rw [hlk]
  dsimp only
  rw [if_neg (fun h : (0 : Int) ≠ 0 => h rfl)]
  rw [hfind]
  dsimp only
  obtain ⟨a, ha⟩ := reg_get_field_state d1 f
  rw [ha]
  rw [reg_unlock_ok { d1 with data := a }
        (by rw [reg_empty_update_data]; exact hemp1)
        (show ({ d1 with data := a } : reg_dev).has_mutex = false from hmtx1)
        (show ({ d1 with data := a } : reg_dev).lock_count = 1 from hlc1)]
  dsimp only
  rw [if_neg (fun h : (0 : Int) ≠ 0 => h rfl)]

lemma reg_set_found (d d1 : reg_dev) (name : String) (f : reg_field) (v : Nat)
    (hlk : reg_lock d = (0, d1)) (hfind : reg_find d1.field_map name = some f)
    (hemp1 : reg_empty d1 = 0) (hmtx1 : d1.has_mutex = false)
    (hlc1 : d1.lock_count = 1) :
    ((reg_set d name v).2).data = ((reg_set_field d1 f v).2).data := by
  unfold reg_set
  rw [hlk]
  dsimp only
  rw [if_neg (fun h : (0 : Int) ≠ 0 => h rfl)]
  rw [hfind]
  dsimp only
  obtain ⟨a, w, ha⟩ := reg_set_field_state d1 f v
  split_ifs with hst hul <;>
    first
      | rfl
      | (rw [ha, reg_unlock_ok { d1 with data := a, wlog := w }
              (by rw [reg_empty_update]; exact hemp1)
              (show ({ d1 with data := a, wlog := w } : reg_dev).has_mutex = false
                from hmtx1)
              (show ({ d1 with data := a, wlog := w } : reg_dev).lock_count = 1
                from hlc1)]
         try rfl)

/-- C6 amended: `reg_find` performs a plain first-match name scan with no
underscore filtering, so `reg_get` and `reg_set` operate on a found
underscore-named field exactly as on any other field: `reg_get` returns
`reg_get_field` of that field and `reg_set` stores through `reg_set_field`
on it. -/
theorem reg_get_set_operate_on_underscore (d : reg_dev) (name : String)
    (f : reg_field) (v : Nat)
    (hus : underscore name = true)
    (hfind : reg_find d.field_map name = some f)
    (hemp : reg_empty d = 0) (hlc : d.lock_count = 0)
    (hmtx : d.has_mutex = false) :
    (reg_get d name).1 = (reg_get_field { d with lock_count := 1 } f).1 ∧
    ((reg_set d name v).2).data
      = ((reg_set_field { d with lock_count := 1 } f v).2).data := by
  have hlk := reg_lock_ok d hemp hmtx hlc
  constructor
  · exact reg_get_found d _ name f hlk hfind
      (by rw [reg_empty_set_lock]; exact hemp) hmtx rfl
  · exact reg_set_found d _ name f v hlk hfind
      (by rw [reg_empty_set_lock]; exact hemp) hmtx rfl

/-- Witness for the amended C6 at a concrete input. -/
theorem reg_get_set_operate_on_underscore_witness :
    (reg_get c6dev "_x").1
      = (reg_get_field { c6dev with lock_count := 1 } ⟨"_x", 0, 0, 16, 0⟩).1 ∧
    ((reg_set c6dev "_x" 7).2).data
      = ((reg_set_field { c6dev with lock_count := 1 } ⟨"_x", 0, 0, 16, 0⟩ 7).2).data :=
  reg_get_set_operate_on_underscore c6dev "_x" ⟨"_x", 0, 0, 16, 0⟩ 7
    rfl rfl rfl rfl rfl

/-!
## Virtual-device state lemmas
-/

lemma findIdx?_some_bounds {α : Type} (p : α → Bool) :
    ∀ (l : List α) (s i : Nat), List.findIdx? p l s = some i →
      s ≤ i ∧ i < s + l.length := by
  intro l
  induction l with
  | nil => intro s i h; simp [List.findIdx?] at h
  | cons x xs ih =>
    intro s i h
    rw [List.findIdx?_cons] at h
    split_ifs at h with hp
    · simp only [Option.some.injEq] at h
      simp only [List.length_cons]
      omega
    · obtain ⟨h1, h2⟩ := ih (s + 1) i h
      simp only [List.length_cons]
      omega

lemma findIdx?_some_lt_length {α : Type} (p : α → Bool) (l : List α) (i : Nat)
    (h : List.findIdx? p l = some i) : i < l.length := by
  have := findIdx?_some_bounds p l 0 i h
  omega

lemma getD_set_self (l : List Nat) (i a : Nat) (h : i < l.length) :
    (l.set i a).getD i 0 = a := by
  rw [List.getD_eq_getElem?_getD, List.getElem?_set_self (by simpa using h)]
  rfl

lemma reg_reset_go_state (e : Nat) (l : List (Nat × reg_field)) (v : reg_virt) :
    ∃ a w, (reg_reset_go e l v).2
      = { v with base := { v.base with data := a, wlog := w } } := by
  induction l generalizing v with
  | nil => exact ⟨v.base.data, v.base.wlog, rfl⟩
  | cons p rest ih =>
    obtain ⟨i, fi⟩ := p
    unfold reg_reset_go
    dsimp only
    split_ifs with h1 h2 h3
    · exact ih v
    · exact ih v
    · obtain ⟨a, w, hst⟩ := reg_set_field_state v.base fi (reg_obtain v fi.name)
      exact ⟨a, w, by rw [hst]⟩
    · obtain ⟨a, w, hst⟩ := reg_set_field_state v.base fi (reg_obtain v fi.name)
      obtain ⟨a2, w2, h2'⟩ :=
        ih { v with base := (reg_set_field v.base fi (reg_obtain v fi.name)).2 }
      refine ⟨a2, w2, ?_⟩
      rw [h2', hst]

lemma reg_reset_state (v : reg_virt) (e : Nat) :
    ∃ a w, (reg_reset v e).2
      = { v with base := { v.base with data := a, wlog := w } } := by
  unfold reg_reset
  dsimp only
  obtain ⟨a, w, h⟩ := reg_reset_go_state e
    (({ v with base :=
        { v.base with data := clearN v.base.reg_num v.base.data } } :
        reg_virt).base.field_map.getD []).enum
    { v with base := { v.base with data := clearN v.base.reg_num v.base.data } }
  exact ⟨a, w, by rw [h]⟩

lemma reg_adjust_switch_state (v2 : reg_virt) (name : String) (val : Nat)
    (log0 : List Nat) :
    ∃ fm a w, (reg_adjust_switch v2 name val log0).2.1
      = { v2 with base :=
          { v2.base with field_map := fm, data := a, wlog := w } } := by
  unfold reg_adjust_switch
  cases hscan : adjust_scan v2.maps name val with
  | none => exact ⟨v2.base.field_map, v2.base.data, v2.base.wlog, rfl⟩
  | some p =>
    obtain ⟨id, f⟩ := p
    dsimp only
    split_ifs with hld hr
    · exact ⟨v2.base.field_map, v2.base.data, v2.base.wlog, rfl⟩
    all_goals
      obtain ⟨a, w, hrs⟩ := reg_reset_state
        { v2 with base :=
          { v2.base with field_map := some (v2.maps.getD id []) } }
        ((v2.maps.getD id []).findIdx (fun g => g.name == name))
    all_goals exact ⟨some (v2.maps.getD id []), a, w, by rw [hrs]⟩

lemma reg_adjust_state (v : reg_virt) (name : String) (val : Nat) (i : Nat)
    (hbad : reg_bad v = 0)
    (hidx : v.fields.findIdx? (fun nm => nm == name) = some i) :
    ∃ fm a w, (reg_adjust v name val).2.1
      = { v with data := v.data.set i val,
                 base := { v.base with field_map := fm, data := a, wlog := w } } := by
  unfold reg_adjust
  rw [if_neg (by rw [hbad]; exact fun h => h rfl)]
  rw [hidx]
  dsimp only
  by_cases hu : underscore name = true
  · rw [if_pos hu]
    exact ⟨v.base.field_map, v.base.data, v.base.wlog, rfl⟩
  · rw [if_neg hu]
    cases hfm : v.base.field_map with
    | none =>
      dsimp only
      by_cases hld : v.load_fn v.base.arg 0 ≠ 0
      · rw [if_pos hld]
        exact ⟨v.base.field_map, v.base.data, v.base.wlog, rfl⟩
      · rw [if_neg hld]
        cases hf : reg_find (some (v.maps.getD 0 [])) name with
        | some f =>
          dsimp only
          by_cases hfit : reg_fits val f.width = true
          · rw [if_pos hfit]
            obtain ⟨a, w, hst⟩ := reg_set_field_state { v.base with field_map := some (v.maps.getD 0 []) } f val
            rw [hst]
            exact ⟨some (v.maps.getD 0 []), a, w, rfl⟩
          · rw [if_neg hfit]
            obtain ⟨fm, a, w, hsw⟩ := reg_adjust_switch_state { v with data := v.data.set i val, base := { v.base with field_map := some (v.maps.getD 0 []) } } name val [0]
            rw [hsw]
            exact ⟨fm, a, w, rfl⟩
        | none =>
          dsimp only
          obtain ⟨fm, a, w, hsw⟩ := reg_adjust_switch_state { v with data := v.data.set i val, base := { v.base with field_map := some (v.maps.getD 0 []) } } name val [0]
          rw [hsw]
          exact ⟨fm, a, w, rfl⟩
    | some m =>
      dsimp only
      cases hf : reg_find (some m) name with
      | some f =>
        dsimp only
        by_cases hfit : reg_fits val f.width = true
        · rw [if_pos hfit]
          obtain ⟨a, w, hst⟩ := reg_set_field_state v.base f val
          rw [hst]
          exact ⟨v.base.field_map, a, w, rfl⟩
        · rw [if_neg hfit]
          obtain ⟨fm, a, w, hsw⟩ := reg_adjust_switch_state { v with data := v.data.set i val } name val []
          rw [hsw]
          exact ⟨fm, a, w, rfl⟩
      | none =>
        dsimp only
        obtain ⟨fm, a, w, hsw⟩ := reg_adjust_switch_state { v with data := v.data.set i val } name val []
        rw [hsw]
        exact ⟨fm, a, w, rfl⟩

/-- C10: for every name present in the virtual fields list, `reg_adjust`
stores the value into the corresponding virtual slot on every path, so even
when the call subsequently fails, a later `reg_obtain` returns the value:
the virtual buffer is not rolled back on error. -/
theorem reg_adjust_virtual_store_no_rollback (v : reg_virt) (name : String)
    (val i : Nat) (hbad : reg_bad v = 0)
    (hidx : v.fields.findIdx? (fun nm => nm == name) = some i)
    (hlen : v.fields.length ≤ v.data.length) :
    ((reg_adjust v name val).2.1).data = v.data.set i val ∧
    reg_obtain ((reg_adjust v name val).2.1) name = val := by
  obtain ⟨fm, a, w, h⟩ := reg_adjust_state v name val i hbad hidx
  have hi : i < v.data.length :=
    Nat.lt_of_lt_of_le (findIdx?_some_lt_length _ _ _ hidx) hlen
  constructor
  · rw [h]
  · rw [h]
    unfold reg_obtain
    rw [if_neg (by rw [show reg_bad { v with data := v.data.set i val, base := { v.base with field_map := fm, data := a, wlog := w } } = reg_bad v from rfl, hbad]; exact fun hh => hh rfl)]
    dsimp only
    rw [hidx]
    dsimp only
    exact getD_set_self v.data i val hi

/-- Witness for C10 at a concrete input where `reg_adjust` fails (511 fits
no map) and the virtual slot nevertheless retains 511. -/
theorem reg_adjust_virtual_store_no_rollback_witness :
    ((reg_adjust c10v "A" 511).2.1).data = c10v.data.set 0 511 ∧
    reg_obtain ((reg_adjust c10v "A" 511).2.1) "A" = 511 :=
  reg_adjust_virtual_store_no_rollback c10v "A" 511 0 rfl rfl (by decide)

lemma adjust_scan_eq (maps : List (List reg_field)) (name : String) (val : Nat)
    (id : Nat) (f : reg_field) (hid : id < maps.length)
    (hfind : reg_find (some (maps.getD id [])) name = some f)
    (hfits : reg_fits val f.width = true)
    (hfirst : ∀ j, j < id → ∀ g,
      reg_find (some (maps.getD j [])) name = some g →
      reg_fits val g.width = false) :
    adjust_scan maps name val = some (id, f) := by
  unfold adjust_scan
  have go : ∀ (ms : List (List reg_field)) (k id' : Nat), id' < ms.length →
      reg_find (some (ms.getD id' [])) name = some f →
      (∀ j, j < id' → ∀ g, reg_find (some (ms.getD j [])) name = some g →
        reg_fits val g.width = false) →
      (List.enumFrom k ms).find? (fun p =>
        match reg_find (some p.2) name with
        | some f => reg_fits val f.width
        | none => false) = some (k + id', ms.getD id' []) := by
    intro ms
    induction ms with
    | nil =>
      intro k id' h
      simp at h
    | cons m0 rest ih =>
      intro k id' hlt hfind' hfirst'
      rw [List.enumFrom_cons]
      cases id' with
      | zero =>
        rw [List.find?_cons_of_pos]
        · rfl
        · rw [show ((m0 :: rest).getD 0 [] : List reg_field) = m0 from rfl] at hfind'
          rw [hfind']
          exact hfits
      | succ j' =>
        rw [List.find?_cons_of_neg]
        · rw [ih (k + 1) j' (by simpa using hlt)
            (by rw [show ((m0 :: rest).getD (j' + 1) [] : List reg_field)
                  = rest.getD j' [] from rfl] at hfind'; exact hfind')
            (by intro j hj g hg
                exact hfirst' (j + 1) (by omega) g hg)]
          simp only [Option.some.injEq, Prod.mk.injEq]
          exact ⟨by omega, rfl⟩
        · cases hg : reg_find (some m0) name with
          | none => simp [hg]
          | some g =>
            have hfalse := hfirst' 0 (by omega) g
              (by rw [show ((m0 :: rest).getD 0 [] : List reg_field) = m0 from rfl]
                  exact hg)
            simp [hg, hfalse]
  rw [show (List.enum maps) = List.enumFrom 0 maps from rfl]
  rw [go maps 0 id hid hfind hfirst]
  simp only [Option.map_some', Nat.zero_add]
  rw [hfind]
  rfl

lemma adjust_scan_none (maps : List (List reg_field)) (name : String) (val : Nat)
    (hall : ∀ j, j < maps.length → ∀ g,
      reg_find (some (maps.getD j [])) name = some g →
      reg_fits val g.width = false) :
    adjust_scan maps name val = none := by
  unfold adjust_scan
  rw [List.find?_eq_none.mpr]
  · rfl
  · intro x hmem
    obtain ⟨j, mj⟩ := x
    have hj : j < maps.length := List.fst_lt_of_mem_enum hmem
    have hget : maps[j]? = some mj := List.mem_enum_iff_getElem?.mp hmem
    have hgd : maps.getD j [] = mj := by
      rw [List.getD_eq_getElem?_getD, hget]
      rfl
    cases hg : reg_find (some mj) name with
    | none => simp [hg]
    | some g =>
      have := hall j hj g (by rw [hgd]; exact hg)
      simp [hg, this]

lemma reg_adjust_switch_of_scan_none (v2 : reg_virt) (name : String) (val : Nat)
    (log0 : List Nat) (hscan : adjust_scan v2.maps name val = none) :
    reg_adjust_switch v2 name val log0 = (-1, v2, log0) := by
  unfold reg_adjust_switch
  rw [hscan]

lemma reg_adjust_switch_spec (v2 : reg_virt) (name : String) (val : Nat)
    (log0 : List Nat) (id : Nat) (f : reg_field)
    (hscan : adjust_scan v2.maps name val = some (id, f)) :
    ((reg_adjust_switch v2 name val log0).2.2 = log0 ++ [id]) ∧
    (v2.load_fn v2.base.arg id = 0 →
      ((reg_adjust_switch v2 name val log0).2.1).base.field_map
        = some (v2.maps.getD id [])) := by
  unfold reg_adjust_switch
  rw [hscan]
  dsimp only
  constructor
  · split_ifs with h1 h2 <;> rfl
  · intro hld
    rw [if_neg (by rw [hld]; exact fun h => h rfl)]
    obtain ⟨a, w, hrs⟩ := reg_reset_state { v2 with base := { v2.base with field_map := some (v2.maps.getD id []) } } ((v2.maps.getD id []).findIdx (fun g => g.name == name))
    split_ifs with hr
    · rw [hrs]
    · rw [hrs]

/-- C7: with an active map installed, `reg_adjust` (a) uses the active map
with no `load_fn` call when it contains the name and the value fits there;
(b) otherwise selects the first map in declaration order containing the name
with sufficient width, calling `load_fn` with exactly that map's index and
installing that map on load success; (c) fails with -1, no load call, and an
unchanged active map when no map qualifies. -/
theorem reg_adjust_map_selection (v : reg_virt) (name : String) (val : Nat)
    (m : List reg_field) (i : Nat)
    (hbad : reg_bad v = 0)
    (hmap : v.base.field_map = some m)
    (hidx : v.fields.findIdx? (fun nm => nm == name) = some i)
    (hus : underscore name = false) :
    (∀ f, reg_find (some m) name = some f → reg_fits val f.width = true →
      reg_adjust v name val
        = ((reg_set_field v.base f val).1,
           { v with data := v.data.set i val,
                    base := (reg_set_field v.base f val).2 },
           ([] : List Nat)))
    ∧
    (∀ id f, (∀ g, reg_find (some m) name = some g →
        reg_fits val g.width = false) →
      id < v.maps.length →
      reg_find (some (v.maps.getD id [])) name = some f →
      reg_fits val f.width = true →
      (∀ j, j < id → ∀ g, reg_find (some (v.maps.getD j [])) name = some g →
        reg_fits val g.width = false) →
      ((reg_adjust v name val).2.2 = [id] ∧
       (v.load_fn v.base.arg id = 0 →
         ((reg_adjust v name val).2.1).base.field_map
           = some (v.maps.getD id []))))
    ∧
    ((∀ g, reg_find (some m) name = some g → reg_fits val g.width = false) →
     (∀ j, j < v.maps.length → ∀ g,
        reg_find (some (v.maps.getD j [])) name = some g →
        reg_fits val g.width = false) →
     ((reg_adjust v name val).1 = -1 ∧ (reg_adjust v name val).2.2 = [] ∧
      ((reg_adjust v name val).2.1).base.field_map = some m)) := by
  have hstep : ∀ rest : Int × reg_virt × List Nat,
      reg_adjust v name val
        = (if (reg_find (some m) name).isSome ∧
              reg_fits val (((reg_find (some m) name).getD default).width) = true
           then rest else rest) → True := fun _ _ => trivial
  clear hstep
  unfold reg_adjust
  rw [if_neg (by rw [hbad]; exact fun h => h rfl)]
  rw [hidx]
  dsimp only
  rw [if_neg (by rw [hus]; simp)]
  rw [hmap]
  dsimp only
  refine ⟨?_, ?_, ?_⟩
  · intro f hf hfit
    rw [hf]
    dsimp only
    rw [if_pos hfit]
  · intro id f hmiss hid hfind hfits hfirst
    have hscan := adjust_scan_eq v.maps name val id f hid hfind hfits hfirst
    cases hcur : reg_find (some m) name with
    | none =>
      dsimp only
      exact reg_adjust_switch_spec _ name val [] id f hscan
    | some g =>
      dsimp only
      rw [if_neg (by rw [hmiss g hcur]; simp)]
      exact reg_adjust_switch_spec _ name val [] id f hscan
  · intro hmiss hall
    have hscan := adjust_scan_none v.maps name val hall
    cases hcur : reg_find (some m) name with
    | none =>
      dsimp only
      rw [reg_adjust_switch_of_scan_none { v with data := v.data.set i val } name val [] hscan]
      exact ⟨rfl, rfl, hmap⟩
    | some g =>
      dsimp only
      rw [if_neg (by rw [hmiss g hcur]; simp)]
      rw [reg_adjust_switch_of_scan_none { v with data := v.data.set i val } name val [] hscan]
      exact ⟨rfl, rfl, hmap⟩

/-- Witness for C7 at a concrete input: the active map contains "A" with a
fitting value, so it is set there with no load call. -/
theorem reg_adjust_map_selection_witness :
    reg_adjust c7v "A" 5
      = ((reg_set_field c7v.base ⟨"A", 0, 0, 8, 0⟩ 5).1,
         { c7v with data := c7v.data.set 0 5,
                    base := (reg_set_field c7v.base ⟨"A", 0, 0, 8, 0⟩ 5).2 },
         ([] : List Nat)) :=
  (reg_adjust_map_selection c7v "A" 5 c7map1 0 rfl rfl rfl rfl).1
    ⟨"A", 0, 0, 8, 0⟩ rfl rfl

/-- C8 counterexample: when `reg_adjust` switches from `c8map1` to `c8map2`
(value 511 no longer fits the 8-bit "T"), the hardware write sequence is
register 0 (the triggering field "T") first and register 1 ("O") second —
the triggering field is re-set during the pass at its map position, not
written at the end after the other fields. -/
theorem reg_adjust_switch_trigger_written_first :
    ((reg_adjust c8v "T" 511).2.1).base.wlog = [(0, 511), (1, 2)] ∧
    ((reg_adjust c8v "T" 511).2.1).base.wlog.getLast? ≠ some (0, 511) :=
  ⟨rfl, by decide⟩

lemma reg_obtain_congr (v1 v2 : reg_virt) (nm : String)
    (hf : v1.fields = v2.fields) (hd : v1.data = v2.data)
    (hhd : v1.has_data = v2.has_data) (hm : v1.maps = v2.maps)
    (hlf : v1.has_load_fn = v2.has_load_fn) :
    reg_obtain v1 nm = reg_obtain v2 nm := by
  unfold reg_obtain reg_bad
  rw [hf, hd, hhd, hm, hlf]

lemma reg_flags_congr (d1 d2 : reg_dev) (f : Option reg_field) (fl : Nat)
    (h : d1.flags = d2.flags) :
    reg_flags (some d1) f fl = reg_flags (some d2) f fl := by
  cases f <;> simp [reg_flags, h]

lemma reg_reset_go_eq_apply (v : reg_virt) (e : Nat) :
    ∀ (l : List (Nat × reg_field)) (vc : reg_virt),
      vc.fields = v.fields → vc.data = v.data → vc.has_data = v.has_data →
      vc.maps = v.maps → vc.has_load_fn = v.has_load_fn →
      vc.base.flags = v.base.flags →
      reg_reset_go e l vc
        = reset_apply v (l.filter (fun p =>
            (decide (p.1 = e) ||
              !((reg_flags (some v.base) (some p.2) REG_NORESET) ||
                underscore p.2.name))
            && reg_fits (reg_obtain v p.2.name) p.2.width)) vc := by
  intro l
  induction l with
  | nil => intro vc _ _ _ _ _ _; rfl
  | cons p rest ih =>
    obtain ⟨i, fi⟩ := p
    intro vc h1 h2 h3 h4 h5 h6
    have hob : reg_obtain vc fi.name = reg_obtain v fi.name :=
      reg_obtain_congr vc v fi.name h1 h2 h3 h4 h5
    have hfl : reg_flags (some vc.base) (some fi) REG_NORESET
        = reg_flags (some v.base) (some fi) REG_NORESET :=
      reg_flags_congr vc.base v.base (some fi) REG_NORESET h6
    unfold reg_reset_go
    dsimp only
    rw [List.filter_cons]
    by_cases hskip : i ≠ e ∧
        ((reg_flags (some vc.base) (some fi) REG_NORESET) ||
          underscore fi.name) = true
    · rw [if_pos hskip]
      rw [if_neg (by
            obtain ⟨hne, hor⟩ := hskip
            rw [hfl] at hor
            simp only [hor, Bool.not_true, Bool.or_false, Bool.false_and,
              decide_eq_true_eq]
            simp [hne])]
      exact ih vc h1 h2 h3 h4 h5 h6
    · rw [if_neg hskip]
      by_cases hfit : reg_fits (reg_obtain vc fi.name) fi.width = true
      · have hcond : ((decide (i = e) ||
            !((reg_flags (some v.base) (some fi) REG_NORESET) ||
              underscore fi.name))
            && reg_fits (reg_obtain v fi.name) fi.width) = true := by
          have hfit' := hob ▸ hfit
          rw [Decidable.not_and_iff_or_not] at hskip
          rcases hskip with hie | hor
          · simp only [ne_eq, Decidable.not_not] at hie
            simp [hie, hfit']
          · rw [hfl] at hor
            simp only [Bool.not_eq_true] at hor
            simp [hor, hfit']
        rw [if_neg (by rw [hfit]; simp)]
        rw [if_pos hcond]
        rw [hob]
        unfold reset_apply
        try dsimp only
        split_ifs with hst
        · rfl
        · obtain ⟨a, w, hsf⟩ :=
            reg_set_field_state vc.base fi (reg_obtain v fi.name)
          exact ih { vc with base := (reg_set_field vc.base fi (reg_obtain v fi.name)).2 }
            h1 h2 h3 h4 h5 (by rw [hsf]; exact h6)
      · rw [if_pos (by rw [show reg_fits (reg_obtain vc fi.name) fi.width = false
              from Bool.not_eq_true _ ▸ eq_false_of_ne_true hfit]; rfl)]
        rw [if_neg (by
              rw [hob] at hfit
              simp only [Bool.and_eq_true, not_and]
              intro _
              exact hfit)]
        exact ih vc h1 h2 h3 h4 h5 h6

/-- C8 amended: the reset pass (`reg_reset v e`, with `e` the index of the
triggering field in the active map) zeroes the device buffer and then
re-materializes, in map order, exactly those fields that are the triggering
field or are neither NORESET nor underscore-named, each to its value in the
virtual buffer, skipping fields whose virtual value does not fit their
width; the virtual buffer itself is unchanged, so skipped values remain in
it.  (The triggering field is written during the pass at its map position,
not at the end.) -/
theorem reg_reset_rematerializes_selected (v : reg_virt) (e : Nat) :
    reg_reset v e
      = reset_apply v (reset_selected v e)
          { v with base := { v.base with data := clearN v.base.reg_num v.base.data } }
    ∧ ((reg_reset v e).2).data = v.data := by
  constructor
  · unfold reg_reset reset_selected
    dsimp only
    exact reg_reset_go_eq_apply v e _ _ rfl rfl rfl rfl rfl rfl
  · obtain ⟨a, w, h⟩ := reg_reset_state v e
    rw [h]

lemma cdiv_bounds (x y : Nat) (hy : 1 ≤ y) (hx : 1 ≤ x) :
    x ≤ y * reg_cdiv x y ∧ y * reg_cdiv x y < x + y ∧ 1 ≤ reg_cdiv x y := by
  unfold reg_cdiv
  have hqr := Nat.div_add_mod (x + y - 1) y
  have hr : (x + y - 1) % y < y := Nat.mod_lt _ (by omega)
  refine ⟨by omega, by omega, ?_⟩
  rw [Nat.one_le_div_iff (by omega)]
  omega

lemma len0v_facts (o w W : Nat) (hg : geomOK o w W) :
    1 ≤ len0v o w W ∧ len0v o w W ≤ w ∧ o + len0v o w W ≤ W := by
  obtain ⟨h1, h2, h3, h4, h5⟩ := hg
  unfold len0v
  omega

lemma nchunks_facts (o w W : Nat) (hg : geomOK o w W) :
    1 ≤ nchunks o w W ∧ o + w ≤ nchunks o w W * W ∧
    nchunks o w W * W < o + w + W := by
  obtain ⟨c1, c2, c3⟩ := cdiv_bounds (o + w) W hg.1 (by have := hg.2.2.2.1; omega)
  rw [Nat.mul_comm] at c1 c2
  exact ⟨c3, c1, c2⟩

lemma nchunks_le_126 (o w W : Nat) (hg : geomOK o w W) : nchunks o w W ≤ 126 := by
  obtain ⟨n1, n2, n3⟩ := nchunks_facts o w W hg
  have hle : nchunks o w W ≤ nchunks o w W * W :=
    Nat.le_mul_of_pos_right _ (by have := hg.1; omega)
  obtain ⟨h1, h2, h3, h4, h5⟩ := hg
  omega

lemma chunkLen_facts (o w W n : Nat) (hg : geomOK o w W) (hn : n < nchunks o w W) :
    1 ≤ chunkLen o w W n ∧ chunkBit o n + chunkLen o w W n ≤ W ∧
    chunkStart o w W n + chunkLen o w W n ≤ w := by
  obtain ⟨l1, l2, l3⟩ := len0v_facts o w W hg
  obtain ⟨n1, n2, n3⟩ := nchunks_facts o w W hg
  have hg' := hg
  obtain ⟨h1, h2, h3, h4, h5⟩ := hg'
  unfold chunkLen chunkBit chunkStart
  cases n with
  | zero =>
    simp only [if_pos]
    omega
  | succ m =>
    simp only [Nat.succ_ne_zero, if_false, Nat.add_sub_cancel]
    have hmono : (m + 1) * W ≤ (nchunks o w W - 1) * W :=
      Nat.mul_le_mul_right W (by omega)
    have hsplit : nchunks o w W * W = (nchunks o w W - 1) * W + W := by
      have he : nchunks o w W - 1 + 1 = nchunks o w W := by omega
      calc nchunks o w W * W = (nchunks o w W - 1 + 1) * W := by rw [he]
        _ = (nchunks o w W - 1) * W + W := by rw [Nat.succ_mul]
    have hsm : (m + 1) * W = m * W + W := Nat.succ_mul m W
    by_cases hc : o + w ≤ W
    · exfalso
      have h2n : 2 ≤ nchunks o w W := by omega
      have : 2 * W ≤ nchunks o w W * W := Nat.mul_le_mul_right W h2n
      omega
    · have hl0 : len0v o w W = W - o := by
        unfold len0v
        omega
      rw [hl0]
      rw [hl0] at l1 l2 l3
      refine ⟨?_, ?_, ?_⟩ <;> omega

lemma chunkOf_spec (o w W k : Nat) (hg : geomOK o w W) (hk : k < w) :
    chunkOf o w W k < nchunks o w W ∧
    chunkStart o w W (chunkOf o w W k) ≤ k ∧
    k < chunkStart o w W (chunkOf o w W k) + chunkLen o w W (chunkOf o w W k) := by
  obtain ⟨l1, l2, l3⟩ := len0v_facts o w W hg
  obtain ⟨n1, n2, n3⟩ := nchunks_facts o w W hg
  have hg' := hg
  obtain ⟨h1, h2, h3, h4, h5⟩ := hg'
  unfold chunkOf
  by_cases hc : k < len0v o w W
  · rw [if_pos hc]
    unfold chunkStart chunkLen
    simp only [if_pos]
    omega
  · rw [if_neg hc]
    have hdm := Nat.div_add_mod (k - len0v o w W) W
    have hmod : (k - len0v o w W) % W < W := Nat.mod_lt _ (by omega)
    set m := (k - len0v o w W) / W with hm
    unfold chunkStart chunkLen
    simp only [Nat.succ_ne_zero, if_false, Nat.add_sub_cancel]
    have hwgt : ¬(o + w ≤ W) := by
      unfold len0v at hc l2
      omega
    have hl0 : len0v o w W = W - o := by
      unfold len0v
      omega
    have hmW : W * m ≤ k - len0v o w W := by omega
    have hstart : len0v o w W + m * W ≤ k := by
      have := Nat.mul_comm W m
      omega
    have hsucc : (m + 1) * W = m * W + W := Nat.succ_mul m W
    have hnch : m + 1 < nchunks o w W := by
      have hlt : (m + 1) * W < o + w := by
        have := Nat.mul_comm W m
        omega
      have : (m + 1) * W < nchunks o w W * W := by omega
      exact Nat.lt_of_mul_lt_mul_right this
    refine ⟨hnch, hstart, ?_⟩
    have := Nat.mul_comm W m
    omega

lemma chunkOf_unique (o w W k n : Nat) (hg : geomOK o w W)
    (hn : n < nchunks o w W) (hlo : chunkStart o w W n ≤ k)
    (hhi : k < chunkStart o w W n + chunkLen o w W n) :
    chunkOf o w W k = n := by
  obtain ⟨l1, l2, l3⟩ := len0v_facts o w W hg
  have hg' := hg
  obtain ⟨h1, h2, h3, h4, h5⟩ := hg'
  unfold chunkStart at hlo hhi
  unfold chunkLen at hhi
  unfold chunkOf
  cases n with
  | zero =>
    simp only [if_pos] at hlo hhi
    rw [if_pos (by omega)]
  | succ m =>
    simp only [Nat.succ_ne_zero, if_false, Nat.add_sub_cancel] at hlo hhi
    rw [if_neg (by omega)]
    have hdiv : (k - len0v o w W) / W = m := by
      apply Nat.div_eq_of_lt_le
      · have := Nat.mul_comm W m
        omega
      · have h1' : (m + 1) * W = m * W + W := Nat.succ_mul m W
        have := Nat.mul_comm W (m + 1)
        omega
    omega

lemma reg_mask64_testBit (s l : Nat) (hl : 1 ≤ l) (hs : s + l ≤ 64) (b : Nat) :
    (reg_mask64 s l).testBit b = (decide (s ≤ b) && decide (b < s + l)) := by
  unfold reg_mask64 MAX_FIELD
  rw [if_neg (by omega)]
  rw [if_neg (by omega)]
  have hm : (if l = 64 then U64 - 1 else (1 <<< l) - 1) = 2 ^ l - 1 := by
    split_ifs with h
    · rw [h]
      rfl
    · rw [Nat.one_shiftLeft]
  rw [hm, Nat.testBit_shiftLeft, Nat.testBit_two_pow_sub_one]
  simp only [ge_iff_le]
  by_cases h1 : s ≤ b
  · simp only [h1, decide_True, Bool.true_and]
    exact decide_eq_decide.mpr (by omega)
  · simp only [h1, decide_False, Bool.false_and]

lemma reg_mask64_lt (s l : Nat) : reg_mask64 s l < 2 ^ (s + l) := by
  unfold reg_mask64
  by_cases h1 : l = 0 ∨ l > MAX_FIELD
  · rw [if_pos h1]
    exact Nat.two_pow_pos _
  · rw [if_neg h1]
    by_cases h2 : s ≥ MAX_FIELD ∨ s + l > MAX_FIELD
    · rw [if_pos h2]
      exact Nat.two_pow_pos _
    · rw [if_neg h2]
      have hm : (if l = MAX_FIELD then U64 - 1 else (1 <<< l) - 1) = 2 ^ l - 1 := by
        split_ifs with h
        · rw [h]
          rfl
        · rw [Nat.one_shiftLeft]
      rw [hm, Nat.shiftLeft_eq]
      have h2l : 2 ^ l - 1 < 2 ^ l := Nat.sub_lt (Nat.two_pow_pos _) (by omega)
      calc (2 ^ l - 1) * 2 ^ s < 2 ^ l * 2 ^ s :=
            mul_lt_mul_of_pos_right h2l (Nat.two_pow_pos _)
        _ = 2 ^ (s + l) := by rw [← Nat.pow_add, Nat.add_comm]

lemma reg_mask32_eq_mask64 (s l : Nat) (hl : 1 ≤ l) (hs : s + l ≤ 32) :
    reg_mask32 s l = reg_mask64 s l := by
  unfold reg_mask32 MAX_REG
  rw [if_neg (by omega)]
  rw [if_neg (by omega)]
  apply Nat.mod_eq_of_lt
  calc reg_mask64 s l < 2 ^ (s + l) := reg_mask64_lt s l
    _ ≤ 2 ^ 32 := Nat.pow_le_pow_right (by omega) hs
    _ = U32 := rfl

lemma reg_mask32_testBit (s l : Nat) (hl : 1 ≤ l) (hs : s + l ≤ 32) (b : Nat) :
    (reg_mask32 s l).testBit b = (decide (s ≤ b) && decide (b < s + l)) := by
  rw [reg_mask32_eq_mask64 s l hl hs]
  exact reg_mask64_testBit s l hl (by omega) b

lemma reg_mask32_lt (s l : Nat) (hl : 1 ≤ l) (hs : s + l ≤ 32) :
    reg_mask32 s l < 2 ^ (s + l) := by
  rw [reg_mask32_eq_mask64 s l hl hs]
  exact reg_mask64_lt s l

lemma check_width_facts (d : reg_dev) (f : reg_field)
    (hg : geomOK f.offs f.width d.reg_width)
    (hU : d.reg_num < 2 ^ 63)
    (hck : reg_check_field_width d f = 0) :
    f.reg < d.reg_num ∧
    (reg_flags (some d) (some f) REG_DESCEND = true →
      nchunks f.offs f.width d.reg_width ≤ f.reg + 1) ∧
    (reg_flags (some d) (some f) REG_DESCEND = false →
      f.reg + nchunks f.offs f.width d.reg_width ≤ d.reg_num) := by
  have hn126 := nchunks_le_126 f.offs f.width d.reg_width hg
  unfold reg_check_field_width at hck
  dsimp only at hck
  unfold nchunks
  split_ifs at hck with h1 h2 h3 h4 h5 h6
  · -- DESCEND, check passed: ¬(wadd f.reg 1 < num_regs)
    refine ⟨by omega, fun _ => ?_, fun hf => absurd h4 (by rw [hf]; simp)⟩
    rw [wadd_eq f.reg 1 (by unfold U64; omega)] at h5
    unfold nchunks at hn126
    omega
  · -- ascending, check passed: ¬(wadd f.reg num_regs > reg_num)
    refine ⟨by omega, fun ht => absurd ht h4, fun _ => ?_⟩
    rw [wadd_eq f.reg (reg_cdiv (f.offs + f.width) d.reg_width)
        (by unfold nchunks at hn126; unfold U64; omega)] at h6
    omega

lemma len0_wsub_eq (o w W : Nat) (hg : geomOK o w W) :
    wsub (reg_min (o + w) W) o = len0v o w W := by
  obtain ⟨h1, h2, h3, h4, h5⟩ := hg
  unfold wsub reg_min len0v
  split_ifs with ha hb <;> omega

lemma reg_field_mask_eq (o w W n : Nat) (hg : geomOK o w W)
    (hn : n < nchunks o w W) :
    reg_field_mask n o w W = reg_mask32 (chunkBit o n) (chunkLen o w W n) := by
  obtain ⟨l1, l2, l3⟩ := len0v_facts o w W hg
  obtain ⟨c1, c2, c3⟩ := chunkLen_facts o w W n hg hn
  unfold reg_field_mask
  rw [len0_wsub_eq o w W hg]
  cases n with
  | zero =>
    simp only [if_pos]
    unfold chunkBit chunkLen
    simp only [if_pos]
  | succ m =>
    simp only [Nat.succ_ne_zero, if_false, Nat.add_sub_cancel]
    unfold chunkBit chunkLen
    simp only [Nat.succ_ne_zero, if_false, Nat.add_sub_cancel]
    have hst : chunkStart o w W (m + 1) + chunkLen o w W (m + 1) ≤ w := c3
    unfold chunkStart chunkLen at hst
    simp only [Nat.succ_ne_zero, if_false, Nat.add_sub_cancel] at hst
    have hmw : len0v o w W + m * W ≤ w := by omega
    have hw1 : wsub w (len0v o w W) = w - len0v o w W := by
      unfold wsub
      rw [if_pos (by omega)]
    rw [hw1]
    have hw2 : wsub (w - len0v o w W) (m * W) = w - len0v o w W - m * W := by
      unfold wsub
      rw [if_pos (by omega)]
    rw [hw2]
    have hw3 : reg_min (w - len0v o w W - m * W) W
        = chunkLen o w W (m + 1) := by
      unfold reg_min chunkLen
      simp only [Nat.succ_ne_zero, if_false, Nat.add_sub_cancel]
      split_ifs with h <;> omega
    rw [hw3]
    unfold chunkLen
    simp only [Nat.succ_ne_zero, if_false, Nat.add_sub_cancel]

lemma reg_set_chunk_clean (d : reg_dev) (f : reg_field) (n v : Nat)
    (hemp : reg_empty d = 0)
    (hg : geomOK f.offs f.width d.reg_width)
    (hn : n < nchunks f.offs f.width d.reg_width)
    (hdesc : reg_flags (some d) (some f) REG_DESCEND = true →
      nchunks f.offs f.width d.reg_width ≤ f.reg + 1)
    (hU : f.reg + n < U64)
    (hwok : reg_flags (some d) (some f) REG_NOCOMM = true ∨
      ∀ a r x, d.write_fn a r x = 0) :
    (reg_set_chunk d f n v).1 = 0 ∧
    ∃ lg, (reg_set_chunk d f n v).2 =
      { d with
        data := d.data.set (chunkRegOf d f n)
          (chunkWordOf d f (d.data.getD (chunkRegOf d f n) 0) n v),
        wlog := lg } := by
  have hn126 := nchunks_le_126 f.offs f.width d.reg_width hg
  obtain ⟨l1, l2, l3⟩ := len0v_facts f.offs f.width d.reg_width hg
  have hgd : ¬(reg_flags (some d) (some f) REG_DESCEND = true ∧ f.reg < n) := by
    rintro ⟨hd, hlt⟩
    have := hdesc hd
    omega
  have hr : (if reg_flags (some d) (some f) REG_DESCEND then f.reg - n
      else wadd f.reg n) = chunkRegOf d f n := by
    unfold chunkRegOf
    by_cases hd : reg_flags (some d) (some f) REG_DESCEND = true
    · rw [if_pos hd, if_pos hd]
    · rw [if_neg hd, if_neg hd, wadd_eq f.reg n hU]
  have hval1 : (if n = 0 then (v <<< f.offs) % U64
      else v >>> wadd (wsub (reg_min (f.offs + f.width) d.reg_width) f.offs)
        ((n - 1) * d.reg_width)) = chunkValShift d f n v := by
    unfold chunkValShift
    cases n with
    | zero => rfl
    | succ m =>
      rw [if_neg (Nat.succ_ne_zero m), if_neg (Nat.succ_ne_zero m),
        len0_wsub_eq f.offs f.width d.reg_width hg]
      have hg' := hg
      obtain ⟨g1, g2, g3, g4, g5⟩ := hg'
      have hmul : m * d.reg_width ≤ 125 * 32 := Nat.mul_le_mul (by omega) (by omega)
      simp only [Nat.add_sub_cancel]
      rw [wadd_eq _ _ (by unfold U64; omega)]
  unfold reg_set_chunk
  rw [if_neg (fun h => h hemp)]
  dsimp only
  rw [if_neg hgd, hval1, hr]
  by_cases hNC : reg_flags (some d) (some f) REG_NOCOMM = true
  · have hd2 : ¬((!reg_flags (some d) (some f) REG_NOCOMM) = true) := by
      rw [hNC]
      simp
    have hout : ¬((!reg_flags (some d) (some f) REG_NOCOMM) = true ∧
        d.write_fn d.arg (chunkRegOf d f n)
          ((d.data.set (chunkRegOf d f n)
            ((d.data.getD (chunkRegOf d f n) 0 &&&
              compl32 (reg_field_mask n f.offs f.width d.reg_width)) |||
             chunkValShift d f n v &&&
              reg_field_mask n f.offs f.width d.reg_width)).getD
            (chunkRegOf d f n) 0) ≠ 0) := fun hc => hd2 hc.1
    rw [if_neg hd2, if_neg hout]
    refine ⟨rfl, d.wlog, ?_⟩
    unfold chunkWordOf
    rfl
  · have hx : reg_flags (some d) (some f) REG_NOCOMM = false := by
      cases hby : reg_flags (some d) (some f) REG_NOCOMM with
      | true => exact absurd hby hNC
      | false => rfl
    have hd2 : (!reg_flags (some d) (some f) REG_NOCOMM) = true := by
      rw [hx]
      rfl
    have hwr : ∀ a r x, d.write_fn a r x = 0 := by
      cases hwok with
      | inl hno => exact absurd hno hNC
      | inr hwr => exact hwr
    have hout : ¬((!reg_flags (some d) (some f) REG_NOCOMM) = true ∧
        d.write_fn d.arg (chunkRegOf d f n)
          ((d.data.set (chunkRegOf d f n)
            ((d.data.getD (chunkRegOf d f n) 0 &&&
              compl32 (reg_field_mask n f.offs f.width d.reg_width)) |||
             chunkValShift d f n v &&&
              reg_field_mask n f.offs f.width d.reg_width)).getD
            (chunkRegOf d f n) 0) ≠ 0) := fun hc => hc.2 (hwr _ _ _)
    rw [if_pos hd2, if_neg hout]
    exact ⟨rfl, _, by unfold chunkWordOf; rfl⟩

lemma reg_get_chunk_clean (d : reg_dev) (f : reg_field) (n : Nat)
    (hemp : reg_empty d = 0)
    (hg : geomOK f.offs f.width d.reg_width)
    (hn : n < nchunks f.offs f.width d.reg_width)
    (hdesc : reg_flags (some d) (some f) REG_DESCEND = true →
      nchunks f.offs f.width d.reg_width ≤ f.reg + 1)
    (hU : f.reg + n < U64)
    (hvol : ((!reg_flags (some d) (some f) REG_NOCOMM) &&
      reg_flags (some d) (some f) REG_VOLATILE) = false) :
    reg_get_chunk d f n = (chunkGetOf d f n, d) := by
  have hn126 := nchunks_le_126 f.offs f.width d.reg_width hg
  obtain ⟨c1', c2', c3'⟩ := chunkLen_facts f.offs f.width d.reg_width n hg hn
  have hg' := hg
  obtain ⟨g1, g2, g3, g4, g5⟩ := hg'
  obtain ⟨l1, l2, l3⟩ := len0v_facts f.offs f.width d.reg_width hg
  have hgd : ¬(reg_flags (some d) (some f) REG_DESCEND = true ∧ f.reg < n) := by
    rintro ⟨hd, hlt⟩
    have := hdesc hd
    omega
  have hmul : (n - 1) * d.reg_width ≤ 125 * 32 := Nat.mul_le_mul (by omega) (by omega)
  have hr : (if reg_flags (some d) (some f) REG_DESCEND then d.data.getD (f.reg - n) 0
      else d.data.getD (wadd f.reg n) 0) = d.data.getD (chunkRegOf d f n) 0 := by
    unfold chunkRegOf
    by_cases hd : reg_flags (some d) (some f) REG_DESCEND = true
    · rw [if_pos hd, if_pos hd]
    · rw [if_neg hd, if_neg hd, wadd_eq f.reg n hU]
  have hguard : ¬(n ≠ 0 ∧
      len0v f.offs f.width d.reg_width + (n - 1) * d.reg_width ≥ 64) := by
    rintro ⟨hn0, hge⟩
    have hst : chunkStart f.offs f.width d.reg_width n
        = len0v f.offs f.width d.reg_width + (n - 1) * d.reg_width := by
      unfold chunkStart
      rw [if_neg hn0]
    omega
  unfold reg_get_chunk
  rw [if_neg (fun h => h hemp)]
  dsimp only
  rw [if_neg hgd]
  rw [len0_wsub_eq f.offs f.width d.reg_width hg,
    wadd_eq (len0v f.offs f.width d.reg_width) ((n - 1) * d.reg_width)
      (by unfold U64; omega),
    if_neg hguard, if_neg (by rw [hvol]; simp :
      ¬(((!reg_flags (some d) (some f) REG_NOCOMM) &&
        reg_flags (some d) (some f) REG_VOLATILE) = true)),
    hr]
  unfold chunkGetOf
  rfl

lemma effChunk_lt_256 (d : reg_dev) (f : reg_field) (num n : Nat) :
    effChunk d f num n < 256 :=
  Nat.mod_lt _ (by omega)

lemma effChunk_lt_nch (d : reg_dev) (f : reg_field) (num n : Nat)
    (hnum : num ≤ 126) (hn : n < num) :
    effChunk d f num n < num := by
  unfold effChunk
  by_cases hm : reg_flags (some d) (some f) REG_MSR_FIRST = true
  · rw [if_pos hm, Nat.mod_eq_of_lt (by omega)]
    omega
  · rw [if_neg hm, Nat.mod_eq_of_lt (by omega)]
    exact hn

lemma effChunk_inj (d : reg_dev) (f : reg_field) (num a b : Nat)
    (hnum : num ≤ 126) (ha : a < num) (hb : b < num) (hab : a ≠ b) :
    effChunk d f num a ≠ effChunk d f num b := by
  unfold effChunk
  by_cases hm : reg_flags (some d) (some f) REG_MSR_FIRST = true
  · rw [if_pos hm, if_pos hm,
      Nat.mod_eq_of_lt (show num - a - 1 < 256 by omega),
      Nat.mod_eq_of_lt (show num - b - 1 < 256 by omega)]
    omega
  · rw [if_neg hm, if_neg hm,
      Nat.mod_eq_of_lt (show a < 256 by omega),
      Nat.mod_eq_of_lt (show b < 256 by omega)]
    exact hab

lemma effChunk_surj (d : reg_dev) (f : reg_field) (num m : Nat)
    (hnum : num ≤ 126) (hm : m < num) :
    ∃ n, n < num ∧ effChunk d f num n = m := by
  unfold effChunk
  by_cases hmsr : reg_flags (some d) (some f) REG_MSR_FIRST = true
  · refine ⟨num - 1 - m, by omega, ?_⟩
    rw [if_pos hmsr, Nat.mod_eq_of_lt (by omega)]
    omega
  · refine ⟨m, hm, ?_⟩
    rw [if_neg hmsr, Nat.mod_eq_of_lt (by omega)]

lemma getD_set_ne (l : List Nat) (i j a : Nat) (h : i ≠ j) :
    (l.set i a).getD j 0 = l.getD j 0 := by
  rw [List.getD_eq_getElem?_getD, List.getD_eq_getElem?_getD,
    List.getElem?_set_ne h]

lemma chunkRegOf_inj (d : reg_dev) (f : reg_field)
    (hdesc : reg_flags (some d) (some f) REG_DESCEND = true →
      nchunks f.offs f.width d.reg_width ≤ f.reg + 1)
    (a b : Nat) (ha : a < nchunks f.offs f.width d.reg_width)
    (hb : b < nchunks f.offs f.width d.reg_width) (hab : a ≠ b) :
    chunkRegOf d f a ≠ chunkRegOf d f b := by
  unfold chunkRegOf
  by_cases hd : reg_flags (some d) (some f) REG_DESCEND = true
  · rw [if_pos hd, if_pos hd]
    have := hdesc hd
    omega
  · rw [if_neg hd, if_neg hd]
    omega

lemma chunkRegOf_lt (d : reg_dev) (f : reg_field)
    (hreg : f.reg < d.reg_num)
    (hasc : reg_flags (some d) (some f) REG_DESCEND = false →
      f.reg + nchunks f.offs f.width d.reg_width ≤ d.reg_num)
    (m : Nat) (hm : m < nchunks f.offs f.width d.reg_width) :
    chunkRegOf d f m < d.reg_num := by
  unfold chunkRegOf
  by_cases hd : reg_flags (some d) (some f) REG_DESCEND = true
  · rw [if_pos hd]
    omega
  · rw [if_neg hd]
    have := hasc (by
      cases hby : reg_flags (some d) (some f) REG_DESCEND with
      | true => exact absurd hby hd
      | false => rfl)
    omega

lemma reg_set_field_go_clean (d : reg_dev) (f : reg_field) (v num : Nat)
    (hemp : reg_empty d = 0)
    (hg : geomOK f.offs f.width d.reg_width)
    (hdesc : reg_flags (some d) (some f) REG_DESCEND = true →
      nchunks f.offs f.width d.reg_width ≤ f.reg + 1)
    (hwok : reg_flags (some d) (some f) REG_NOCOMM = true ∨
      ∀ a r x, d.write_fn a r x = 0)
    (hUr : f.reg + 256 < U64) :
    ∀ (L : List Nat) (dcd : List Nat) (lw : List (Nat × Nat)),
      (∀ n ∈ L, effChunk d f num n < nchunks f.offs f.width d.reg_width) →
      List.Pairwise (fun a b => chunkRegOf d f (effChunk d f num a)
        ≠ chunkRegOf d f (effChunk d f num b)) L →
      (∀ m, m < nchunks f.offs f.width d.reg_width → chunkRegOf d f m < dcd.length) →
      (reg_set_field_go f v num L { d with data := dcd, wlog := lw }).1 = 0 ∧
      ∃ dta lw2,
        (reg_set_field_go f v num L { d with data := dcd, wlog := lw }).2
          = { d with data := dta, wlog := lw2 } ∧
        dta.length = dcd.length ∧
        (∀ n ∈ L, dta.getD (chunkRegOf d f (effChunk d f num n)) 0
          = chunkWordOf d f (dcd.getD (chunkRegOf d f (effChunk d f num n)) 0)
              (effChunk d f num n) v) ∧
        (∀ rr, (∀ n ∈ L, chunkRegOf d f (effChunk d f num n) ≠ rr) →
          dta.getD rr 0 = dcd.getD rr 0) := by
  intro L
  induction L with
  | nil =>
    intro dcd lw _ _ _
    exact ⟨rfl, dcd, lw, rfl, rfl,
      fun n h => absurd h (List.not_mem_nil n),
      fun rr _ => rfl⟩
  | cons n rest ih =>
    intro dcd lw hL hpw hRlt
    have hENlt : effChunk d f num n < nchunks f.offs f.width d.reg_width :=
      hL n (List.mem_cons_self n rest)
    obtain ⟨hst0, lg, hst2⟩ :=
      reg_set_chunk_clean { d with data := dcd, wlog := lw } f (effChunk d f num n) v
        hemp hg hENlt hdesc
        (by have := effChunk_lt_256 d f num n; omega) hwok
    have hst0' : (reg_set_chunk { d with data := dcd, wlog := lw } f (effChunk d f num n) v).1 = 0 := hst0
    have hst2' : (reg_set_chunk { d with data := dcd, wlog := lw } f (effChunk d f num n) v).2 = { d with data := dcd.set (chunkRegOf d f (effChunk d f num n)) (chunkWordOf d f (dcd.getD (chunkRegOf d f (effChunk d f num n)) 0) (effChunk d f num n) v), wlog := lg } := hst2
    have hpwh := (List.pairwise_cons.mp hpw).1
    have hpwt := (List.pairwise_cons.mp hpw).2
    unfold reg_set_field_go
    dsimp only
    rw [show (if reg_flags (some ({ d with data := dcd, wlog := lw } : reg_dev))
        (some f) REG_MSR_FIRST = true then num - n - 1 else n) % 256
        = effChunk d f num n from rfl]
    rw [if_neg (fun h => h hst0'), hst2']
    obtain ⟨h0, dta, lw2, heq, hlen2, hset, hframe⟩ :=
      ih (dcd.set (chunkRegOf d f (effChunk d f num n)) (chunkWordOf d f (dcd.getD (chunkRegOf d f (effChunk d f num n)) 0) (effChunk d f num n) v)) lg
        (fun m hm => hL m (List.mem_cons_of_mem n hm))
        hpwt
        (by intro m hm; rw [List.length_set]; exact hRlt m hm)
    refine ⟨h0, dta, lw2, heq, ?_, ?_, ?_⟩
    · rw [hlen2, List.length_set]
    · intro m hm
      rcases List.mem_cons.mp hm with hmn | hmr
      · subst hmn
        rw [hframe _ (fun b hb => (hpwh b hb).symm),
          getD_set_self _ _ _ (hRlt _ hENlt)]
      · rw [hset m hmr, getD_set_ne _ _ _ _ (hpwh m hmr)]
    · intro rr hrr
      rw [hframe rr (fun b hb => hrr b (List.mem_cons_of_mem n hb)),
        getD_set_ne _ _ _ _ (hrr n (List.mem_cons_self n rest))]

lemma pairwise_effChunk_range (d : reg_dev) (f : reg_field) (num : Nat)
    (hnum : num ≤ 126)
    (hnn : num = nchunks f.offs f.width d.reg_width)
    (hdesc : reg_flags (some d) (some f) REG_DESCEND = true →
      nchunks f.offs f.width d.reg_width ≤ f.reg + 1) :
    List.Pairwise (fun a b => chunkRegOf d f (effChunk d f num a)
      ≠ chunkRegOf d f (effChunk d f num b)) (List.range num) := by
  have hlt : List.Pairwise (· < ·) (List.range num) := List.pairwise_lt_range num
  refine List.Pairwise.imp_of_mem ?_ hlt
  intro a b ha hb hab
  have ha' := List.mem_range.mp ha
  have hb' := List.mem_range.mp hb
  exact chunkRegOf_inj d f hdesc _ _
    (by rw [← hnn]; exact effChunk_lt_nch d f num a hnum ha')
    (by rw [← hnn]; exact effChunk_lt_nch d f num b hnum hb')
    (effChunk_inj d f num a b hnum ha' hb' (by omega))

lemma reg_set_field_clean (d : reg_dev) (f : reg_field) (v : Nat)
    (hemp : reg_empty d = 0)
    (hg : geomOK f.offs f.width d.reg_width)
    (hck : reg_check_field_width d f = 0)
    (hfit : reg_fits v f.width = true)
    (hwok : reg_flags (some d) (some f) REG_NOCOMM = true ∨
      ∀ a r x, d.write_fn a r x = 0)
    (hU63 : d.reg_num < 2 ^ 63)
    (hlen : d.data.length = d.reg_num) :
    (reg_set_field d f v).1 = 0 ∧
    ∃ dta lw2, (reg_set_field d f v).2 = { d with data := dta, wlog := lw2 } ∧
      dta.length = d.data.length ∧
      (∀ m, m < nchunks f.offs f.width d.reg_width →
        dta.getD (chunkRegOf d f m) 0
          = chunkWordOf d f (d.data.getD (chunkRegOf d f m) 0) m v) ∧
      (∀ rr, (∀ m, m < nchunks f.offs f.width d.reg_width → chunkRegOf d f m ≠ rr) →
        dta.getD rr 0 = d.data.getD rr 0) := by
  obtain ⟨hreg, hdescb, hascb⟩ := check_width_facts d f hg hU63 hck
  have hn126 := nchunks_le_126 f.offs f.width d.reg_width hg
  have hnn : reg_cdiv (f.offs + f.width) d.reg_width
      = nchunks f.offs f.width d.reg_width := rfl
  have hRlt : ∀ m, m < nchunks f.offs f.width d.reg_width →
      chunkRegOf d f m < d.data.length := by
    intro m hm
    rw [hlen]
    exact chunkRegOf_lt d f hreg (by
      intro hfalse
      exact hascb (by rw [hfalse])) m hm
  have hgo := reg_set_field_go_clean d f v (reg_cdiv (f.offs + f.width) d.reg_width)
    hemp hg hdescb hwok (by unfold U64; omega)
    (List.range (reg_cdiv (f.offs + f.width) d.reg_width)) d.data d.wlog
    (by
      intro n hn
      rw [← hnn]
      exact effChunk_lt_nch d f _ n (by rw [hnn]; exact hn126)
        (List.mem_range.mp hn))
    (pairwise_effChunk_range d f _ (by rw [hnn]; exact hn126) hnn hdescb)
    hRlt
  obtain ⟨h0, dta, lw2, heq, hlen2, hset, hframe⟩ := hgo
  unfold reg_set_field
  rw [if_neg (fun h => h hemp), if_neg (fun h => h hck),
    if_neg (by rw [hfit]; simp)]
  dsimp only
  refine ⟨h0, dta, lw2, heq, hlen2, ?_, ?_⟩
  · intro m hm
    obtain ⟨n, hn, hEn⟩ := effChunk_surj d f
      (reg_cdiv (f.offs + f.width) d.reg_width) m (by rw [hnn]; exact hn126)
      (by rw [hnn]; exact hm)
    have := hset n (List.mem_range.mpr hn)
    rw [hEn] at this
    exact this
  · intro rr hrr
    exact hframe rr (fun n hn => hrr _ (by
      rw [← hnn]
      exact effChunk_lt_nch d f _ n (by rw [hnn]; exact hn126)
        (List.mem_range.mp hn)))

lemma testBit_eq_false_of_lt (x n : Nat) (h : x < 2 ^ n) : x.testBit n = false := by
  apply Nat.testBit_lt_two_pow
  exact h

lemma and_compl_or_and (x y m : Nat) (hm : m < U32) :
    ((x &&& compl32 m) ||| (y &&& m)) &&& m = y &&& m := by
  apply Nat.eq_of_testBit_eq
  intro b
  unfold compl32
  simp only [Nat.testBit_and, Nat.testBit_or, Nat.testBit_xor]
  by_cases hb : m.testBit b
  · have hb32 : b < 32 := by
      by_contra hge
      have : m < 2 ^ b := lt_of_lt_of_le (by unfold U32 at hm; exact hm)
        (Nat.pow_le_pow_right (by omega) (by omega))
      rw [testBit_eq_false_of_lt m b this] at hb
      exact Bool.false_ne_true hb
    have hu : (U32 - 1).testBit b = true := by
      unfold U32
      rw [Nat.testBit_two_pow_sub_one]
      simpa using hb32
    rw [hb, hu]
    cases x.testBit b <;> cases y.testBit b <;> rfl
  · rw [Bool.eq_false_iff.mpr hb]
    cases x.testBit b <;> cases y.testBit b <;> cases (U32 - 1).testBit b <;> rfl

lemma fits_lt (v w : Nat) (hw : w ≤ 64) (hv64 : v < 2 ^ 64)
    (hfit : reg_fits v w = true) : v < 2 ^ w := by
  unfold reg_fits at hfit
  by_cases h : w < 64
  · rw [if_pos h] at hfit
    have hz : v >>> w = 0 := by
      cases hq : v >>> w with
      | zero => rfl
      | succ k => rw [hq] at hfit; simp at hfit
    rw [Nat.shiftRight_eq_div_pow] at hz
    by_contra hge
    push_neg at hge
    have h1 : 1 ≤ v / 2 ^ w := (Nat.one_le_div_iff (Nat.two_pow_pos w)).mpr hge
    omega
  · have : w = 64 := by omega
    rw [this]
    exact hv64

lemma chunk_decode (d : reg_dev) (f : reg_field) (v n : Nat)
    (hg : geomOK f.offs f.width d.reg_width)
    (hn : n < nchunks f.offs f.width d.reg_width)
    (hv : v < 2 ^ f.width) :
    (if n = 0 then
      (chunkValShift d f n v &&& reg_field_mask n f.offs f.width d.reg_width) >>> f.offs
     else
      ((chunkValShift d f n v &&& reg_field_mask n f.offs f.width d.reg_width) <<<
        (len0v f.offs f.width d.reg_width + (n - 1) * d.reg_width)) % U64)
    = v &&& reg_mask64 (chunkStart f.offs f.width d.reg_width n)
        (chunkLen f.offs f.width d.reg_width n) := by
  have hg' := hg
  obtain ⟨g1, g2, g3, g4, g5⟩ := hg'
  obtain ⟨l1, l2, l3⟩ := len0v_facts f.offs f.width d.reg_width hg
  obtain ⟨c1, c2, c3⟩ := chunkLen_facts f.offs f.width d.reg_width n hg hn
  rw [reg_field_mask_eq f.offs f.width d.reg_width n hg hn]
  cases n with
  | zero =>
    rw [if_pos rfl]
    have hs0 : chunkStart f.offs f.width d.reg_width 0 = 0 := rfl
    have hb0 : chunkBit f.offs 0 = f.offs := rfl
    have hl0 : chunkLen f.offs f.width d.reg_width 0
        = len0v f.offs f.width d.reg_width := rfl
    have hcvs : chunkValShift d f 0 v = (v <<< f.offs) % U64 := rfl
    rw [hs0, hb0, hl0, hcvs]
    apply Nat.eq_of_testBit_eq
    intro b
    unfold U64
    rw [Nat.testBit_shiftRight, Nat.testBit_and, Nat.testBit_mod_two_pow,
      Nat.testBit_shiftLeft, Nat.testBit_and,
      reg_mask32_testBit f.offs (len0v f.offs f.width d.reg_width) l1 (by omega),
      reg_mask64_testBit 0 (len0v f.offs f.width d.reg_width) l1 (by omega)]
    by_cases hb : b < len0v f.offs f.width d.reg_width
    · have e1 : f.offs + b < 64 := by omega
      have e2 : f.offs ≤ f.offs + b := by omega
      have e3 : f.offs + b < f.offs + len0v f.offs f.width d.reg_width := by omega
      have e4 : f.offs + b - f.offs = b := by omega
      simp [e1, e2, e3, e4, hb]
    · have e3 : ¬(f.offs + b < f.offs + len0v f.offs f.width d.reg_width) := by
        omega
      simp [e3, hb]
  | succ m =>
    rw [if_neg (Nat.succ_ne_zero m)]
    have hms : m + 1 - 1 = m := rfl
    have hsS : chunkStart f.offs f.width d.reg_width (m + 1)
        = len0v f.offs f.width d.reg_width + m * d.reg_width := by
      unfold chunkStart
      rw [if_neg (Nat.succ_ne_zero m), hms]
    have hbit : chunkBit f.offs (m + 1) = 0 := by
      unfold chunkBit
      rw [if_neg (Nat.succ_ne_zero m)]
    have hcvs : chunkValShift d f (m + 1) v
        = v >>> (len0v f.offs f.width d.reg_width + m * d.reg_width) := by
      unfold chunkValShift
      rw [if_neg (Nat.succ_ne_zero m), hms]
    rw [hbit] at c2
    rw [hsS] at c3
    rw [hms, hcvs, hbit]
    apply Nat.eq_of_testBit_eq
    intro b
    unfold U64
    rw [Nat.testBit_mod_two_pow, Nat.testBit_shiftLeft, Nat.testBit_and,
      Nat.testBit_shiftRight, Nat.testBit_and,
      reg_mask32_testBit 0 (chunkLen f.offs f.width d.reg_width (m + 1)) c1
        (by omega),
      reg_mask64_testBit (chunkStart f.offs f.width d.reg_width (m + 1))
        (chunkLen f.offs f.width d.reg_width (m + 1)) c1 (by omega), hsS]
    by_cases hSb : len0v f.offs f.width d.reg_width + m * d.reg_width ≤ b
    · by_cases hbl : b < len0v f.offs f.width d.reg_width + m * d.reg_width
        + chunkLen f.offs f.width d.reg_width (m + 1)
      · have e1 : b < 64 := by omega
        have e2 : len0v f.offs f.width d.reg_width + m * d.reg_width
            + (b - (len0v f.offs f.width d.reg_width + m * d.reg_width)) = b := by
          omega
        have e3 : b - (len0v f.offs f.width d.reg_width + m * d.reg_width)
            < chunkLen f.offs f.width d.reg_width (m + 1) := by omega
        simp [e1, hSb, hbl, e3, e2]
      · have e3 : ¬(b - (len0v f.offs f.width d.reg_width + m * d.reg_width)
            < chunkLen f.offs f.width d.reg_width (m + 1)) := by omega
        simp [e3, hbl]
    · simp [hSb]

lemma reg_get_field_clean (d : reg_dev) (f : reg_field)
    (hemp : reg_empty d = 0)
    (hg : geomOK f.offs f.width d.reg_width)
    (hck : reg_check_field_width d f = 0)
    (hvol : ((!reg_flags (some d) (some f) REG_NOCOMM) &&
      reg_flags (some d) (some f) REG_VOLATILE) = false)
    (hU63 : d.reg_num < 2 ^ 63) :
    reg_get_field d f = ((List.range (nchunks f.offs f.width d.reg_width)).foldl
      (fun a n => a ||| chunkGetOf d f n) 0, d) := by
  obtain ⟨hreg, hdescb, hascb⟩ := check_width_facts d f hg hU63 hck
  have hn126 := nchunks_le_126 f.offs f.width d.reg_width hg
  have hFold : ∀ (L : List Nat) (a0 : Nat),
      (∀ n ∈ L, n < nchunks f.offs f.width d.reg_width) →
      L.foldl (fun acc n =>
        let c := reg_get_chunk acc.2 f (n % 256)
        (acc.1 ||| c.1, c.2)) (a0, d)
      = (L.foldl (fun a n => a ||| chunkGetOf d f n) a0, d) := by
    intro L
    induction L with
    | nil => intro a0 _; rfl
    | cons n rest ih =>
      intro a0 hL
      have hn : n < nchunks f.offs f.width d.reg_width :=
        hL n (List.mem_cons_self n rest)
      rw [List.foldl_cons, List.foldl_cons]
      dsimp only
      rw [Nat.mod_eq_of_lt (show n < 256 by omega)]
      rw [reg_get_chunk_clean d f n hemp hg hn hdescb
        (by unfold U64; omega) hvol]
      exact ih (a0 ||| chunkGetOf d f n)
        (fun m hm => hL m (List.mem_cons_of_mem n hm))
  unfold reg_get_field
  rw [if_neg (fun h => h hemp), if_neg (fun h => h hck)]
  dsimp only
  exact hFold (List.range (reg_cdiv (f.offs + f.width) d.reg_width)) 0
    (fun n hn => List.mem_range.mp hn)

lemma foldl_or_testBit (g : Nat → Nat) (L : List Nat) (a0 b : Nat) :
    (L.foldl (fun a n => a ||| g n) a0).testBit b
      = (a0.testBit b || L.any (fun n => (g n).testBit b)) := by
  induction L generalizing a0 with
  | nil => simp
  | cons n rest ih =>
    rw [List.foldl_cons, ih, List.any_cons, Nat.testBit_or]
    cases a0.testBit b <;> cases (g n).testBit b <;> simp

lemma fold_or_masks_eq (o w W v : Nat) (hg : geomOK o w W) (hv : v < 2 ^ w) :
    (List.range (nchunks o w W)).foldl
      (fun a n => a ||| (v &&& reg_mask64 (chunkStart o w W n) (chunkLen o w W n)))
      0 = v := by
  have hg' := hg
  obtain ⟨g1, g2, g3, g4, g5⟩ := hg'
  apply Nat.eq_of_testBit_eq
  intro b
  rw [foldl_or_testBit (fun n => v &&& reg_mask64 (chunkStart o w W n)
    (chunkLen o w W n)) (List.range (nchunks o w W)) 0 b]
  rw [Nat.zero_testBit, Bool.false_or]
  by_cases hvb : v.testBit b = true
  · have hbw : b < w := by
      by_contra hge
      have : v < 2 ^ b := lt_of_lt_of_le hv
        (Nat.pow_le_pow_right (by omega) (by omega))
      rw [testBit_eq_false_of_lt v b this] at hvb
      exact Bool.false_ne_true hvb
    obtain ⟨hcn, hcs, hce⟩ := chunkOf_spec o w W b hg hbw
    obtain ⟨cl1, cl2, cl3⟩ := chunkLen_facts o w W (chunkOf o w W b) hg hcn
    rw [hvb]
    apply List.any_eq_true.mpr
    refine ⟨chunkOf o w W b, List.mem_range.mpr hcn, ?_⟩
    rw [Nat.testBit_and, hvb,
      reg_mask64_testBit _ _ cl1 (by omega) b]
    simp only [Bool.true_and, Bool.and_eq_true, decide_eq_true_eq]
    exact ⟨hcs, hce⟩
  · have hvb' : v.testBit b = false := by
      cases hq : v.testBit b with
      | true => exact absurd hq hvb
      | false => rfl
    rw [hvb']
    apply List.any_eq_false.mpr
    intro n hn
    rw [Nat.testBit_and, hvb']
    simp

/-- C1: on a device satisfying the data-model geometry (1 ≤ reg_width ≤ 32,
offs < reg_width, 1 ≤ width ≤ 64) whose field passes the span check
performed by `reg_check`, for every 64-bit value that fits the field width,
`reg_set_field` succeeds and a following `reg_get_field` returns exactly
that value, provided the transport does not interfere (the write callback
reports success, and the field is not re-read from hardware, i.e. not
VOLATILE-with-communication).  This covers ascending and descending
layouts, all offsets and all widths 1..64. -/
theorem reg_set_get_roundtrip (d : reg_dev) (f : reg_field) (v : Nat)
    (hemp : reg_empty d = 0)
    (hg : geomOK f.offs f.width d.reg_width)
    (hck : reg_check_field_width d f = 0)
    (hv64 : v < 2 ^ 64)
    (hfit : reg_fits v f.width = true)
    (hwok : reg_flags (some d) (some f) REG_NOCOMM = true ∨
      ∀ a r x, d.write_fn a r x = 0)
    (hvol : ((!reg_flags (some d) (some f) REG_NOCOMM) &&
      reg_flags (some d) (some f) REG_VOLATILE) = false)
    (hU63 : d.reg_num < 2 ^ 63)
    (hlen : d.data.length = d.reg_num) :
    (reg_set_field d f v).1 = 0 ∧
    (reg_get_field (reg_set_field d f v).2 f).1 = v := by
  have hv : v < 2 ^ f.width := fits_lt v f.width hg.2.2.2.2 hv64 hfit
  obtain ⟨h0, dta, lw2, heq, hlen2, hset, hframe⟩ :=
    reg_set_field_clean d f v hemp hg hck hfit hwok hU63 hlen
  refine ⟨h0, ?_⟩
  rw [heq]
  have hgf := reg_get_field_clean { d with data := dta, wlog := lw2 } f
    hemp hg hck hvol hU63
  rw [hgf]
  have hchunk : ∀ n, n < nchunks f.offs f.width d.reg_width →
      chunkGetOf { d with data := dta, wlog := lw2 } f n
        = v &&& reg_mask64 (chunkStart f.offs f.width d.reg_width n)
            (chunkLen f.offs f.width d.reg_width n) := by
    intro n hn
    obtain ⟨c1, c2, c3⟩ := chunkLen_facts f.offs f.width d.reg_width n hg hn
    have hstep : chunkGetOf { d with data := dta, wlog := lw2 } f n
        = (if n = 0 then
            (dta.getD (chunkRegOf d f n) 0 &&&
              reg_field_mask n f.offs f.width d.reg_width) >>> f.offs
           else
            ((dta.getD (chunkRegOf d f n) 0 &&&
              reg_field_mask n f.offs f.width d.reg_width) <<<
              (len0v f.offs f.width d.reg_width + (n - 1) * d.reg_width)) % U64) :=
      rfl
    have hmlt : reg_field_mask n f.offs f.width d.reg_width < U32 := by
      rw [reg_field_mask_eq f.offs f.width d.reg_width n hg hn]
      have h1 := reg_mask32_lt (chunkBit f.offs n)
        (chunkLen f.offs f.width d.reg_width n) c1 (by
          have := hg.2.1
          omega)
      unfold U32
      exact lt_of_lt_of_le h1 (Nat.pow_le_pow_right (by omega) (by
        have := hg.2.1
        omega))
    have hand : chunkWordOf d f (d.data.getD (chunkRegOf d f n) 0) n v &&&
        reg_field_mask n f.offs f.width d.reg_width
        = chunkValShift d f n v &&& reg_field_mask n f.offs f.width d.reg_width := by
      unfold chunkWordOf
      exact and_compl_or_and _ _ _ hmlt
    rw [hstep, hset n hn, hand]
    exact chunk_decode d f v n hg hn hv
  have hcong : ∀ (L : List Nat),
      (∀ n ∈ L, n < nchunks f.offs f.width d.reg_width) → ∀ a0,
      L.foldl (fun a n => a ||| chunkGetOf { d with data := dta, wlog := lw2 } f n) a0
        = L.foldl (fun a n => a |||
            (v &&& reg_mask64 (chunkStart f.offs f.width d.reg_width n)
              (chunkLen f.offs f.width d.reg_width n))) a0 := by
    intro L
    induction L with
    | nil => intro _ a0; rfl
    | cons n rest ih =>
      intro hL a0
      rw [List.foldl_cons, List.foldl_cons,
        hchunk n (hL n (List.mem_cons_self n rest))]
      exact ih (fun m hm => hL m (List.mem_cons_of_mem n hm)) _
  show (List.range (nchunks f.offs f.width d.reg_width)).foldl
    (fun a n => a ||| chunkGetOf { d with data := dta, wlog := lw2 } f n) 0 = v
  rw [hcong (List.range (nchunks f.offs f.width d.reg_width))
    (fun n hn => List.mem_range.mp hn) 0]
  exact fold_or_masks_eq f.offs f.width d.reg_width v hg hv

theorem reg_set_get_roundtrip_witness :
    reg_fits 700000 (20 : Nat) = true ∧
    ((reg_set_field (mk_dev 16 2 [⟨"A", 0, 4, 20, 0⟩] [0, 0]) ⟨"A", 0, 4, 20, 0⟩ 700000).1 = 0 ∧
     (reg_get_field (reg_set_field (mk_dev 16 2 [⟨"A", 0, 4, 20, 0⟩] [0, 0]) ⟨"A", 0, 4, 20, 0⟩ 700000).2 ⟨"A", 0, 4, 20, 0⟩).1 = 700000) :=
  ⟨by decide,
   reg_set_get_roundtrip (mk_dev 16 2 [⟨"A", 0, 4, 20, 0⟩] [0, 0]) ⟨"A", 0, 4, 20, 0⟩ 700000
     (by decide) (by unfold geomOK; decide) (by decide) (by decide) (by decide)
     (Or.inr fun a r x => rfl) (by decide) (by decide) (by decide)⟩

lemma reg_empty_width (d : reg_dev) (h : reg_empty d = 0) :
    1 ≤ d.reg_width ∧ d.reg_width ≤ 32 := by
  unfold reg_empty MAX_REG at h
  split_ifs at h <;> first | (exact absurd h (by decide)) | omega

lemma wordOK_zero (W : Nat) : wordOK W 0 = true := by
  unfold wordOK
  rw [Nat.zero_and]
  rfl

lemma all_set {p : Nat → Bool} (l : List Nat) (r x : Nat)
    (hl : l.all p = true) (hx : p x = true) : (l.set r x).all p = true := by
  rw [List.all_eq_true] at *
  intro y hy
  rcases List.mem_or_eq_of_mem_set hy with h | h
  · exact hl y h
  · rw [h]
    exact hx

lemma clearN_all {p : Nat → Bool} (h0 : p 0 = true) :
    ∀ (n : Nat) (l : List Nat), l.all p = true → (clearN n l).all p = true := by
  intro n
  induction n with
  | zero => exact fun l h => h
  | succ m ih =>
    intro l hl
    exact all_set _ _ _ (ih l hl) h0

lemma copyN_all {p : Nat → Bool} (src : List Nat)
    (hsrc : ∀ k, p (src.getD k 0) = true) :
    ∀ (n : Nat) (l : List Nat), l.all p = true → (copyN n src l).all p = true := by
  intro n
  induction n with
  | zero => exact fun l h => h
  | succ m ih =>
    intro l hl
    exact all_set _ _ _ (ih l hl) (hsrc m)

lemma dataInv_getD (d : reg_dev) (h : dataInv d = true) (r : Nat) :
    wordOK d.reg_width (d.data.getD r 0) = true := by
  by_cases hr : r < d.data.length
  · unfold dataInv at h
    rw [List.all_eq_true] at h
    rw [List.getD_eq_getElem d.data 0 hr]
    exact h _ (List.getElem_mem hr)
  · rw [List.getD_eq_default d.data 0 (by omega)]
    exact wordOK_zero d.reg_width

lemma reg_field_mask_bits (n o w W b : Nat) (hW : W ≤ 32)
    (h : (reg_field_mask n o w W).testBit b = true) : b < W := by
  unfold reg_field_mask at h
  dsimp only at h
  by_cases hn : n = 0
  · rw [if_pos hn] at h
    unfold reg_mask32 MAX_REG at h
    split_ifs at h with h1 h2
    · simp [Nat.zero_testBit] at h
    · simp [Nat.zero_testBit] at h
    · push_neg at h1 h2
      unfold U32 at h
      rw [Nat.testBit_mod_two_pow,
        reg_mask64_testBit o (wsub (reg_min (o + w) W) o) (by omega)
          (by omega)] at h
      simp only [Bool.and_eq_true, decide_eq_true_eq] at h
      have hcase : o < 32 →
          (o + wsub (reg_min (o + w) W) o ≤ W ∨
           32 < wsub (reg_min (o + w) W) o) := by
        unfold wsub reg_min U64
        split_ifs <;> omega
      have := hcase (by omega)
      omega
  · rw [if_neg hn] at h
    unfold reg_mask32 MAX_REG at h
    split_ifs at h with h1 h2
    · simp [Nat.zero_testBit] at h
    · simp [Nat.zero_testBit] at h
    · push_neg at h1 h2
      unfold U32 at h
      rw [Nat.testBit_mod_two_pow,
        reg_mask64_testBit 0 (reg_min (wsub (wsub w (wsub (reg_min (o + w) W) o))
          ((n - 1) * W)) W) (by omega) (by omega)] at h
      simp only [Bool.and_eq_true, decide_eq_true_eq] at h
      have hmin : reg_min (wsub (wsub w (wsub (reg_min (o + w) W) o))
          ((n - 1) * W)) W ≤ W := by
        unfold reg_min
        split_ifs <;> omega
      omega

lemma wordOK_chunk (W old x M : Nat) (hW1 : 1 ≤ W) (hW2 : W ≤ 32)
    (hM : ∀ b, M.testBit b = true → b < W)
    (hold : wordOK W old = true) :
    wordOK W ((old &&& compl32 M) ||| (x &&& M)) = true := by
  have hold' : old &&& compl32 (reg_mask32 0 W) = 0 := by
    unfold wordOK at hold
    exact beq_iff_eq.mp hold
  unfold wordOK
  rw [beq_iff_eq]
  apply Nat.eq_of_testBit_eq
  intro b
  rw [Nat.zero_testBit]
  have h0 : (old &&& compl32 (reg_mask32 0 W)).testBit b = false := by
    rw [hold']
    exact Nat.zero_testBit b
  have hub : (U32 - 1).testBit b = decide (b < 32) := by
    unfold U32
    rw [Nat.testBit_two_pow_sub_one]
  rw [Nat.testBit_and] at h0
  unfold compl32 at h0 ⊢
  rw [Nat.testBit_xor, reg_mask32_testBit 0 W hW1 (by omega), hub] at h0
  simp only [Nat.testBit_or, Nat.testBit_and, Nat.testBit_xor, hub,
    reg_mask32_testBit 0 W hW1 (by omega)]
  by_cases hbW : b < W
  · simp [hbW, show b < 32 by omega]
  · by_cases hb32 : b < 32
    · have hMb : M.testBit b = false := by
        cases hq : M.testBit b with
        | false => rfl
        | true => exact absurd (hM b hq) hbW
      simp [hbW, hb32] at h0
      simp [hbW, hb32, hMb, h0]
    · simp [hbW, hb32]

lemma reg_read_inv (d : reg_dev) (reg : Nat) (h : dataInv d = true) :
    dataInv (reg_read d reg).2 = true := by
  unfold reg_read
  dsimp only
  split_ifs with h1 h2 h3 h4
  · exact h
  · exact h
  · exact h
  · exact all_set _ _ _ h (beq_iff_eq.mpr (not_ne_iff.mp h4))
  · exact h

lemma reg_write_inv (d : reg_dev) (reg val : Nat) (h : dataInv d = true) :
    dataInv (reg_write d reg val).2 = true := by
  unfold reg_write
  dsimp only
  split_ifs with h1 h2 h3 h4 h5 h6
  · exact h
  · exact h
  · exact h
  · exact h
  · exact h
  · exact all_set _ _ _ h (beq_iff_eq.mpr (not_ne_iff.mp h3))
  · exact all_set _ _ _ h (beq_iff_eq.mpr (not_ne_iff.mp h3))

lemma reg_set_chunk_inv (d : reg_dev) (f : reg_field) (n val : Nat)
    (h : dataInv d = true) : dataInv (reg_set_chunk d f n val).2 = true := by
  unfold reg_set_chunk
  dsimp only
  split_ifs with h1 h2 h3 h4
  · exact h
  · exact h
  all_goals {
    obtain ⟨hW1, hW2⟩ := reg_empty_width d (not_ne_iff.mp h1)
    refine all_set _ _ _ h (wordOK_chunk d.reg_width _ _ _ hW1 hW2
      (fun b hb => reg_field_mask_bits _ _ _ _ _ hW2 hb)
      (dataInv_getD d h _)) }

lemma reg_get_chunk_inv (d : reg_dev) (f : reg_field) (n : Nat)
    (h : dataInv d = true) : dataInv (reg_get_chunk d f n).2 = true := by
  unfold reg_get_chunk
  dsimp only
  split_ifs <;> first | exact h | exact reg_read_inv d _ h

lemma reg_get_field_inv (d : reg_dev) (f : reg_field)
    (h : dataInv d = true) : dataInv (reg_get_field d f).2 = true := by
  unfold reg_get_field
  dsimp only
  split_ifs with h1 h2
  · exact h
  · exact h
  · have : ∀ (L : List Nat) (v0 : Nat) (d0 : reg_dev), dataInv d0 = true →
        dataInv ((L.foldl (fun acc n =>
          let c := reg_get_chunk acc.2 f (n % 256)
          (acc.1 ||| c.1, c.2)) (v0, d0)).2) = true := by
      intro L
      induction L with
      | nil => exact fun v0 d0 h0 => h0
      | cons n rest ih =>
        intro v0 d0 h0
        rw [List.foldl_cons]
        exact ih _ _ (reg_get_chunk_inv d0 f (n % 256) h0)
    exact this _ 0 d h

lemma reg_set_field_go_inv (f : reg_field) (val num : Nat) :
    ∀ (L : List Nat) (d : reg_dev), dataInv d = true →
      dataInv (reg_set_field_go f val num L d).2 = true := by
  intro L
  induction L with
  | nil => exact fun d h => h
  | cons n rest ih =>
    intro d h
    unfold reg_set_field_go
    dsimp only
    split_ifs <;>
      first
      | exact reg_set_chunk_inv d f _ val h
      | exact ih _ (reg_set_chunk_inv d f _ val h)

lemma reg_set_field_inv (d : reg_dev) (f : reg_field) (val : Nat)
    (h : dataInv d = true) : dataInv (reg_set_field d f val).2 = true := by
  unfold reg_set_field
  dsimp only
  split_ifs with h1 h2 h3
  · exact h
  · exact h
  · exact h
  · exact reg_set_field_go_inv f val _ _ d h

lemma reg_lock_inv (d : reg_dev) (h : dataInv d = true) :
    dataInv (reg_lock d).2 = true := by
  unfold reg_lock
  split_ifs <;> exact h

lemma reg_unlock_inv (d : reg_dev) (h : dataInv d = true) :
    dataInv (reg_unlock d).2 = true := by
  unfold reg_unlock
  split_ifs <;> exact h

lemma reg_clear_buffer_inv (d : reg_dev) (h : dataInv d = true) :
    dataInv (reg_clear_buffer d).2 = true := by
  unfold reg_clear_buffer
  split_ifs
  · exact h
  · exact clearN_all (wordOK_zero d.reg_width) d.reg_num d.data h

lemma overlaps_clear_go_inv (i : Nat) :
    ∀ (L : List (Nat × reg_field)) (d : reg_dev), dataInv d = true →
      dataInv (overlaps_clear_go i L d).2 = true := by
  intro L
  induction L with
  | nil => exact fun d h => h
  | cons p rest ih =>
    intro d h
    unfold overlaps_clear_go
    dsimp only
    split_ifs with h1 h2 h3
    · exact ih d h
    · exact reg_set_field_inv d p.2 0 h
    · exact ih _ (reg_set_field_inv d p.2 0 h)
    · exact ih d h

lemma overlaps_readzero_go_inv :
    ∀ (L : List reg_field) (d : reg_dev), dataInv d = true →
      dataInv (overlaps_readzero_go L d).2 = true := by
  intro L
  induction L with
  | nil => exact fun d h => h
  | cons fj rest ih =>
    intro d h
    unfold overlaps_readzero_go
    dsimp only
    split_ifs with h1
    · exact reg_get_field_inv d fj h
    · exact ih _ (reg_get_field_inv d fj h)

lemma reg_check_field_overlaps_inv (d : reg_dev) (i : Nat)
    (h : dataInv d = true) : dataInv (reg_check_field_overlaps d i).2 = true := by
  unfold reg_check_field_overlaps
  dsimp only
  have i1 := reg_set_field_inv d ((d.field_map.getD []).getD i default)
    (reg_mask64 0 ((d.field_map.getD []).getD i default).width) h
  split_ifs with h1 h2 h3 h4 h5
  · exact i1
  · exact overlaps_clear_go_inv i _ _ i1
  all_goals {
    have i2 := overlaps_clear_go_inv i (d.field_map.getD []).enum _ i1
    have i3 := reg_get_field_inv _ ((d.field_map.getD []).getD i default) i2
    first
    | exact i3
    | (have i4 := reg_set_field_inv _ ((d.field_map.getD []).getD i default) 0 i3
       first
       | exact i4
       | exact overlaps_readzero_go_inv _ _ i4) }

lemma coverage_set_go_inv :
    ∀ (L : List reg_field) (d : reg_dev), dataInv d = true →
      dataInv (coverage_set_go L d).2 = true := by
  intro L
  induction L with
  | nil => exact fun d h => h
  | cons fi rest ih =>
    intro d h
    unfold coverage_set_go
    dsimp only
    split_ifs with h1
    · exact reg_set_field_inv d fi _ h
    · exact ih _ (reg_set_field_inv d fi _ h)

lemma coverage_read_go_inv :
    ∀ (L : List reg_field) (d : reg_dev), dataInv d = true →
      dataInv (coverage_read_go L d).2 = true := by
  intro L
  induction L with
  | nil => exact fun d h => h
  | cons fi rest ih =>
    intro d h
    unfold coverage_read_go
    dsimp only
    split_ifs with h1
    · exact reg_get_field_inv d fi h
    · exact ih _ (reg_get_field_inv d fi h)

lemma reg_check_field_partial_coverage_inv (d : reg_dev)
    (h : dataInv d = true) :
    dataInv (reg_check_field_partial_coverage d).2 = true := by
  unfold reg_check_field_partial_coverage
  dsimp only
  have i1 := coverage_set_go_inv (d.field_map.getD []) d h
  split_ifs with h1 h2 h3
  · exact i1
  · exact coverage_read_go_inv _ _ i1
  · exact coverage_read_go_inv _ _ i1
  · exact coverage_read_go_inv _ _ i1

lemma check_fields_go_inv :
    ∀ (L : List Nat) (d : reg_dev), dataInv d = true →
      dataInv (check_fields_go L d).2 = true := by
  intro L
  induction L with
  | nil => exact fun d h => h
  | cons i rest ih =>
    intro d h
    unfold check_fields_go
    dsimp only
    split_ifs with h1 h2
    · exact h
    · exact reg_check_field_overlaps_inv d i h
    · exact ih _ (reg_check_field_overlaps_inv d i h)

lemma reg_check_inv (d : reg_dev) (h : dataInv d = true) :
    dataInv (reg_check d).2 = true := by
  unfold reg_check
  dsimp only
  by_cases h1 : reg_empty d ≠ 0
  · rw [if_pos h1]
    exact h
  rw [if_neg h1]
  by_cases h2 : (d.lock_fn.isSome && d.unlock_fn.isNone ||
      d.lock_fn.isNone && d.unlock_fn.isSome) = true
  · rw [if_pos h2]
    exact h
  rw [if_neg h2]
  by_cases h3 : (reg_lock d).1 ≠ 0
  · rw [if_pos h3]
    exact reg_lock_inv d h
  rw [if_neg h3]
  have i1 : dataInv (reg_lock d).2 = true := reg_lock_inv d h
  generalize hlk : (reg_lock d).2 = lk2 at i1 ⊢
  have i2 : dataInv ({ lk2 with flags := lk2.flags ||| REG_NOCOMM } : reg_dev)
      = true := i1
  generalize hd2 : ({ lk2 with flags := lk2.flags ||| REG_NOCOMM } : reg_dev)
      = dx at i2 ⊢
  have i3 := reg_clear_buffer_inv dx i2
  have i4 := check_fields_go_inv
    (List.range ((reg_clear_buffer dx).2.field_map.getD []).length)
    (reg_clear_buffer dx).2 i3
  have i5 := reg_clear_buffer_inv _ i4
  have i6 := reg_check_field_partial_coverage_inv _ i5
  have i7 := reg_clear_buffer_inv _ i6
  split_ifs with h4 h5 h6 h7 h8
  · exact i3
  · exact i4
  · exact i5
  · exact i6
  · exact i7
  · exact reg_unlock_inv _ i7
  · exact reg_unlock_inv _ i7

lemma reg_get_inv (d : reg_dev) (field : String) (h : dataInv d = true) :
    dataInv (reg_get d field).2 = true := by
  unfold reg_get
  dsimp only
  have i1 := reg_lock_inv d h
  split_ifs with h1
  · exact i1
  · cases hfm : reg_find (reg_lock d).2.field_map field with
    | none => exact i1
    | some f =>
      dsimp only
      have i2 := reg_get_field_inv (reg_lock d).2 f i1
      have i3 := reg_unlock_inv _ i2
      split_ifs with h2
      · exact i3
      · exact i3

lemma reg_set_pub_inv (d : reg_dev) (field : String) (val : Nat)
    (h : dataInv d = true) : dataInv (reg_set d field val).2 = true := by
  unfold reg_set
  dsimp only
  have i1 := reg_lock_inv d h
  split_ifs with h1
  · exact i1
  · cases hfm : reg_find (reg_lock d).2.field_map field with
    | none => exact i1
    | some f =>
      dsimp only
      have i2 := reg_set_field_inv (reg_lock d).2 f val i1
      have i3 := reg_unlock_inv _ i2
      split_ifs with h2 h3
      · exact i2
      · exact i3
      · exact i3

lemma reg_bulk_inv (d : reg_dev) (data : Option (List Nat))
    (h : dataInv d = true)
    (hsrc : ∀ src, data = some src → src.all (wordOK d.reg_width) = true) :
    dataInv (reg_bulk d data).2 = true := by
  have hW : (reg_lock d).2.reg_width = d.reg_width := by
    unfold reg_lock
    split_ifs <;> rfl
  have i1 := reg_lock_inv d h
  cases data with
  | none =>
    unfold reg_bulk
    dsimp only
    split_ifs with h1 h2 h3
    · exact h
    · exact h
    · exact i1
    all_goals {
      have i2 : dataInv ({ (reg_lock d).2 with data := clearN (reg_lock d).2.reg_num (reg_lock d).2.data } : reg_dev) = true := by
        unfold dataInv at i1 ⊢
        exact clearN_all (wordOK_zero _) _ _ i1
      exact reg_unlock_inv _ i2 }
  | some src =>
    unfold reg_bulk
    dsimp only
    split_ifs with h1 h2 h3
    · exact h
    · exact h
    · exact i1
    all_goals {
      have i2 : dataInv ({ (reg_lock d).2 with data := copyN (reg_lock d).2.reg_num src (reg_lock d).2.data } : reg_dev) = true := by
        unfold dataInv at i1 ⊢
        apply copyN_all src
        · intro k
          by_cases hk : k < src.length
          · have hall := hsrc src rfl
            rw [List.all_eq_true] at hall
            rw [List.getD_eq_getElem src 0 hk, hW]
            exact hall _ (List.getElem_mem hk)
          · rw [List.getD_eq_default src 0 (by omega)]
            exact wordOK_zero _
        · exact i1
      exact reg_unlock_inv _ i2 }

lemma reg_reset_go_inv (e : Nat) :
    ∀ (L : List (Nat × reg_field)) (v : reg_virt), dataInv v.base = true →
      dataInv (reg_reset_go e L v).2.base = true := by
  intro L
  induction L with
  | nil => exact fun v h => h
  | cons p rest ih =>
    intro v h
    unfold reg_reset_go
    dsimp only
    split_ifs with h1 h2 h3
    · exact ih v h
    · exact ih v h
    · exact reg_set_field_inv v.base p.2 _ h
    · exact ih _ (reg_set_field_inv v.base p.2 _ h)

lemma reg_reset_inv (v : reg_virt) (e : Nat) (h : dataInv v.base = true) :
    dataInv (reg_reset v e).2.base = true := by
  unfold reg_reset
  dsimp only
  apply reg_reset_go_inv
  unfold dataInv at h ⊢
  exact clearN_all (wordOK_zero _) _ _ h

lemma reg_adjust_switch_inv (v2 : reg_virt) (field : String) (val : Nat)
    (log0 : List Nat) (h : dataInv v2.base = true) :
    dataInv (reg_adjust_switch v2 field val log0).2.1.base = true := by
  unfold reg_adjust_switch
  cases hsc : adjust_scan v2.maps field val with
  | none => exact h
  | some p =>
    dsimp only
    split_ifs with h1 h2
    · exact h
    · exact reg_reset_inv _ _ h
    · exact reg_reset_inv _ _ h

lemma reg_adjust_inv (v : reg_virt) (field : String) (val : Nat)
    (h : dataInv v.base = true) :
    dataInv (reg_adjust v field val).2.1.base = true := by
  unfold reg_adjust
  dsimp only
  by_cases h1 : reg_bad v ≠ 0
  · rw [if_pos h1]
    exact h
  rw [if_neg h1]
  cases hfi : v.fields.findIdx? (fun nm => nm == field) with
  | none => exact h
  | some i =>
    dsimp only
    by_cases h2 : underscore field = true
    · rw [if_pos h2]
      exact h
    rw [if_neg h2]
    cases hfm : v.base.field_map with
    | none =>
      dsimp only
      by_cases h4 : v.load_fn v.base.arg 0 ≠ 0
      · rw [if_pos h4]
        exact h
      rw [if_neg h4]
      cases hfd : reg_find (some (v.maps.getD 0 [])) field with
      | some f =>
        dsimp only
        split_ifs with h5
        · exact reg_set_field_inv _ f val h
        · exact reg_adjust_switch_inv _ field val _ h
      | none =>
        dsimp only
        exact reg_adjust_switch_inv _ field val _ h
    | some m =>
      dsimp only
      cases hfd : reg_find (some m) field with
      | some f =>
        dsimp only
        split_ifs with h5
        · exact reg_set_field_inv _ f val h
        · exact reg_adjust_switch_inv _ field val _ h
      | none =>
        dsimp only
        exact reg_adjust_switch_inv _ field val _ h

/-- C3, counterexample: the claimed invariant `data[reg] & ~mask(reg_width) = 0`
is NOT preserved by `reg_bulk` with an arbitrary source array.  On a valid
8-bit-wide device whose buffer satisfies the invariant, `reg_bulk` with
source word `0xFFFFFFFF` succeeds (returns 0) and stores the raw word,
leaving bits above `reg_width` set: the copy is an unmasked `memcpy`. -/
theorem reg_bulk_breaks_width_invariant :
    dataInv (mk_dev 8 1 [⟨"A", 0, 0, 8, 0⟩] [0]) = true ∧
    (reg_bulk (mk_dev 8 1 [⟨"A", 0, 0, 8, 0⟩] [0]) (some [4294967295])).1 = 0 ∧
    ((reg_bulk (mk_dev 8 1 [⟨"A", 0, 0, 8, 0⟩] [0])
      (some [4294967295])).2.data.getD 0 0 &&& compl32 (reg_mask32 0 8)) ≠ 0 := by
  decide

/-- C3 (amended): the width invariant (every buffer word has no bits set at
or above `reg_width`) is preserved by `reg_read`, `reg_write`, `reg_get`,
`reg_set`, `reg_check`, `reg_bulk` with a null source (clear), `reg_bulk`
with a source whose words all fit `reg_width`, by the internal
`reg_set_field`/`reg_get_field`, and by `reg_adjust`; it is not preserved
by `reg_bulk` with an arbitrary source (see the counterexample), which
copies raw words without masking. -/
theorem reg_width_invariant_preserved (d : reg_dev) (h : dataInv d = true) :
    (∀ reg, dataInv (reg_read d reg).2 = true) ∧
    (∀ reg val, dataInv (reg_write d reg val).2 = true) ∧
    (∀ field, dataInv (reg_get d field).2 = true) ∧
    (∀ field val, dataInv (reg_set d field val).2 = true) ∧
    dataInv (reg_check d).2 = true ∧
    dataInv (reg_bulk d none).2 = true ∧
    (∀ src, src.all (wordOK d.reg_width) = true →
      dataInv (reg_bulk d (some src)).2 = true) ∧
    (∀ f val, dataInv (reg_set_field d f val).2 = true) ∧
    (∀ f, dataInv (reg_get_field d f).2 = true) ∧
    (∀ v field val, v.base = d →
      dataInv (reg_adjust v field val).2.1.base = true) := by
  refine ⟨fun reg => reg_read_inv d reg h,
    fun reg val => reg_write_inv d reg val h,
    fun field => reg_get_inv d field h,
    fun field val => reg_set_pub_inv d field val h,
    reg_check_inv d h,
    reg_bulk_inv d none h (fun src hs => by simp at hs),
    fun src hs => reg_bulk_inv d (some src) h
      (fun src2 hs2 => by rw [← Option.some_inj.mp hs2]; exact hs),
    fun f val => reg_set_field_inv d f val h,
    fun f => reg_get_field_inv d f h,
    fun v field val hv => reg_adjust_inv v field val (by rw [hv]; exact h)⟩

theorem reg_width_invariant_preserved_witness :
    dataInv (mk_dev 8 1 [⟨"A", 0, 0, 8, 0⟩] [0]) = true ∧
    dataInv (reg_check (mk_dev 8 1 [⟨"A", 0, 0, 8, 0⟩] [0])).2 = true :=
  ⟨by decide,
   (reg_width_invariant_preserved (mk_dev 8 1 [⟨"A", 0, 0, 8, 0⟩] [0])
     (by decide)).2.2.2.2.1⟩

lemma or_and_eq_of_and_zero (a c m : Nat) (h : c &&& m = 0) :
    (a ||| c) &&& m = a &&& m := by
  apply Nat.eq_of_testBit_eq
  intro b
  have hb : (c &&& m).testBit b = false := by
    rw [h]
    exact Nat.zero_testBit b
  rw [Nat.testBit_and] at hb
  simp only [Nat.testBit_and, Nat.testBit_or]
  cases hc : c.testBit b <;> cases ha : a.testBit b <;>
    cases hm : m.testBit b <;> simp_all

lemma reg_lock_shape (d : reg_dev) (h : (reg_lock d).1 = 0) :
    (reg_lock d).2 = { d with lock_count := d.lock_count + 1 } := by
  unfold reg_lock at h ⊢
  split_ifs at h ⊢ <;> first | rfl | simp at h

lemma reg_clear_buffer_shape (d : reg_dev) (hemp : reg_empty d = 0) :
    reg_clear_buffer d = (0, { d with data := clearN d.reg_num d.data }) := by
  unfold reg_clear_buffer
  rw [if_neg (fun hh => hh hemp)]

lemma reg_check_field_width_congr (d1 d2 : reg_dev) (f : reg_field)
    (hw : d1.reg_width = d2.reg_width) (hn : d1.reg_num = d2.reg_num)
    (hdesc : reg_flags (some d1) (some f) REG_DESCEND
      = reg_flags (some d2) (some f) REG_DESCEND) :
    reg_check_field_width d1 f = reg_check_field_width d2 f := by
  unfold reg_check_field_width
  rw [hw, hn, hdesc]

lemma overlaps_clear_go_state (i : Nat) :
    ∀ (L : List (Nat × reg_field)) (d : reg_dev),
      ∃ a w, (overlaps_clear_go i L d).2 = { d with data := a, wlog := w } := by
  intro L
  induction L with
  | nil => exact fun d => ⟨d.data, d.wlog, rfl⟩
  | cons p rest ih =>
    intro d
    unfold overlaps_clear_go
    dsimp only
    split_ifs with h1 h2 h3
    · exact ih d
    · exact reg_set_field_state d p.2 0
    · obtain ⟨a1, w1, hs⟩ := reg_set_field_state d p.2 0
      obtain ⟨a2, w2, hg⟩ := ih (reg_set_field d p.2 0).2
      exact ⟨a2, w2, by rw [hg, hs]⟩
    · exact ih d

lemma overlaps_readzero_go_state :
    ∀ (L : List reg_field) (d : reg_dev),
      ∃ a w, (overlaps_readzero_go L d).2 = { d with data := a, wlog := w } := by
  intro L
  induction L with
  | nil => exact fun d => ⟨d.data, d.wlog, rfl⟩
  | cons fj rest ih =>
    intro d
    unfold overlaps_readzero_go
    dsimp only
    split_ifs with h1
    · obtain ⟨a1, hg⟩ := reg_get_field_state d fj
      exact ⟨a1, d.wlog, by rw [hg]⟩
    · obtain ⟨a1, hg⟩ := reg_get_field_state d fj
      obtain ⟨a2, w2, hz⟩ := ih (reg_get_field d fj).2
      exact ⟨a2, w2, by rw [hz, hg]⟩

lemma shape_trans (y x d : reg_dev) (a1 : List Nat) (w1 : List (Nat × Nat))
    (a2 : List Nat) (w2 : List (Nat × Nat))
    (hxy : y = { x with data := a2, wlog := w2 })
    (hx : x = { d with data := a1, wlog := w1 }) :
    y = { d with data := a2, wlog := w2 } := by
  subst hx
  exact hxy

lemma shape_trans_data (y x d : reg_dev) (a1 : List Nat) (w1 : List (Nat × Nat))
    (a3 : List Nat)
    (hxy : y = { x with data := a3 })
    (hx : x = { d with data := a1, wlog := w1 }) :
    y = { d with data := a3, wlog := w1 } := by
  subst hx
  exact hxy

lemma reg_check_field_overlaps_state (d : reg_dev) (i : Nat) :
    ∃ a w, (reg_check_field_overlaps d i).2 = { d with data := a, wlog := w } := by
  unfold reg_check_field_overlaps
  dsimp only
  obtain ⟨a1, w1, h1⟩ := reg_set_field_state d
    ((d.field_map.getD []).getD i default)
    (reg_mask64 0 ((d.field_map.getD []).getD i default).width)
  obtain ⟨a2, w2, h2⟩ := overlaps_clear_go_state i (d.field_map.getD []).enum
    (reg_set_field d ((d.field_map.getD []).getD i default)
      (reg_mask64 0 ((d.field_map.getD []).getD i default).width)).2
  have hS2 := shape_trans _ _ _ _ _ _ _ h2 h1
  obtain ⟨a3, h3⟩ := reg_get_field_state
    (overlaps_clear_go i (d.field_map.getD []).enum
      (reg_set_field d ((d.field_map.getD []).getD i default)
        (reg_mask64 0 ((d.field_map.getD []).getD i default).width)).2).2
    ((d.field_map.getD []).getD i default)
  have hG := shape_trans_data _ _ _ _ _ _ h3 hS2
  obtain ⟨a4, w4, h4⟩ := reg_set_field_state
    (reg_get_field (overlaps_clear_go i (d.field_map.getD []).enum
      (reg_set_field d ((d.field_map.getD []).getD i default)
        (reg_mask64 0 ((d.field_map.getD []).getD i default).width)).2).2
      ((d.field_map.getD []).getD i default)).2
    ((d.field_map.getD []).getD i default) 0
  have hS3 := shape_trans _ _ _ _ _ _ _ h4 hG
  obtain ⟨a5, w5, h5⟩ := overlaps_readzero_go_state (d.field_map.getD [])
    (reg_set_field (reg_get_field (overlaps_clear_go i (d.field_map.getD []).enum
      (reg_set_field d ((d.field_map.getD []).getD i default)
        (reg_mask64 0 ((d.field_map.getD []).getD i default).width)).2).2
      ((d.field_map.getD []).getD i default)).2
    ((d.field_map.getD []).getD i default) 0).2
  have hZ := shape_trans _ _ _ _ _ _ _ h5 hS3
  split_ifs with hc1 hc2 hc3 hc4 hc5
  · exact ⟨a1, w1, h1⟩
  · exact ⟨a2, w2, hS2⟩
  · exact ⟨a3, w2, hG⟩
  · exact ⟨a4, w4, hS3⟩
  · exact ⟨a5, w5, hZ⟩
  · exact ⟨a5, w5, hZ⟩

lemma reg_check_fields_congr (d1 d2 : reg_dev) (i : Nat)
    (hm : d1.field_map = d2.field_map) (hw : d1.reg_width = d2.reg_width)
    (hn : d1.reg_num = d2.reg_num) (hf : d1.flags = d2.flags) :
    reg_check_fields d1 i = reg_check_fields d2 i := by
  unfold reg_check_fields
  dsimp only
  rw [hm, reg_check_field_width_congr d1 d2
    ((d2.field_map.getD []).getD i default) hw hn
    (reg_flags_congr d1 d2 (some ((d2.field_map.getD []).getD i default))
      REG_DESCEND hf)]

lemma check_fields_go_zero (d0 : reg_dev) :
    ∀ (L : List Nat) (dc : reg_dev),
      dc.field_map = d0.field_map → dc.reg_width = d0.reg_width →
      dc.reg_num = d0.reg_num → dc.flags = d0.flags →
      (check_fields_go L dc).1 = 0 →
      ∀ i ∈ L, reg_check_fields d0 i = 0 := by
  intro L
  induction L with
  | nil => exact fun dc _ _ _ _ _ i hi => absurd hi (List.not_mem_nil i)
  | cons i rest ih =>
    intro dc hm hw hn hf h j hj
    unfold check_fields_go at h
    dsimp only at h
    split_ifs at h with h1 h2
    · simp at h
    · simp at h
    · rcases List.mem_cons.mp hj with hji | hjr
      · rw [hji, ← reg_check_fields_congr dc d0 i hm hw hn hf]
        exact not_ne_iff.mp h1
      · obtain ⟨a, w, hov⟩ := reg_check_field_overlaps_state dc i
        refine ih (reg_check_field_overlaps dc i).2 ?_ ?_ ?_ ?_ h j hjr <;>
          rw [hov] <;> first | exact hm | exact hw | exact hn | exact hf

lemma reg_check_fields_congr2 (d1 d2 : reg_dev) (i : Nat)
    (hm : d1.field_map = d2.field_map) (hw : d1.reg_width = d2.reg_width)
    (hn : d1.reg_num = d2.reg_num)
    (hf : ∀ f, reg_flags (some d1) (some f) REG_DESCEND
      = reg_flags (some d2) (some f) REG_DESCEND) :
    reg_check_fields d1 i = reg_check_fields d2 i := by
  unfold reg_check_fields
  dsimp only
  rw [hm, reg_check_field_width_congr d1 d2
    ((d2.field_map.getD []).getD i default) hw hn
    (hf ((d2.field_map.getD []).getD i default))]

lemma reg_check_zero_fields (d : reg_dev) (h : (reg_check d).1 = 0) :
    ∀ i, i < (d.field_map.getD []).length → reg_check_fields d i = 0 := by
  unfold reg_check at h
  dsimp only at h
  by_cases h1 : reg_empty d ≠ 0
  · rw [if_pos h1] at h
    simp at h
  rw [if_neg h1] at h
  by_cases h2 : (d.lock_fn.isSome && d.unlock_fn.isNone ||
      d.lock_fn.isNone && d.unlock_fn.isSome) = true
  · rw [if_pos h2] at h
    simp at h
  rw [if_neg h2] at h
  by_cases h3 : (reg_lock d).1 ≠ 0
  · rw [if_pos h3] at h
    simp at h
  rw [if_neg h3] at h
  rw [reg_lock_shape d (not_ne_iff.mp h3)] at h
  dsimp only at h
  rw [reg_clear_buffer_shape ({ d with flags := d.flags ||| REG_NOCOMM, lock_count := d.lock_count + 1 } : reg_dev) (not_ne_iff.mp h1)] at h
  dsimp only at h
  rw [if_neg (fun hh : ¬(0 : Int) = 0 => hh rfl)] at h
  by_cases hck : (check_fields_go
      (List.range (d.field_map.getD []).length)
      ({ d with lock_count := d.lock_count + 1, flags := d.flags ||| REG_NOCOMM, data := clearN d.reg_num d.data } : reg_dev)).1 ≠ 0
  · rw [if_pos hck] at h
    simp at h
  intro i hi
  have hall := check_fields_go_zero
    ({ d with lock_count := d.lock_count + 1, flags := d.flags ||| REG_NOCOMM, data := clearN d.reg_num d.data } : reg_dev)
    (List.range (d.field_map.getD []).length)
    ({ d with lock_count := d.lock_count + 1, flags := d.flags ||| REG_NOCOMM, data := clearN d.reg_num d.data } : reg_dev)
    rfl rfl rfl rfl (not_ne_iff.mp hck) i (List.mem_range.mpr hi)
  rw [reg_check_fields_congr2
    ({ d with lock_count := d.lock_count + 1, flags := d.flags ||| REG_NOCOMM, data := clearN d.reg_num d.data } : reg_dev) d i rfl rfl rfl ?_] at hall
  · exact hall
  · intro f
    unfold reg_flags
    dsimp only
    rw [or_and_eq_of_and_zero d.flags REG_NOCOMM REG_DESCEND (by decide)]

/-- C2, counterexample: reg_check does NOT reject every map in which two
fields share register bits.  On a 16-bit device whose map holds two
underscore-named fields `_a` and `_b` with identical geometry (register 0,
offset 0, width 16) plus an ordinary field `C`, `reg_check` returns 0 —
the overlap phase's clear loop skips underscore fields, so `_a`/`_b`
overlap is never noticed.  The overlap is real: setting `_a` to 5 makes a
read of `_b` return 5. -/
theorem reg_check_accepts_underscore_overlap :
    (reg_check (mk_dev 16 2 [⟨"_a", 0, 0, 16, 0⟩, ⟨"_b", 0, 0, 16, 0⟩, ⟨"C", 1, 0, 16, 0⟩] [0, 0])).1 = 0 ∧
    (reg_get (reg_set (mk_dev 16 2 [⟨"_a", 0, 0, 16, 0⟩, ⟨"_b", 0, 0, 16, 0⟩, ⟨"C", 1, 0, 16, 0⟩] [0, 0]) "_a" 5).2 "_b").1 = 5 := by
  decide

lemma fits_zero (w : Nat) : reg_fits 0 w = true := by
  unfold reg_fits
  split_ifs
  · rw [Nat.zero_shiftRight]
    rfl
  · rfl

lemma lt_fits (v w : Nat) (h : v < 2 ^ w) : reg_fits v w = true := by
  unfold reg_fits
  split_ifs
  · rw [Nat.shiftRight_eq_div_pow, Nat.div_eq_of_lt h]
    rfl
  · rfl

lemma fits_mask64 (w : Nat) : reg_fits (reg_mask64 0 w) w = true := by
  apply lt_fits
  have := reg_mask64_lt 0 w
  rwa [Nat.zero_add] at this

lemma width_bounds (d : reg_dev) (f : reg_field)
    (h : reg_check_field_width d f = 0) : 1 ≤ f.width ∧ f.width ≤ 64 := by
  unfold reg_check_field_width MAX_FIELD at h
  dsimp only at h
  split_ifs at h with h1 h2 h3 h4 h5 h6 <;> omega

lemma geomOK_of_check (d : reg_dev) (f : reg_field)
    (hemp : reg_empty d = 0)
    (hck : reg_check_field_width d f = 0)
    (hoffs : f.offs < d.reg_width) :
    geomOK f.offs f.width d.reg_width := by
  obtain ⟨w1, w2⟩ := reg_empty_width d hemp
  obtain ⟨w3, w4⟩ := width_bounds d f hck
  exact ⟨w1, w2, hoffs, w3, w4⟩

lemma reg_flags_dev (c : reg_dev) (f : reg_field) (m : Nat)
    (h : (c.flags &&& m != 0) = true) :
    reg_flags (some c) (some f) m = true := by
  unfold reg_flags
  dsimp only
  rw [h]
  rfl

lemma hvol_of_nocomm (c : reg_dev) (f : reg_field)
    (h : reg_flags (some c) (some f) REG_NOCOMM = true) :
    ((!reg_flags (some c) (some f) REG_NOCOMM) &&
      reg_flags (some c) (some f) REG_VOLATILE) = false := by
  rw [h]
  rfl

lemma clearN_length (n : Nat) (l : List Nat) : (clearN n l).length = l.length := by
  induction n with
  | zero => rfl
  | succ m ih =>
    unfold clearN
    rw [List.length_set, ih]

lemma clearN_getD (n : Nat) (l : List Nat) (r : Nat) :
    (clearN n l).getD r 0 = if r < n ∧ r < l.length then 0 else l.getD r 0 := by
  induction n with
  | zero =>
    rw [if_neg (by omega)]
    rfl
  | succ m ih =>
    unfold clearN
    by_cases hrm : r = m
    · subst hrm
      by_cases hrl : r < l.length
      · rw [getD_set_self _ _ _ (by rw [clearN_length]; exact hrl),
          if_pos ⟨by omega, hrl⟩]
      · rw [List.set_eq_of_length_le (by rw [clearN_length]; omega), ih,
          if_neg (by omega), if_neg (by omega)]
    · rw [getD_set_ne _ _ _ _ (fun hh => hrm hh.symm), ih]
      by_cases hc : r < m ∧ r < l.length
      · rw [if_pos hc, if_pos ⟨by omega, hc.2⟩]
      · rw [if_neg hc, if_neg (by omega)]

lemma clearN_getD_zero (n : Nat) (l : List Nat) (hl : l.length = n) (r : Nat) :
    (clearN n l).getD r 0 = 0 := by
  rw [clearN_getD]
  by_cases hc : r < n ∧ r < l.length
  · rw [if_pos hc]
  · rw [if_neg hc, List.getD_eq_default _ _ (by omega)]

lemma enum_mem_of_lt (l : List reg_field) (j : Nat) (hj : j < l.length) :
    (j, l.getD j default) ∈ l.enum := by
  have hjl : j < l.enum.length := by rw [List.enum_length]; exact hj
  have := List.getElem_enum l j hjl
  rw [List.getD_eq_getElem l default hj]
  rw [← this]
  exact List.getElem_mem hjl

lemma enum_snd_mem (l : List reg_field) (p : Nat × reg_field)
    (hp : p ∈ l.enum) : p.2 ∈ l ∧ p.1 < l.length ∧ p.2 = l.getD p.1 default := by
  obtain ⟨k, hk, hget⟩ := List.mem_iff_getElem.mp hp
  have hkl : k < l.length := by rw [List.enum_length] at hk; exact hk
  rw [List.getElem_enum] at hget
  have h2 : p.2 = l[k] := by rw [← hget]
  have h1 : p.1 = k := by rw [← hget]
  refine ⟨by rw [h2]; exact List.getElem_mem hkl, by omega, ?_⟩
  rw [h1, h2, List.getD_eq_getElem l default hkl]

lemma mask64_zero_testBit (w k : Nat) (h1 : 1 ≤ w) (h2 : w ≤ 64) :
    (reg_mask64 0 w).testBit k = decide (k < w) := by
  rw [reg_mask64_testBit 0 w h1 (by omega)]
  simp [Nat.zero_le, Nat.zero_add]

lemma reg_field_mask_testBit (o w W n b : Nat) (hg : geomOK o w W)
    (hn : n < nchunks o w W) :
    (reg_field_mask n o w W).testBit b
      = (decide (chunkBit o n ≤ b) &&
         decide (b < chunkBit o n + chunkLen o w W n)) := by
  obtain ⟨c1, c2, c3⟩ := chunkLen_facts o w W n hg hn
  rw [reg_field_mask_eq o w W n hg hn,
    reg_mask32_testBit (chunkBit o n) (chunkLen o w W n) c1
      (by obtain ⟨g1, g2, g3, g4, g5⟩ := hg; omega)]

lemma chunkValShift_testBit (d : reg_dev) (f : reg_field) (n v b : Nat)
    (hg : geomOK f.offs f.width d.reg_width)
    (hn : n < nchunks f.offs f.width d.reg_width)
    (hb1 : chunkBit f.offs n ≤ b)
    (hb2 : b < chunkBit f.offs n + chunkLen f.offs f.width d.reg_width n) :
    (chunkValShift d f n v).testBit b
      = v.testBit (chunkStart f.offs f.width d.reg_width n
          + (b - chunkBit f.offs n)) := by
  obtain ⟨c1, c2, c3⟩ := chunkLen_facts f.offs f.width d.reg_width n hg hn
  obtain ⟨g1, g2, g3, g4, g5⟩ := hg
  cases n with
  | zero =>
    have hbo : chunkBit f.offs 0 = f.offs := rfl
    have hs0 : chunkStart f.offs f.width d.reg_width 0 = 0 := rfl
    rw [hbo] at hb1 hb2
    rw [hbo] at c2
    unfold chunkValShift
    rw [if_pos rfl, hs0, hbo]
    unfold U64
    rw [Nat.testBit_mod_two_pow, Nat.testBit_shiftLeft]
    have e1 : b < 64 := by omega
    simp [e1, hb1]
  | succ m =>
    have hbo : chunkBit f.offs (m + 1) = 0 := by
      unfold chunkBit
      rw [if_neg (Nat.succ_ne_zero m)]
    have hs : chunkStart f.offs f.width d.reg_width (m + 1)
        = len0v f.offs f.width d.reg_width + m * d.reg_width := by
      unfold chunkStart
      rw [if_neg (Nat.succ_ne_zero m)]
      rfl
    unfold chunkValShift
    rw [if_neg (Nat.succ_ne_zero m)]
    have hms : m + 1 - 1 = m := rfl
    rw [hms, Nat.testBit_shiftRight, hs, hbo, Nat.sub_zero]

lemma chunkWordOf_testBit (d : reg_dev) (f : reg_field) (x n v b : Nat)
    (hg : geomOK f.offs f.width d.reg_width)
    (hn : n < nchunks f.offs f.width d.reg_width)
    (hb32 : b < 32) :
    (chunkWordOf d f x n v).testBit b
      = if chunkBit f.offs n ≤ b ∧
          b < chunkBit f.offs n + chunkLen f.offs f.width d.reg_width n
        then v.testBit (chunkStart f.offs f.width d.reg_width n
          + (b - chunkBit f.offs n))
        else x.testBit b := by
  unfold chunkWordOf compl32
  rw [Nat.testBit_or, Nat.testBit_and, Nat.testBit_and, Nat.testBit_xor,
    reg_field_mask_testBit f.offs f.width d.reg_width n b hg hn]
  have hub : (U32 - 1).testBit b = true := by
    unfold U32
    rw [Nat.testBit_two_pow_sub_one]
    simpa using hb32
  rw [hub]
  by_cases hw : chunkBit f.offs n ≤ b ∧
      b < chunkBit f.offs n + chunkLen f.offs f.width d.reg_width n
  · rw [if_pos hw,
      chunkValShift_testBit d f n v b hg hn hw.1 hw.2]
    simp [hw.1, hw.2]
  · rw [if_neg hw]
    rcases Decidable.not_and_iff_or_not.mp hw with hl | hr
    · simp [hl]
    · simp [hr]

lemma fieldCovers_iff (d : reg_dev) (f : reg_field) (r b : Nat) :
    fieldCovers d f r b = true ↔
      ∃ n, n < nchunks f.offs f.width d.reg_width ∧
        chunkRegOf d f n = r ∧ chunkBit f.offs n ≤ b ∧
        b < chunkBit f.offs n + chunkLen f.offs f.width d.reg_width n := by
  unfold fieldCovers
  rw [List.any_eq_true]
  constructor
  · rintro ⟨n, hn, hp⟩
    simp only [Bool.and_eq_true, decide_eq_true_eq] at hp
    exact ⟨n, List.mem_range.mp hn, hp.1.1, hp.1.2, hp.2⟩
  · rintro ⟨n, hn, h1, h2, h3⟩
    refine ⟨n, List.mem_range.mpr hn, ?_⟩
    simp only [Bool.and_eq_true, decide_eq_true_eq]
    exact ⟨⟨h1, h2⟩, h3⟩

lemma chunkIdxAt_chunkRegOf (d : reg_dev) (f : reg_field) (m : Nat)
    (hdesc : reg_flags (some d) (some f) REG_DESCEND = true →
      nchunks f.offs f.width d.reg_width ≤ f.reg + 1)
    (hm : m < nchunks f.offs f.width d.reg_width) :
    chunkIdxAt d f (chunkRegOf d f m) = m := by
  unfold chunkIdxAt chunkRegOf
  by_cases hd : reg_flags (some d) (some f) REG_DESCEND = true
  · rw [if_pos hd, if_pos hd]
    have := hdesc hd
    omega
  · rw [if_neg hd, if_neg hd]
    omega

lemma fieldCovers_window (d : reg_dev) (f : reg_field) (m b : Nat)
    (hdesc : reg_flags (some d) (some f) REG_DESCEND = true →
      nchunks f.offs f.width d.reg_width ≤ f.reg + 1)
    (hm : m < nchunks f.offs f.width d.reg_width) :
    fieldCovers d f (chunkRegOf d f m) b = true ↔
      (chunkBit f.offs m ≤ b ∧
       b < chunkBit f.offs m + chunkLen f.offs f.width d.reg_width m) := by
  rw [fieldCovers_iff]
  constructor
  · rintro ⟨n, hn, hreg, h2, h3⟩
    have hnm : n = m := by
      by_contra hne
      exact chunkRegOf_inj d f hdesc n m hn hm hne hreg
    rw [hnm] at h2 h3
    exact ⟨h2, h3⟩
  · rintro ⟨h2, h3⟩
    exact ⟨m, hm, rfl, h2, h3⟩

lemma fieldCovers_false_of_no_chunk (d : reg_dev) (f : reg_field) (r b : Nat)
    (h : ∀ n, n < nchunks f.offs f.width d.reg_width → chunkRegOf d f n ≠ r) :
    fieldCovers d f r b = false := by
  cases hq : fieldCovers d f r b with
  | false => rfl
  | true =>
    obtain ⟨n, hn, hreg, _, _⟩ := (fieldCovers_iff d f r b).mp hq
    exact absurd hreg (h n hn)

lemma fieldValBit_window (d : reg_dev) (f : reg_field) (m b : Nat)
    (hdesc : reg_flags (some d) (some f) REG_DESCEND = true →
      nchunks f.offs f.width d.reg_width ≤ f.reg + 1)
    (hm : m < nchunks f.offs f.width d.reg_width) :
    fieldValBit d f (chunkRegOf d f m) b
      = chunkStart f.offs f.width d.reg_width m + (b - chunkBit f.offs m) := by
  unfold fieldValBit
  rw [chunkIdxAt_chunkRegOf d f m hdesc hm]

lemma fieldValBit_lt (d : reg_dev) (f : reg_field) (r b : Nat)
    (hg : geomOK f.offs f.width d.reg_width)
    (hdesc : reg_flags (some d) (some f) REG_DESCEND = true →
      nchunks f.offs f.width d.reg_width ≤ f.reg + 1)
    (hc : fieldCovers d f r b = true) :
    fieldValBit d f r b < f.width := by
  obtain ⟨n, hn, hreg, h2, h3⟩ := (fieldCovers_iff d f r b).mp hc
  obtain ⟨c1, c2, c3⟩ := chunkLen_facts f.offs f.width d.reg_width n hg hn
  rw [← hreg, fieldValBit_window d f n b hdesc hn]
  omega

lemma read_pos_covers (d : reg_dev) (f : reg_field) (k : Nat)
    (hg : geomOK f.offs f.width d.reg_width)
    (hdesc : reg_flags (some d) (some f) REG_DESCEND = true →
      nchunks f.offs f.width d.reg_width ≤ f.reg + 1)
    (hk : k < f.width) :
    fieldCovers d f
      (chunkRegOf d f (chunkOf f.offs f.width d.reg_width k))
      (chunkBit f.offs (chunkOf f.offs f.width d.reg_width k)
        + (k - chunkStart f.offs f.width d.reg_width
            (chunkOf f.offs f.width d.reg_width k))) = true ∧
    fieldValBit d f
      (chunkRegOf d f (chunkOf f.offs f.width d.reg_width k))
      (chunkBit f.offs (chunkOf f.offs f.width d.reg_width k)
        + (k - chunkStart f.offs f.width d.reg_width
            (chunkOf f.offs f.width d.reg_width k))) = k := by
  obtain ⟨hn, hlo, hhi⟩ := chunkOf_spec f.offs f.width d.reg_width k hg hk
  constructor
  · rw [fieldCovers_window d f _ _ hdesc hn]
    omega
  · rw [fieldValBit_window d f _ _ hdesc hn]
    omega

lemma reg_field_mask_lt32 (n o w W : Nat) : reg_field_mask n o w W < 2 ^ 32 := by
  unfold reg_field_mask reg_mask32
  dsimp only
  split_ifs <;> first
    | exact Nat.two_pow_pos 32
    | (unfold U32; exact Nat.mod_lt _ (by omega))

lemma compl32_lt32 (m : Nat) (hm : m < 2 ^ 32) : compl32 m < 2 ^ 32 := by
  unfold compl32 U32
  exact Nat.xor_lt_two_pow hm (by omega)

lemma chunkWordOf_lt32 (d : reg_dev) (f : reg_field) (x n v : Nat) :
    chunkWordOf d f x n v < 2 ^ 32 := by
  unfold chunkWordOf
  exact Nat.or_lt_two_pow
    (Nat.and_lt_two_pow x
      (compl32_lt32 _ (reg_field_mask_lt32 n f.offs f.width d.reg_width)))
    (Nat.and_lt_two_pow _ (reg_field_mask_lt32 n f.offs f.width d.reg_width))

lemma reg_set_field_bits (d : reg_dev) (f : reg_field) (v : Nat)
    (hemp : reg_empty d = 0)
    (hg : geomOK f.offs f.width d.reg_width)
    (hck : reg_check_field_width d f = 0)
    (hfit : reg_fits v f.width = true)
    (hNC : reg_flags (some d) (some f) REG_NOCOMM = true)
    (hU63 : d.reg_num < 2 ^ 63)
    (hlen : d.data.length = d.reg_num) :
    (reg_set_field d f v).1 = 0 ∧
    ∃ dta lw, (reg_set_field d f v).2 = { d with data := dta, wlog := lw } ∧
      dta.length = d.data.length ∧
      (∀ r b, b < 32 →
        (dta.getD r 0).testBit b
          = if fieldCovers d f r b = true then v.testBit (fieldValBit d f r b)
            else (d.data.getD r 0).testBit b) ∧
      (∀ r, dta.getD r 0 < 2 ^ 32 ∨ dta.getD r 0 = d.data.getD r 0) := by
  obtain ⟨hreg, hdescb, hascb⟩ := check_width_facts d f hg hU63 hck
  obtain ⟨h0, dta, lw, heq, hlen2, hset, hframe⟩ :=
    reg_set_field_clean d f v hemp hg hck hfit (Or.inl hNC) hU63 hlen
  refine ⟨h0, dta, lw, heq, hlen2, ?_, ?_⟩
  case refine_2 =>
    intro r
    by_cases hr : ∃ m, m < nchunks f.offs f.width d.reg_width ∧
        chunkRegOf d f m = r
    · obtain ⟨m, hm, hrm⟩ := hr
      subst hrm
      rw [hset m hm]
      exact Or.inl (chunkWordOf_lt32 d f _ m v)
    · push_neg at hr
      exact Or.inr (hframe r (fun m hm => hr m hm))
  intro r b hb32
  by_cases hr : ∃ m, m < nchunks f.offs f.width d.reg_width ∧
      chunkRegOf d f m = r
  · obtain ⟨m, hm, hrm⟩ := hr
    subst hrm
    rw [hset m hm, chunkWordOf_testBit d f _ m v b hg hm hb32]
    by_cases hw : chunkBit f.offs m ≤ b ∧
        b < chunkBit f.offs m + chunkLen f.offs f.width d.reg_width m
    · rw [if_pos hw, if_pos ((fieldCovers_window d f m b hdescb hm).mpr hw),
        fieldValBit_window d f m b hdescb hm]
    · rw [if_neg hw, if_neg (fun hc =>
        hw ((fieldCovers_window d f m b hdescb hm).mp hc))]
  · push_neg at hr
    rw [hframe r (fun m hm => hr m hm),
      if_neg (by rw [fieldCovers_false_of_no_chunk d f _ b hr]; simp)]

lemma chunkGetOf_testBit (d : reg_dev) (f : reg_field) (n k : Nat)
    (hg : geomOK f.offs f.width d.reg_width)
    (hn : n < nchunks f.offs f.width d.reg_width) :
    (chunkGetOf d f n).testBit k
      = (decide (chunkStart f.offs f.width d.reg_width n ≤ k) &&
         decide (k < chunkStart f.offs f.width d.reg_width n
           + chunkLen f.offs f.width d.reg_width n) &&
         (d.data.getD (chunkRegOf d f n) 0).testBit
           (chunkBit f.offs n + (k - chunkStart f.offs f.width d.reg_width n))) := by
  obtain ⟨c1, c2, c3⟩ := chunkLen_facts f.offs f.width d.reg_width n hg hn
  have hgg := hg
  obtain ⟨g1, g2, g3, g4, g5⟩ := hgg
  cases n with
  | zero =>
    have hbo : chunkBit f.offs 0 = f.offs := rfl
    have hs0 : chunkStart f.offs f.width d.reg_width 0 = 0 := rfl
    have hl0 : chunkLen f.offs f.width d.reg_width 0
        = len0v f.offs f.width d.reg_width := rfl
    unfold chunkGetOf
    rw [if_pos rfl, Nat.testBit_shiftRight, Nat.testBit_and,
      reg_field_mask_testBit f.offs f.width d.reg_width 0 (f.offs + k) hg hn,
      hbo, hs0, hl0]
    rw [hbo] at c2
    rw [hs0, hl0] at c3
    by_cases hk : k < len0v f.offs f.width d.reg_width
    · have e1 : f.offs ≤ f.offs + k := by omega
      have e2 : f.offs + k < f.offs + len0v f.offs f.width d.reg_width := by
        omega
      have e3 : f.offs + k - f.offs = k := by omega
      have e4 : k - 0 = k := by omega
      simp [e1, e2, e3, e4, hk, Nat.zero_le]
    · have e2 : ¬(f.offs + k < f.offs + len0v f.offs f.width d.reg_width) := by
        omega
      simp [e2, hk]
  | succ m =>
    have hbo : chunkBit f.offs (m + 1) = 0 := by
      unfold chunkBit
      rw [if_neg (Nat.succ_ne_zero m)]
    have hs : chunkStart f.offs f.width d.reg_width (m + 1)
        = len0v f.offs f.width d.reg_width + m * d.reg_width := by
      unfold chunkStart
      rw [if_neg (Nat.succ_ne_zero m)]
      rfl
    have hms : m + 1 - 1 = m := rfl
    unfold chunkGetOf
    rw [if_neg (Nat.succ_ne_zero m), hms]
    unfold U64
    rw [Nat.testBit_mod_two_pow, Nat.testBit_shiftLeft, Nat.testBit_and,
      reg_field_mask_testBit f.offs f.width d.reg_width (m + 1) _ hg hn, hbo, hs]
    rw [hs] at c3
    by_cases hS : len0v f.offs f.width d.reg_width + m * d.reg_width ≤ k
    · by_cases hl : k - (len0v f.offs f.width d.reg_width + m * d.reg_width)
          < chunkLen f.offs f.width d.reg_width (m + 1)
      · have e1 : k < 64 := by omega
        have e2 : k < len0v f.offs f.width d.reg_width + m * d.reg_width
            + chunkLen f.offs f.width d.reg_width (m + 1) := by omega
        simp [e1, e2, hS, hl, Nat.zero_le]
      · have e2 : ¬(k < len0v f.offs f.width d.reg_width + m * d.reg_width
            + chunkLen f.offs f.width d.reg_width (m + 1)) := by omega
        simp [e2, hS, hl]
    · simp [hS]

lemma reg_get_field_bits (d : reg_dev) (f : reg_field)
    (hemp : reg_empty d = 0)
    (hg : geomOK f.offs f.width d.reg_width)
    (hck : reg_check_field_width d f = 0)
    (hNC : reg_flags (some d) (some f) REG_NOCOMM = true)
    (hU63 : d.reg_num < 2 ^ 63) :
    (reg_get_field d f).2 = d ∧
    ∀ k, ((reg_get_field d f).1).testBit k
      = (decide (k < f.width) &&
         (d.data.getD (chunkRegOf d f (chunkOf f.offs f.width d.reg_width k)) 0).testBit
           (chunkBit f.offs (chunkOf f.offs f.width d.reg_width k)
             + (k - chunkStart f.offs f.width d.reg_width
                 (chunkOf f.offs f.width d.reg_width k)))) := by
  have hclean := reg_get_field_clean d f hemp hg hck
    (hvol_of_nocomm d f hNC) hU63
  rw [hclean]
  refine ⟨rfl, ?_⟩
  intro k
  rw [show ((List.range (nchunks f.offs f.width d.reg_width)).foldl
      (fun a n => a ||| chunkGetOf d f n) 0, d).1
    = (List.range (nchunks f.offs f.width d.reg_width)).foldl
      (fun a n => a ||| chunkGetOf d f n) 0 from rfl]
  rw [foldl_or_testBit (chunkGetOf d f)
    (List.range (nchunks f.offs f.width d.reg_width)) 0 k,
    Nat.zero_testBit, Bool.false_or]
  by_cases hk : k < f.width
  · obtain ⟨hn, hlo, hhi⟩ := chunkOf_spec f.offs f.width d.reg_width k hg hk
    cases hread : (d.data.getD
        (chunkRegOf d f (chunkOf f.offs f.width d.reg_width k)) 0).testBit
        (chunkBit f.offs (chunkOf f.offs f.width d.reg_width k)
          + (k - chunkStart f.offs f.width d.reg_width
              (chunkOf f.offs f.width d.reg_width k))) with
    | true =>
      rw [List.any_eq_true.mpr ⟨chunkOf f.offs f.width d.reg_width k,
        List.mem_range.mpr hn, by
          rw [chunkGetOf_testBit d f _ k hg hn, hread]
          simp [hlo, hhi]⟩]
      simp [hk]
    | false =>
      rw [List.any_eq_false.mpr ?_]
      · simp [hread]
      · intro n hn'
        have hn2 := List.mem_range.mp hn'
        rw [chunkGetOf_testBit d f n k hg hn2]
        by_cases hw : chunkStart f.offs f.width d.reg_width n ≤ k ∧
            k < chunkStart f.offs f.width d.reg_width n
              + chunkLen f.offs f.width d.reg_width n
        · have := chunkOf_unique f.offs f.width d.reg_width k n hg hn2 hw.1 hw.2
          rw [this] at hread
          intro hcontra
          simp only [Bool.and_eq_true, decide_eq_true_eq] at hcontra
          rw [hread] at hcontra
          simp at hcontra
        · rcases Decidable.not_and_iff_or_not.mp hw with hl | hr
          · simp [hl]
          · simp [hr]
  · rw [List.any_eq_false.mpr ?_]
    · simp [hk]
    · intro n hn'
      have hn2 := List.mem_range.mp hn'
      obtain ⟨c1, c2, c3⟩ := chunkLen_facts f.offs f.width d.reg_width n hg hn2
      rw [chunkGetOf_testBit d f n k hg hn2]
      have : ¬(k < chunkStart f.offs f.width d.reg_width n
          + chunkLen f.offs f.width d.reg_width n) := by omega
      simp [this]

lemma overlaps_clear_go_bits (c : reg_dev) (i : Nat)
    (hempc : reg_empty c = 0)
    (hNCb : (c.flags &&& REG_NOCOMM != 0) = true)
    (hU63c : c.reg_num < 2 ^ 63) :
    ∀ (L : List (Nat × reg_field)) (A : List Nat) (Lw : List (Nat × Nat)),
      (∀ p ∈ L, reg_check_field_width c p.2 = 0 ∧
        geomOK p.2.offs p.2.width c.reg_width) →
      A.length = c.reg_num →
      (overlaps_clear_go i L { c with data := A, wlog := Lw }).1 = 0 ∧
      ∃ A2 Lw2, (overlaps_clear_go i L { c with data := A, wlog := Lw }).2
          = { c with data := A2, wlog := Lw2 } ∧
        A2.length = A.length ∧
        (∀ r b, b < 32 →
          (A2.getD r 0).testBit b
            = ((A.getD r 0).testBit b &&
               !(L.any (fun p => decide (p.1 ≠ i) && !(underscore p.2.name) &&
                 fieldCovers c p.2 r b)))) ∧
        (∀ r, A2.getD r 0 < 2 ^ 32 ∨ A2.getD r 0 = A.getD r 0) := by
  intro L
  induction L with
  | nil =>
    intro A Lw _ _
    exact ⟨rfl, A, Lw, rfl, rfl, fun r b _ => by simp, fun r => Or.inr rfl⟩
  | cons p rest ih =>
    intro A Lw hL hA
    obtain ⟨hckp, hgp⟩ := hL p (List.mem_cons_self p rest)
    have hLr : ∀ q ∈ rest, reg_check_field_width c q.2 = 0 ∧
        geomOK q.2.offs q.2.width c.reg_width :=
      fun q hq => hL q (List.mem_cons_of_mem p hq)
    unfold overlaps_clear_go
    dsimp only
    split_ifs with h1 h2 h3
    · -- j ≠ i, underscore: skipped
      obtain ⟨h0, A2, Lw2, heq, hlen2, hbit, h32⟩ := ih A Lw hLr hA
      refine ⟨h0, A2, Lw2, heq, hlen2, ?_, h32⟩
      intro r b hb32
      rw [hbit r b hb32, List.any_cons]
      simp [h2]
    · -- j ≠ i, not underscore, set failed: impossible
      obtain ⟨hst0, _, _, _, _, _, _⟩ :=
        reg_set_field_bits { c with data := A, wlog := Lw } p.2 0
          hempc hgp hckp (fits_zero p.2.width)
          (reg_flags_dev { c with data := A, wlog := Lw } p.2 REG_NOCOMM hNCb)
          hU63c hA
      exact absurd hst0 h3
    · -- j ≠ i, not underscore, set succeeded
      obtain ⟨hst0, A1, Lw1, heq1, hlen1, hbit1, h32a⟩ :=
        reg_set_field_bits { c with data := A, wlog := Lw } p.2 0
          hempc hgp hckp (fits_zero p.2.width)
          (reg_flags_dev { c with data := A, wlog := Lw } p.2 REG_NOCOMM hNCb)
          hU63c hA
      have heq1' : (reg_set_field { c with data := A, wlog := Lw } p.2 0).2
          = { c with data := A1, wlog := Lw1 } := heq1
      have hbit1' : ∀ r b, b < 32 →
          (A1.getD r 0).testBit b
            = if fieldCovers c p.2 r b = true
              then Nat.testBit 0 (fieldValBit c p.2 r b)
              else (A.getD r 0).testBit b := hbit1
      rw [heq1']
      obtain ⟨h0, A2, Lw2, heq2, hlen2, hbit2, h32b⟩ :=
        ih A1 Lw1 hLr (by rw [hlen1]; exact hA)
      have h32c : ∀ r, A2.getD r 0 < 2 ^ 32 ∨ A2.getD r 0 = A.getD r 0 := by
        intro r
        rcases h32b r with h | h
        · exact Or.inl h
        · rw [h]
          exact h32a r
      refine ⟨h0, A2, Lw2, heq2, by rw [hlen2, hlen1], ?_, h32c⟩
      intro r b hb32
      rw [hbit2 r b hb32, hbit1' r b hb32, List.any_cons]
      have hu : underscore p.2.name = false := by
        cases hq : underscore p.2.name with
        | false => rfl
        | true => exact absurd hq h2
      by_cases hc : fieldCovers c p.2 r b = true
      · rw [if_pos hc, Nat.zero_testBit]
        simp [hc, h1, hu]
      · rw [if_neg hc]
        have hc' : fieldCovers c p.2 r b = false := by
          cases hq : fieldCovers c p.2 r b with
          | false => rfl
          | true => exact absurd hq hc
        simp [hc', hu]
    · -- j = i: skipped
      obtain ⟨h0, A2, Lw2, heq, hlen2, hbit, h32⟩ := ih A Lw hLr hA
      refine ⟨h0, A2, Lw2, heq, hlen2, ?_, h32⟩
      intro r b hb32
      rw [hbit r b hb32, List.any_cons]
      have h1' : ¬(p.1 ≠ i) := h1
      simp [h1']

lemma overlaps_readzero_go_ok (c : reg_dev)
    (hempc : reg_empty c = 0)
    (hNCb : (c.flags &&& REG_NOCOMM != 0) = true)
    (hU63c : c.reg_num < 2 ^ 63) :
    ∀ (L : List reg_field) (A : List Nat) (Lw : List (Nat × Nat)),
      (∀ f ∈ L, reg_check_field_width c f = 0 ∧
        geomOK f.offs f.width c.reg_width) →
      (∀ r, A.getD r 0 = 0) →
      (overlaps_readzero_go L { c with data := A, wlog := Lw }).1 = 0 ∧
      (overlaps_readzero_go L { c with data := A, wlog := Lw }).2
        = { c with data := A, wlog := Lw } := by
  intro L
  induction L with
  | nil => exact fun A Lw _ _ => ⟨rfl, rfl⟩
  | cons f rest ih =>
    intro A Lw hL hz
    obtain ⟨hckf, hgf⟩ := hL f (List.mem_cons_self f rest)
    obtain ⟨hdev, hbits⟩ :=
      reg_get_field_bits { c with data := A, wlog := Lw } f
        hempc hgf hckf
        (reg_flags_dev { c with data := A, wlog := Lw } f REG_NOCOMM hNCb)
        hU63c
    have hval : (reg_get_field { c with data := A, wlog := Lw } f).1 = 0 := by
      apply Nat.eq_of_testBit_eq
      intro k
      rw [hbits k, Nat.zero_testBit]
      have : (A.getD (chunkRegOf c f
          (chunkOf f.offs f.width c.reg_width k)) 0) = 0 := hz _
      rw [show ((({ c with data := A, wlog := Lw } : reg_dev)).data.getD
          (chunkRegOf { c with data := A, wlog := Lw } f
            (chunkOf f.offs f.width
              (({ c with data := A, wlog := Lw } : reg_dev)).reg_width k)) 0)
          = A.getD (chunkRegOf c f (chunkOf f.offs f.width c.reg_width k)) 0
        from rfl, this, Nat.zero_testBit]
      simp
    unfold overlaps_readzero_go
    dsimp only
    rw [if_neg (fun hh => hh hval), hdev]
    exact ih A Lw (fun g hg => hL g (List.mem_cons_of_mem f hg)) hz

lemma coverage_set_go_bits (c : reg_dev)
    (hempc : reg_empty c = 0)
    (hNCb : (c.flags &&& REG_NOCOMM != 0) = true)
    (hU63c : c.reg_num < 2 ^ 63) :
    ∀ (L : List reg_field) (A : List Nat) (Lw : List (Nat × Nat)),
      (∀ f ∈ L, reg_check_field_width c f = 0 ∧
        geomOK f.offs f.width c.reg_width) →
      A.length = c.reg_num →
      (coverage_set_go L { c with data := A, wlog := Lw }).1 = 0 ∧
      ∃ A2 Lw2, (coverage_set_go L { c with data := A, wlog := Lw }).2
          = { c with data := A2, wlog := Lw2 } ∧
        A2.length = A.length ∧
        (∀ r b, b < 32 →
          (A2.getD r 0).testBit b
            = ((A.getD r 0).testBit b ||
               L.any (fun f => fieldCovers c f r b))) ∧
        (∀ r, A2.getD r 0 < 2 ^ 32 ∨ A2.getD r 0 = A.getD r 0) := by
  intro L
  induction L with
  | nil =>
    intro A Lw _ _
    exact ⟨rfl, A, Lw, rfl, rfl, fun r b _ => by simp, fun r => Or.inr rfl⟩
  | cons f rest ih =>
    intro A Lw hL hA
    obtain ⟨hckf, hgf⟩ := hL f (List.mem_cons_self f rest)
    obtain ⟨hreg, hdescb, hascb⟩ := check_width_facts c f hgf hU63c hckf
    obtain ⟨hst0, A1, Lw1, heq1, hlen1, hbit1, h32a⟩ :=
      reg_set_field_bits { c with data := A, wlog := Lw } f
        (reg_mask64 0 f.width)
        hempc hgf hckf (fits_mask64 f.width)
        (reg_flags_dev { c with data := A, wlog := Lw } f REG_NOCOMM hNCb)
        hU63c hA
    have heq1' : (reg_set_field { c with data := A, wlog := Lw } f
        (reg_mask64 0 f.width)).2 = { c with data := A1, wlog := Lw1 } := heq1
    have hbit1' : ∀ r b, b < 32 →
        (A1.getD r 0).testBit b
          = if fieldCovers c f r b = true
            then (reg_mask64 0 f.width).testBit (fieldValBit c f r b)
            else (A.getD r 0).testBit b := hbit1
    unfold coverage_set_go
    dsimp only
    rw [if_neg (fun hh => hh hst0), heq1']
    obtain ⟨h0, A2, Lw2, heq2, hlen2, hbit2, h32b⟩ :=
      ih A1 Lw1 (fun g hg => hL g (List.mem_cons_of_mem f hg))
        (by rw [hlen1]; exact hA)
    have h32c : ∀ r, A2.getD r 0 < 2 ^ 32 ∨ A2.getD r 0 = A.getD r 0 := by
      intro r
      rcases h32b r with h | h
      · exact Or.inl h
      · rw [h]
        exact h32a r
    refine ⟨h0, A2, Lw2, heq2, by rw [hlen2, hlen1], ?_, h32c⟩
    intro r b hb32
    rw [hbit2 r b hb32, hbit1' r b hb32, List.any_cons]
    obtain ⟨w1, w2⟩ := width_bounds c f hckf
    by_cases hc : fieldCovers c f r b = true
    · rw [if_pos hc,
        mask64_zero_testBit f.width (fieldValBit c f r b) w1 w2]
      have := fieldValBit_lt c f r b hgf hdescb hc
      simp [hc, this]
    · rw [if_neg hc]
      have hc' : fieldCovers c f r b = false := by
        cases hq : fieldCovers c f r b with
        | false => rfl
        | true => exact absurd hq hc
      simp [hc']

lemma coverage_read_go_ok (c : reg_dev)
    (hempc : reg_empty c = 0)
    (hNCb : (c.flags &&& REG_NOCOMM != 0) = true)
    (hU63c : c.reg_num < 2 ^ 63) :
    ∀ (L : List reg_field) (A : List Nat) (Lw : List (Nat × Nat)),
      (∀ f ∈ L, reg_check_field_width c f = 0 ∧
        geomOK f.offs f.width c.reg_width) →
      (∀ f ∈ L, ∀ r b, fieldCovers c f r b = true →
        (A.getD r 0).testBit b = true) →
      (coverage_read_go L { c with data := A, wlog := Lw }).1 = 0 ∧
      (coverage_read_go L { c with data := A, wlog := Lw }).2
        = { c with data := A, wlog := Lw } := by
  intro L
  induction L with
  | nil => exact fun A Lw _ _ => ⟨rfl, rfl⟩
  | cons f rest ih =>
    intro A Lw hL hfull
    obtain ⟨hckf, hgf⟩ := hL f (List.mem_cons_self f rest)
    obtain ⟨hreg, hdescb, hascb⟩ := check_width_facts c f hgf hU63c hckf
    obtain ⟨w1, w2⟩ := width_bounds c f hckf
    obtain ⟨hdev, hbits⟩ :=
      reg_get_field_bits { c with data := A, wlog := Lw } f
        hempc hgf hckf
        (reg_flags_dev { c with data := A, wlog := Lw } f REG_NOCOMM hNCb)
        hU63c
    have hval : (reg_get_field { c with data := A, wlog := Lw } f).1
        = reg_mask64 0 f.width := by
      apply Nat.eq_of_testBit_eq
      intro k
      rw [hbits k, mask64_zero_testBit f.width k w1 w2]
      by_cases hk : k < f.width
      · obtain ⟨hcv, hvb⟩ := read_pos_covers c f k hgf hdescb hk
        have hbit := hfull f (List.mem_cons_self f rest) _ _ hcv
        rw [show ((({ c with data := A, wlog := Lw } : reg_dev)).data.getD
            (chunkRegOf { c with data := A, wlog := Lw } f
              (chunkOf f.offs f.width
                (({ c with data := A, wlog := Lw } : reg_dev)).reg_width k)) 0)
            = A.getD (chunkRegOf c f (chunkOf f.offs f.width c.reg_width k)) 0
          from rfl, hbit]
        simp [hk]
      · simp [hk]
    unfold coverage_read_go
    dsimp only
    rw [if_neg (by rw [hval]; exact fun hh => hh rfl), hdev]
    exact ih A Lw (fun g hg => hL g (List.mem_cons_of_mem f hg))
      (fun g hg => hfull g (List.mem_cons_of_mem f hg))

lemma fieldCovers_b_lt (c : reg_dev) (f : reg_field) (r b : Nat)
    (hg : geomOK f.offs f.width c.reg_width)
    (hcov : fieldCovers c f r b = true) : b < c.reg_width := by
  obtain ⟨n, hn, _, _, h3⟩ := (fieldCovers_iff c f r b).mp hcov
  obtain ⟨c1, c2, c3⟩ := chunkLen_facts f.offs f.width c.reg_width n hg hn
  omega

lemma fieldCovers_r_lt (c : reg_dev) (f : reg_field) (r b : Nat)
    (hg : geomOK f.offs f.width c.reg_width)
    (hU63 : c.reg_num < 2 ^ 63)
    (hck : reg_check_field_width c f = 0)
    (hcov : fieldCovers c f r b = true) : r < c.reg_num := by
  obtain ⟨hreg, hdesc, hasc⟩ := check_width_facts c f hg hU63 hck
  obtain ⟨n, hn, hr, _, _⟩ := (fieldCovers_iff c f r b).mp hcov
  rw [← hr]
  unfold chunkRegOf
  by_cases hd : reg_flags (some c) (some f) REG_DESCEND = true
  · rw [if_pos hd]
    omega
  · have hd' : reg_flags (some c) (some f) REG_DESCEND = false := by
      cases hq : reg_flags (some c) (some f) REG_DESCEND
      · rfl
      · exact absurd hq hd
    rw [if_neg hd]
    have := hasc hd'
    omega

lemma or_nocomm_flag (a : Nat) : ((a ||| REG_NOCOMM) &&& REG_NOCOMM != 0) = true := by
  simp only [bne_iff_ne, ne_eq]
  intro h
  have hb : ((a ||| REG_NOCOMM) &&& REG_NOCOMM).testBit 3 = true := by
    rw [Nat.testBit_and, Nat.testBit_or]
    have h8 : Nat.testBit REG_NOCOMM 3 = true := by decide
    rw [h8]
    simp
  rw [h] at hb
  simp at hb

lemma reg_flags_descend_or_nocomm (c d : reg_dev) (f : reg_field)
    (hfl : c.flags = d.flags ||| REG_NOCOMM) :
    reg_flags (some c) (some f) REG_DESCEND
      = reg_flags (some d) (some f) REG_DESCEND := by
  unfold reg_flags
  dsimp only
  rw [hfl, or_and_eq_of_and_zero d.flags REG_NOCOMM REG_DESCEND (by decide)]

lemma chunkRegOf_congr (c d : reg_dev) (f : reg_field)
    (hdesc : reg_flags (some c) (some f) REG_DESCEND
      = reg_flags (some d) (some f) REG_DESCEND) (n : Nat) :
    chunkRegOf c f n = chunkRegOf d f n := by
  unfold chunkRegOf
  rw [hdesc]

lemma fieldCovers_congr (c d : reg_dev) (f : reg_field)
    (hw : c.reg_width = d.reg_width)
    (hdesc : reg_flags (some c) (some f) REG_DESCEND
      = reg_flags (some d) (some f) REG_DESCEND) (r b : Nat) :
    fieldCovers c f r b = fieldCovers d f r b := by
  unfold fieldCovers
  rw [hw]
  have hcr : ∀ n, chunkRegOf c f n = chunkRegOf d f n := chunkRegOf_congr c d f hdesc
  simp only [hcr]

lemma coveredBit_congr (c d : reg_dev)
    (hm : c.field_map = d.field_map) (hw : c.reg_width = d.reg_width)
    (hdesc : ∀ f, reg_flags (some c) (some f) REG_DESCEND
      = reg_flags (some d) (some f) REG_DESCEND) (r b : Nat) :
    coveredBit c r b = coveredBit d r b := by
  unfold coveredBit
  rw [hm]
  have hfc : ∀ f, fieldCovers c f r b = fieldCovers d f r b :=
    fun f => fieldCovers_congr c d f hw (hdesc f) r b
  simp only [hfc]

lemma coverageDefect_congr (c d : reg_dev)
    (hm : c.field_map = d.field_map) (hw : c.reg_width = d.reg_width)
    (hn : c.reg_num = d.reg_num)
    (hdesc : ∀ f, reg_flags (some c) (some f) REG_DESCEND
      = reg_flags (some d) (some f) REG_DESCEND) :
    coverageDefect c = coverageDefect d := by
  unfold coverageDefect
  rw [hn, hw]
  have hcb : ∀ r b, coveredBit c r b = coveredBit d r b :=
    fun r b => coveredBit_congr c d hm hw hdesc r b
  simp only [hcb]

lemma overlaps_run (c : reg_dev) (i : Nat)
    (hempc : reg_empty c = 0)
    (hNCb : (c.flags &&& REG_NOCOMM != 0) = true)
    (hU63c : c.reg_num < 2 ^ 63)
    (hWok : ∀ f ∈ c.field_map.getD [], reg_check_field_width c f = 0 ∧
      geomOK f.offs f.width c.reg_width)
    (hi : i < (c.field_map.getD []).length)
    (A : List Nat) (Lw : List (Nat × Nat))
    (hA : A.length = c.reg_num) (hz : ∀ r, A.getD r 0 = 0) :
    (∃ A3 Lw3,
      (reg_check_field_overlaps { c with data := A, wlog := Lw } i).2
        = { c with data := A3, wlog := Lw3 } ∧
      ((reg_check_field_overlaps { c with data := A, wlog := Lw } i).1 = 0 →
        A3.length = c.reg_num ∧ ∀ r, A3.getD r 0 = 0)) ∧
    ((reg_check_field_overlaps { c with data := A, wlog := Lw } i).1 = 0 ↔
      ∀ j, j < (c.field_map.getD []).length → j ≠ i →
        underscore ((c.field_map.getD []).getD j default).name = false →
        ∀ r b,
          ¬(fieldCovers c ((c.field_map.getD []).getD i default) r b = true ∧
            fieldCovers c ((c.field_map.getD []).getD j default) r b = true)) := by
  obtain ⟨F, hF⟩ : ∃ F, F = (c.field_map.getD []).getD i default := ⟨_, rfl⟩
  rw [← hF]
  have hfim : F ∈ c.field_map.getD [] := by
    rw [hF, List.getD_eq_getElem _ _ hi]
    exact List.getElem_mem hi
  obtain ⟨hcki, hgi⟩ := hWok F hfim
  have hgi' := hgi
  obtain ⟨g1, g2, g3, g4, g5⟩ := hgi'
  obtain ⟨hregi, hdesci, hasci⟩ := check_width_facts c F hgi hU63c hcki
  obtain ⟨wi1, wi2⟩ := width_bounds c F hcki
  obtain ⟨hst1, A1, Lw1, heq1, hlen1, hbit1, h32a⟩ :=
    reg_set_field_bits { c with data := A, wlog := Lw } F (reg_mask64 0 F.width)
      hempc hgi hcki (fits_mask64 F.width)
      (reg_flags_dev { c with data := A, wlog := Lw } F REG_NOCOMM hNCb) hU63c hA
  have heq1' : (reg_set_field { c with data := A, wlog := Lw } F
      (reg_mask64 0 F.width)).2 = { c with data := A1, wlog := Lw1 } := heq1
  have hbit1' : ∀ r b, b < 32 → (A1.getD r 0).testBit b
      = if fieldCovers c F r b = true
        then (reg_mask64 0 F.width).testBit (fieldValBit c F r b)
        else (A.getD r 0).testBit b := hbit1
  have h32a' : ∀ r, A1.getD r 0 < 2 ^ 32 := by
    intro r
    rcases h32a r with h | h
    · exact h
    · rw [h]
      show A.getD r 0 < 2 ^ 32
      rw [hz r]
      exact Nat.two_pow_pos 32
  have hA1bit : ∀ r b, b < 32 → (A1.getD r 0).testBit b
      = fieldCovers c F r b := by
    intro r b hb
    rw [hbit1' r b hb]
    by_cases hcv : fieldCovers c F r b = true
    · rw [if_pos hcv, hcv, mask64_zero_testBit F.width _ wi1 wi2]
      simp [fieldValBit_lt c F r b hgi hdesci hcv]
    · have hcv' : fieldCovers c F r b = false := by
        cases hq : fieldCovers c F r b
        · rfl
        · exact absurd hq hcv
      rw [if_neg hcv, hcv', hz r, Nat.zero_testBit]
  have hLenum : ∀ p ∈ (c.field_map.getD []).enum,
      reg_check_field_width c p.2 = 0 ∧ geomOK p.2.offs p.2.width c.reg_width :=
    fun p hp => hWok p.2 (enum_snd_mem _ p hp).1
  obtain ⟨hst2, A2, Lw2, heq2, hlen2, hbit2, h32b⟩ :=
    overlaps_clear_go_bits c i hempc hNCb hU63c (c.field_map.getD []).enum A1 Lw1
      hLenum (by rw [hlen1]; exact hA)
  have h32b' : ∀ r, A2.getD r 0 < 2 ^ 32 := by
    intro r
    rcases h32b r with h | h
    · exact h
    · rw [h]
      exact h32a' r
  have hA2bit : ∀ r b, b < 32 → (A2.getD r 0).testBit b
      = (fieldCovers c F r b &&
         !((c.field_map.getD []).enum.any (fun p =>
            decide (p.1 ≠ i) && !(underscore p.2.name) && fieldCovers c p.2 r b))) := by
    intro r b hb
    rw [hbit2 r b hb, hA1bit r b hb]
  obtain ⟨hdev3, hbits3⟩ :=
    reg_get_field_bits { c with data := A2, wlog := Lw2 } F
      hempc hgi hcki
      (reg_flags_dev { c with data := A2, wlog := Lw2 } F REG_NOCOMM hNCb) hU63c
  have hbits3' : ∀ k,
      ((reg_get_field { c with data := A2, wlog := Lw2 } F).1).testBit k
      = (decide (k < F.width) &&
         (A2.getD (chunkRegOf c F (chunkOf F.offs F.width c.reg_width k)) 0).testBit
           (chunkBit F.offs (chunkOf F.offs F.width c.reg_width k)
            + (k - chunkStart F.offs F.width c.reg_width
                (chunkOf F.offs F.width c.reg_width k)))) := hbits3
  have hget_iff : (reg_get_field { c with data := A2, wlog := Lw2 } F).1
      = reg_mask64 0 F.width ↔
      (∀ j, j < (c.field_map.getD []).length → j ≠ i →
        underscore ((c.field_map.getD []).getD j default).name = false →
        ∀ r b, ¬(fieldCovers c F r b = true ∧
          fieldCovers c ((c.field_map.getD []).getD j default) r b = true)) := by
    constructor
    · intro hEq j hj hji husc r b hcc
      obtain ⟨hci, hcj⟩ := hcc
      have hk0 : fieldValBit c F r b < F.width :=
        fieldValBit_lt c F r b hgi hdesci hci
      obtain ⟨m, hm, hmr, hmb1, hmb2⟩ := (fieldCovers_iff c F r b).mp hci
      obtain ⟨cl1, cl2, cl3⟩ := chunkLen_facts F.offs F.width c.reg_width m hgi hm
      have hb32 : b < 32 := by omega
      have hk0eq : fieldValBit c F r b
          = chunkStart F.offs F.width c.reg_width m + (b - chunkBit F.offs m) := by
        rw [← hmr, fieldValBit_window c F m b hdesci hm]
      have hchunk : chunkOf F.offs F.width c.reg_width (fieldValBit c F r b) = m :=
        chunkOf_unique F.offs F.width c.reg_width _ m hgi hm (by omega) (by omega)
      have hread := hbits3' (fieldValBit c F r b)
      rw [hEq, mask64_zero_testBit F.width _ wi1 wi2, hchunk, hmr] at hread
      have hpos : chunkBit F.offs m + (fieldValBit c F r b
          - chunkStart F.offs F.width c.reg_width m) = b := by omega
      rw [hpos] at hread
      have hanyT : (c.field_map.getD []).enum.any (fun p =>
          decide (p.1 ≠ i) && !(underscore p.2.name) && fieldCovers c p.2 r b)
          = true := by
        apply List.any_eq_true.mpr
        refine ⟨(j, (c.field_map.getD []).getD j default),
          enum_mem_of_lt _ j hj, ?_⟩
        show (decide (j ≠ i) &&
          !(underscore ((c.field_map.getD []).getD j default).name) &&
          fieldCovers c ((c.field_map.getD []).getD j default) r b) = true
        rw [husc, hcj, decide_eq_true hji]
        rfl
      rw [hA2bit r b hb32, hci, hanyT] at hread
      simp [hk0] at hread
    · intro hNO
      apply Nat.eq_of_testBit_eq
      intro k
      rw [hbits3' k, mask64_zero_testBit F.width _ wi1 wi2]
      by_cases hk : k < F.width
      · obtain ⟨hcv, hvb⟩ := read_pos_covers c F k hgi hdesci hk
        obtain ⟨hn, hlo, hhi⟩ := chunkOf_spec F.offs F.width c.reg_width k hgi hk
        obtain ⟨cl1, cl2, cl3⟩ := chunkLen_facts F.offs F.width c.reg_width
          (chunkOf F.offs F.width c.reg_width k) hgi hn
        have hb0 : chunkBit F.offs (chunkOf F.offs F.width c.reg_width k)
            + (k - chunkStart F.offs F.width c.reg_width
                (chunkOf F.offs F.width c.reg_width k)) < 32 := by omega
        rw [hA2bit _ _ hb0, hcv]
        have hanyF : (c.field_map.getD []).enum.any (fun p =>
            decide (p.1 ≠ i) && !(underscore p.2.name) &&
            fieldCovers c p.2
              (chunkRegOf c F (chunkOf F.offs F.width c.reg_width k))
              (chunkBit F.offs (chunkOf F.offs F.width c.reg_width k)
                + (k - chunkStart F.offs F.width c.reg_width
                    (chunkOf F.offs F.width c.reg_width k)))) = false := by
          rw [List.any_eq_false]
          intro p hp
          obtain ⟨hpm, hplen, hpget⟩ := enum_snd_mem _ p hp
          by_cases h1 : p.1 = i
          · simp [h1]
          · cases hu : underscore p.2.name
            · have hnoj := hNO p.1 hplen h1 (by rw [← hpget]; exact hu)
              have hcovF : fieldCovers c p.2
                  (chunkRegOf c F (chunkOf F.offs F.width c.reg_width k))
                  (chunkBit F.offs (chunkOf F.offs F.width c.reg_width k)
                    + (k - chunkStart F.offs F.width c.reg_width
                        (chunkOf F.offs F.width c.reg_width k))) = false := by
                cases hq : fieldCovers c p.2
                    (chunkRegOf c F (chunkOf F.offs F.width c.reg_width k))
                    (chunkBit F.offs (chunkOf F.offs F.width c.reg_width k)
                      + (k - chunkStart F.offs F.width c.reg_width
                          (chunkOf F.offs F.width c.reg_width k)))
                · rfl
                · exact absurd ⟨hcv, by rw [← hpget]; exact hq⟩ (hnoj _ _)
              simp [hcovF]
            · simp [hu]
        rw [hanyF]
        simp [hk]
      · simp [hk]
  by_cases heqm : (reg_get_field { c with data := A2, wlog := Lw2 } F).1
      = reg_mask64 0 F.width
  · obtain ⟨hst3, A3, Lw3, heq3, hlen3, hbit3, h32c⟩ :=
      reg_set_field_bits { c with data := A2, wlog := Lw2 } F 0
        hempc hgi hcki (fits_zero F.width)
        (reg_flags_dev { c with data := A2, wlog := Lw2 } F REG_NOCOMM hNCb)
        hU63c (by rw [hlen2, hlen1]; exact hA)
    have heq3' : (reg_set_field { c with data := A2, wlog := Lw2 } F 0).2
        = { c with data := A3, wlog := Lw3 } := heq3
    have hbit3' : ∀ r b, b < 32 → (A3.getD r 0).testBit b
        = if fieldCovers c F r b = true
          then Nat.testBit 0 (fieldValBit c F r b)
          else (A2.getD r 0).testBit b := hbit3
    have h32c' : ∀ r, A3.getD r 0 < 2 ^ 32 := by
      intro r
      rcases h32c r with h | h
      · exact h
      · rw [h]
        exact h32b' r
    have hA3z : ∀ r, A3.getD r 0 = 0 := by
      intro r
      apply Nat.eq_of_testBit_eq
      intro k
      rw [Nat.zero_testBit]
      by_cases hk : k < 32
      · rw [hbit3' r k hk]
        by_cases hcv : fieldCovers c F r k = true
        · rw [if_pos hcv, Nat.zero_testBit]
        · have hcv' : fieldCovers c F r k = false := by
            cases hq : fieldCovers c F r k
            · rfl
            · exact absurd hq hcv
          rw [if_neg hcv, hA2bit r k hk, hcv']
          simp
      · exact Nat.testBit_lt_two_pow (lt_of_lt_of_le (h32c' r)
          (Nat.pow_le_pow_right (by omega) (by omega)))
    obtain ⟨hstz, hdevz⟩ :=
      overlaps_readzero_go_ok c hempc hNCb hU63c (c.field_map.getD []) A3 Lw3
        hWok hA3z
    have hres : reg_check_field_overlaps { c with data := A, wlog := Lw } i
        = (0, { c with data := A3, wlog := Lw3 }) := by
      unfold reg_check_field_overlaps
      dsimp only
      rw [← hF]
      rw [if_neg (fun hh => hh hst1), heq1', if_neg (fun hh => hh hst2), heq2,
        if_neg (fun hh => hh heqm), hdev3, if_neg (fun hh => hh hst3), heq3',
        if_neg (fun hh => hh hstz), hdevz]
    refine ⟨⟨A3, Lw3, by rw [hres],
      fun _ => ⟨by rw [hlen3, hlen2, hlen1]; exact hA, hA3z⟩⟩, ?_⟩
    constructor
    · intro _
      exact hget_iff.mp heqm
    · intro _
      rw [hres]
  · have hres : reg_check_field_overlaps { c with data := A, wlog := Lw } i
        = (-1, { c with data := A2, wlog := Lw2 }) := by
      unfold reg_check_field_overlaps
      dsimp only
      rw [← hF]
      rw [if_neg (fun hh => hh hst1), heq1', if_neg (fun hh => hh hst2), heq2,
        if_pos heqm, hdev3]
    refine ⟨⟨A2, Lw2, by rw [hres], fun h0 => ?_⟩, ?_⟩
    · rw [hres] at h0
      simp at h0
    · constructor
      · intro h0
        rw [hres] at h0
        simp at h0
      · intro hNO
        exact (heqm (hget_iff.mpr hNO)).elim

lemma check_fields_run (c : reg_dev)
    (hempc : reg_empty c = 0)
    (hNCb : (c.flags &&& REG_NOCOMM != 0) = true)
    (hU63c : c.reg_num < 2 ^ 63)
    (hWok : ∀ f ∈ c.field_map.getD [], reg_check_field_width c f = 0 ∧
      geomOK f.offs f.width c.reg_width) :
    ∀ (L : List Nat), (∀ i ∈ L, i < (c.field_map.getD []).length) →
    ∀ (A : List Nat) (Lw : List (Nat × Nat)),
      A.length = c.reg_num → (∀ r, A.getD r 0 = 0) →
      (∃ A2 Lw2,
        (check_fields_go L { c with data := A, wlog := Lw }).2
          = { c with data := A2, wlog := Lw2 } ∧
        ((check_fields_go L { c with data := A, wlog := Lw }).1 = 0 →
          A2.length = c.reg_num ∧ ∀ r, A2.getD r 0 = 0)) ∧
      ((check_fields_go L { c with data := A, wlog := Lw }).1 = 0 ↔
        ∀ i ∈ L, reg_check_fields c i = 0 ∧
          ∀ j, j < (c.field_map.getD []).length → j ≠ i →
            underscore ((c.field_map.getD []).getD j default).name = false →
            ∀ r b,
              ¬(fieldCovers c ((c.field_map.getD []).getD i default) r b = true ∧
                fieldCovers c ((c.field_map.getD []).getD j default) r b = true)) := by
  intro L
  induction L with
  | nil =>
    intro _ A Lw hA hz
    refine ⟨⟨A, Lw, rfl, fun _ => ⟨hA, hz⟩⟩, ?_⟩
    constructor
    · intro _ j hj
      exact absurd hj (List.not_mem_nil j)
    · intro _
      rfl
  | cons i rest ih =>
    intro hL A Lw hA hz
    have hi : i < (c.field_map.getD []).length := hL i (List.mem_cons_self i rest)
    have hLr : ∀ j ∈ rest, j < (c.field_map.getD []).length :=
      fun j hj => hL j (List.mem_cons_of_mem i hj)
    unfold check_fields_go
    dsimp only
    by_cases hcf : reg_check_fields c i = 0
    · rw [if_neg (fun hh => hh hcf)]
      obtain ⟨⟨A1, Lw1, hov2, hovz⟩, hoviff⟩ :=
        overlaps_run c i hempc hNCb hU63c hWok hi A Lw hA hz
      by_cases hov0 :
          (reg_check_field_overlaps { c with data := A, wlog := Lw } i).1 = 0
      · rw [if_neg (fun hh => hh hov0), hov2]
        obtain ⟨hlen1, hz1⟩ := hovz hov0
        obtain ⟨⟨A2, Lw2, hrec2, hreclen⟩, hreciff⟩ := ih hLr A1 Lw1 hlen1 hz1
        refine ⟨⟨A2, Lw2, hrec2, hreclen⟩, ?_⟩
        rw [hreciff]
        constructor
        · intro hrest j hj
          rcases List.mem_cons.mp hj with h | h
          · subst h
            exact ⟨hcf, hoviff.mp hov0⟩
          · exact hrest j h
        · intro hall j hj
          exact hall j (List.mem_cons_of_mem i hj)
      · rw [if_pos (show (reg_check_field_overlaps
            { c with data := A, wlog := Lw } i).1 ≠ 0 from hov0)]
        refine ⟨⟨A1, Lw1, hov2, fun h0 => ?_⟩, ?_⟩
        · simp at h0
        · constructor
          · intro h0
            simp at h0
          · intro hall
            exact (hov0 (hoviff.mpr (hall i (List.mem_cons_self i rest)).2)).elim
    · rw [if_pos (show reg_check_fields
          { c with data := A, wlog := Lw } i ≠ 0 from hcf)]
      refine ⟨⟨A, Lw, rfl, fun h0 => ?_⟩, ?_⟩
      · simp at h0
      · constructor
        · intro h0
          simp at h0
        · intro hall
          exact (hcf (hall i (List.mem_cons_self i rest)).1).elim

lemma coverage_run (c : reg_dev)
    (hempc : reg_empty c = 0)
    (hNCb : (c.flags &&& REG_NOCOMM != 0) = true)
    (hU63c : c.reg_num < 2 ^ 63)
    (hWok : ∀ f ∈ c.field_map.getD [], reg_check_field_width c f = 0 ∧
      geomOK f.offs f.width c.reg_width)
    (A : List Nat) (Lw : List (Nat × Nat))
    (hA : A.length = c.reg_num) (hz : ∀ r, A.getD r 0 = 0) :
    (∃ A2 Lw2,
      (reg_check_field_partial_coverage { c with data := A, wlog := Lw }).2
        = { c with data := A2, wlog := Lw2 }) ∧
    ((reg_check_field_partial_coverage { c with data := A, wlog := Lw }).1 = 0 ↔
      coverageDefect c = false) := by
  obtain ⟨hst1, A1, Lw1, heq1, hlen1, hbit1, h32a⟩ :=
    coverage_set_go_bits c hempc hNCb hU63c (c.field_map.getD []) A Lw hWok hA
  have h32a' : ∀ r, A1.getD r 0 < 2 ^ 32 := by
    intro r
    rcases h32a r with h | h
    · exact h
    · rw [h]
      show A.getD r 0 < 2 ^ 32
      rw [hz r]
      exact Nat.two_pow_pos 32
  have hA1bit : ∀ r b, b < 32 → (A1.getD r 0).testBit b = coveredBit c r b := by
    intro r b hb
    rw [hbit1 r b hb]
    have he : (({ c with data := A, wlog := Lw } : reg_dev)).data.getD r 0
        = A.getD r 0 := rfl
    rw [he, hz r, Nat.zero_testBit, Bool.false_or]
    rfl
  have hcovb : ∀ r b, coveredBit c r b = true → b < c.reg_width := by
    intro r b hcb
    obtain ⟨f, hf, hcov⟩ := List.any_eq_true.mp hcb
    exact fieldCovers_b_lt c f r b (hWok f hf).2 hcov
  have hfull : ∀ f ∈ c.field_map.getD [], ∀ r b,
      fieldCovers c f r b = true → (A1.getD r 0).testBit b = true := by
    intro f hf r b hcov
    have hb32 : b < 32 := by
      have hbb := fieldCovers_b_lt c f r b (hWok f hf).2 hcov
      obtain ⟨q1, q2, q3, q4, q5⟩ := (hWok f hf).2
      omega
    rw [hA1bit r b hb32]
    exact List.any_eq_true.mpr ⟨f, hf, hcov⟩
  obtain ⟨hst2, hdev2⟩ :=
    coverage_read_go_ok c hempc hNCb hU63c (c.field_map.getD []) A1 Lw1 hWok hfull
  have hpt : ∀ r, ((A1.getD r 0 != 0) && (A1.getD r 0 != reg_mask32 0 c.reg_width))
      = ((List.range c.reg_width).any (fun b => coveredBit c r b) &&
         (List.range c.reg_width).any (fun b => !(coveredBit c r b))) := by
    intro r
    by_cases hP1 : (List.range c.reg_width).any (fun b => coveredBit c r b) = true
    · obtain ⟨b1, hb1m, hcb1⟩ := List.any_eq_true.mp hP1
      have hb1W : b1 < c.reg_width := List.mem_range.mp hb1m
      obtain ⟨f1, hf1, hcov1⟩ := List.any_eq_true.mp hcb1
      obtain ⟨q1, q2, q3, q4, q5⟩ := (hWok f1 hf1).2
      have hne0 : (A1.getD r 0 != 0) = true := by
        simp only [bne_iff_ne, ne_eq]
        intro h0
        have hx := hA1bit r b1 (by omega)
        rw [h0, Nat.zero_testBit, hcb1] at hx
        simp at hx
      rw [hP1, hne0]
      by_cases hP2 : (List.range c.reg_width).any
          (fun b => !(coveredBit c r b)) = true
      · obtain ⟨b2, hb2m, hcb2⟩ := List.any_eq_true.mp hP2
        have hb2W : b2 < c.reg_width := List.mem_range.mp hb2m
        have hcb2' : coveredBit c r b2 = false := by
          cases hq : coveredBit c r b2
          · rfl
          · rw [hq] at hcb2
            simp at hcb2
        have hnem : (A1.getD r 0 != reg_mask32 0 c.reg_width) = true := by
          simp only [bne_iff_ne, ne_eq]
          intro hEq
          have hx := hA1bit r b2 (by omega)
          rw [hEq, reg_mask32_testBit 0 c.reg_width q1 (by omega) b2, hcb2'] at hx
          simp at hx
          omega
        rw [hP2, hnem]
      · have hP2' : (List.range c.reg_width).any
            (fun b => !(coveredBit c r b)) = false := by
          cases hq : (List.range c.reg_width).any (fun b => !(coveredBit c r b))
          · rfl
          · exact absurd hq hP2
        have hallcb : ∀ b, b < c.reg_width → coveredBit c r b = true := by
          intro b hb
          have hx := List.any_eq_false.mp hP2' b (List.mem_range.mpr hb)
          cases hq : coveredBit c r b
          · rw [hq] at hx
            simp at hx
          · rfl
        have hEqm : A1.getD r 0 = reg_mask32 0 c.reg_width := by
          apply Nat.eq_of_testBit_eq
          intro k
          rw [reg_mask32_testBit 0 c.reg_width q1 (by omega) k]
          by_cases hk32 : k < 32
          · rw [hA1bit r k hk32]
            by_cases hkW : k < c.reg_width
            · rw [hallcb k hkW]
              simp [hkW]
            · have hck : coveredBit c r k = false := by
                cases hq : coveredBit c r k
                · rfl
                · exact absurd (hcovb r k hq) hkW
              rw [hck]
              simp [hkW]
          · rw [Nat.testBit_lt_two_pow (lt_of_lt_of_le (h32a' r)
              (Nat.pow_le_pow_right (by omega) (by omega)))]
            simp
            omega
        rw [hP2', hEqm]
        simp
    · have hP1' : (List.range c.reg_width).any (fun b => coveredBit c r b) = false := by
        cases hq : (List.range c.reg_width).any (fun b => coveredBit c r b)
        · rfl
        · exact absurd hq hP1
      have hnocov : ∀ b, coveredBit c r b = false := by
        intro b
        cases hq : coveredBit c r b
        · rfl
        · exfalso
          have hbW := hcovb r b hq
          have hx := List.any_eq_false.mp hP1' b (List.mem_range.mpr hbW)
          rw [hq] at hx
          simp at hx
      have h0A : A1.getD r 0 = 0 := by
        apply Nat.eq_of_testBit_eq
        intro k
        rw [Nat.zero_testBit]
        by_cases hk32 : k < 32
        · rw [hA1bit r k hk32, hnocov k]
        · exact Nat.testBit_lt_two_pow (lt_of_lt_of_le (h32a' r)
            (Nat.pow_le_pow_right (by omega) (by omega)))
      rw [hP1', h0A]
      simp
  have hscan : (List.range c.reg_num).any (fun r =>
      (A1.getD r 0 != 0) && (A1.getD r 0 != reg_mask32 0 c.reg_width))
      = coverageDefect c := by
    unfold coverageDefect
    simp only [hpt]
  by_cases hdef : coverageDefect c = true
  · have hres : reg_check_field_partial_coverage { c with data := A, wlog := Lw }
        = (-1, { c with data := A1, wlog := Lw1 }) := by
      unfold reg_check_field_partial_coverage
      dsimp only
      rw [if_neg (fun hh => hh hst1), heq1, if_neg (fun hh => hh hst2), hdev2]
      dsimp only
      rw [hscan, if_pos hdef]
    refine ⟨⟨A1, Lw1, by rw [hres]⟩, ?_⟩
    constructor
    · intro h0
      rw [hres] at h0
      simp at h0
    · intro hfalse
      rw [hdef] at hfalse
      simp at hfalse
  · have hdef' : coverageDefect c = false := by
      cases hq : coverageDefect c
      · rfl
      · exact absurd hq hdef
    have hres : reg_check_field_partial_coverage { c with data := A, wlog := Lw }
        = (0, { c with data := A1, wlog := Lw1 }) := by
      unfold reg_check_field_partial_coverage
      dsimp only
      rw [if_neg (fun hh => hh hst1), heq1, if_neg (fun hh => hh hst2), hdev2]
      dsimp only
      rw [hscan, if_neg (show ¬(coverageDefect c = true) by rw [hdef']; simp)]
    refine ⟨⟨A1, Lw1, by rw [hres]⟩, ?_⟩
    constructor
    · intro _
      exact hdef'
    · intro _
      rw [hres]

lemma fields_all_iff_dup (d : reg_dev)
    (hW : ∀ f ∈ d.field_map.getD [], reg_check_field_width d f = 0) :
    (∀ i, i < (d.field_map.getD []).length → reg_check_fields d i = 0) ↔
      dupNameDefect d = false := by
  constructor
  · intro hall
    cases hq : dupNameDefect d
    · rfl
    · exfalso
      unfold dupNameDefect at hq
      obtain ⟨i, him, hrest⟩ := List.any_eq_true.mp hq
      obtain ⟨j, hjm, hp⟩ := List.any_eq_true.mp hrest
      have hiL : i < (d.field_map.getD []).length := List.mem_range.mp him
      have hjL : j < (d.field_map.getD []).length := List.mem_range.mp hjm
      simp only [Bool.and_eq_true, decide_eq_true_eq, Bool.not_eq_true',
        beq_iff_eq] at hp
      obtain ⟨⟨hij, husc⟩, hname⟩ := hp
      have hh := hall i hiL
      unfold reg_check_fields at hh
      dsimp only at hh
      split_ifs at hh with g1 g2
      apply g2
      rw [husc]
      simp only [Bool.not_false, Bool.true_and]
      apply List.any_eq_true.mpr
      have hm : j - (i + 1) < ((d.field_map.getD []).drop (i + 1)).length := by
        rw [List.length_drop]
        omega
      refine ⟨((d.field_map.getD []).drop (i + 1)).getD (j - (i + 1)) default,
        ?_, ?_⟩
      · rw [List.getD_eq_getElem _ _ hm]
        exact List.getElem_mem hm
      · have hel : ((d.field_map.getD []).drop (i + 1)).getD (j - (i + 1)) default
            = (d.field_map.getD []).getD j default := by
          rw [List.getD_eq_getElem?_getD, List.getD_eq_getElem?_getD,
            List.getElem?_drop]
          rw [show i + 1 + (j - (i + 1)) = j from by omega]
        rw [hel]
        exact beq_iff_eq.mpr hname.symm
  · intro hdup i hiL
    unfold reg_check_fields
    dsimp only
    have hwi : reg_check_field_width d
        ((d.field_map.getD []).getD i default) = 0 := by
      apply hW
      rw [List.getD_eq_getElem _ _ hiL]
      exact List.getElem_mem hiL
    rw [if_neg (fun hh => hh hwi)]
    have hscan : (!(underscore ((d.field_map.getD []).getD i default).name) &&
        ((d.field_map.getD []).drop (i + 1)).any
          (fun fj => fj.name == ((d.field_map.getD []).getD i default).name))
        = false := by
      cases hq : (!(underscore ((d.field_map.getD []).getD i default).name) &&
          ((d.field_map.getD []).drop (i + 1)).any
            (fun fj => fj.name == ((d.field_map.getD []).getD i default).name))
      · rfl
      · exfalso
        simp only [Bool.and_eq_true, Bool.not_eq_true'] at hq
        obtain ⟨husc, hscan2⟩ := hq
        obtain ⟨fj, hfjm, hfjname⟩ := List.any_eq_true.mp hscan2
        obtain ⟨t, ht, hfjget⟩ := List.mem_iff_getElem.mp hfjm
        have htL : i + 1 + t < (d.field_map.getD []).length := by
          rw [List.length_drop] at ht
          omega
        have hfj1 : ((d.field_map.getD []).drop (i + 1)).getD t default = fj := by
          rw [List.getD_eq_getElem _ _ ht]
          exact hfjget
        have hfj2 : ((d.field_map.getD []).drop (i + 1)).getD t default
            = (d.field_map.getD []).getD (i + 1 + t) default := by
          rw [List.getD_eq_getElem?_getD, List.getD_eq_getElem?_getD,
            List.getElem?_drop]
        have hdd : dupNameDefect d = true := by
          unfold dupNameDefect
          apply List.any_eq_true.mpr
          refine ⟨i, List.mem_range.mpr hiL, ?_⟩
          apply List.any_eq_true.mpr
          refine ⟨i + 1 + t, List.mem_range.mpr htL, ?_⟩
          simp only [Bool.and_eq_true, decide_eq_true_eq, Bool.not_eq_true',
            beq_iff_eq]
          refine ⟨⟨by omega, husc⟩, ?_⟩
          rw [← hfj2, hfj1]
          exact (beq_iff_eq.mp hfjname).symm
        rw [hdup] at hdd
        simp at hdd
    rw [if_neg (fun hh => by rw [hscan] at hh; simp at hh)]

lemma noall_iff_overlap (d : reg_dev)
    (hU63 : d.reg_num < 2 ^ 63)
    (hWok : ∀ f ∈ d.field_map.getD [], reg_check_field_width d f = 0 ∧
      geomOK f.offs f.width d.reg_width) :
    (∀ i, i < (d.field_map.getD []).length →
      ∀ j, j < (d.field_map.getD []).length → j ≠ i →
        underscore ((d.field_map.getD []).getD j default).name = false →
        ∀ r b, ¬(fieldCovers d ((d.field_map.getD []).getD i default) r b = true ∧
          fieldCovers d ((d.field_map.getD []).getD j default) r b = true)) ↔
      overlapDefect d = false := by
  constructor
  · intro hall
    cases hq : overlapDefect d
    · rfl
    · exfalso
      unfold overlapDefect at hq
      obtain ⟨i, him, h2⟩ := List.any_eq_true.mp hq
      obtain ⟨j, hjm, h3⟩ := List.any_eq_true.mp h2
      have hiL : i < (d.field_map.getD []).length := List.mem_range.mp him
      have hjL : j < (d.field_map.getD []).length := List.mem_range.mp hjm
      simp only [Bool.and_eq_true, decide_eq_true_eq, Bool.or_eq_true,
        Bool.not_eq_true'] at h3
      obtain ⟨⟨hij, husc⟩, hrb⟩ := h3
      obtain ⟨r, hrm, h4⟩ := List.any_eq_true.mp hrb
      obtain ⟨b, hbm, h5⟩ := List.any_eq_true.mp h4
      simp only [Bool.and_eq_true] at h5
      obtain ⟨hci, hcj⟩ := h5
      rcases husc with husci | huscj
      · exact hall j hjL i hiL (by omega) husci r b ⟨hcj, hci⟩
      · exact hall i hiL j hjL (by omega) huscj r b ⟨hci, hcj⟩
  · intro hov i hiL j hjL hji husc r b hcc
    obtain ⟨hci, hcj⟩ := hcc
    have hfi_mem : (d.field_map.getD []).getD i default ∈ d.field_map.getD [] := by
      rw [List.getD_eq_getElem _ _ hiL]
      exact List.getElem_mem hiL
    obtain ⟨hcki, hgi⟩ := hWok _ hfi_mem
    have hrN : r < d.reg_num := fieldCovers_r_lt d _ r b hgi hU63 hcki hci
    have hbW : b < d.reg_width := fieldCovers_b_lt d _ r b hgi hci
    have hdd : overlapDefect d = true := by
      unfold overlapDefect
      apply List.any_eq_true.mpr
      refine ⟨i, List.mem_range.mpr hiL, ?_⟩
      apply List.any_eq_true.mpr
      refine ⟨j, List.mem_range.mpr hjL, ?_⟩
      simp only [Bool.and_eq_true, decide_eq_true_eq, Bool.or_eq_true,
        Bool.not_eq_true']
      refine ⟨⟨by omega, Or.inr husc⟩, ?_⟩
      apply List.any_eq_true.mpr
      refine ⟨r, List.mem_range.mpr hrN, ?_⟩
      apply List.any_eq_true.mpr
      refine ⟨b, List.mem_range.mpr hbW, ?_⟩
      simp only [Bool.and_eq_true]
      exact ⟨hci, hcj⟩
    rw [hov] at hdd
    simp at hdd

lemma reg_check_master (d : reg_dev)
    (hemp : reg_empty d = 0)
    (hlen : d.data.length = d.reg_num)
    (hU63 : d.reg_num < 2 ^ 63)
    (hmtx : d.has_mutex = false)
    (hlf : d.lock_fn = none)
    (huf : d.unlock_fn = none)
    (hlc : d.lock_count = 0)
    (hWok : ∀ f ∈ d.field_map.getD [], reg_check_field_width d f = 0 ∧
      geomOK f.offs f.width d.reg_width) :
    (reg_check d).1 = 0 ↔
      (dupNameDefect d = false ∧ overlapDefect d = false ∧
       coverageDefect d = false) := by
  have hlk : reg_lock d = (0, { d with lock_count := d.lock_count + 1 }) := by
    unfold reg_lock
    rw [if_neg (fun hh => hh hemp), hmtx]
    rw [if_neg (by simp), if_neg (fun hh => hh hlc)]
  have hempC : reg_empty ({ d with flags := d.flags ||| REG_NOCOMM, lock_count := d.lock_count + 1 } : reg_dev) = 0 := hemp
  have hNCbC : (({ d with flags := d.flags ||| REG_NOCOMM, lock_count := d.lock_count + 1 } : reg_dev).flags &&& REG_NOCOMM != 0) = true :=
    or_nocomm_flag d.flags
  have hU63C : ({ d with flags := d.flags ||| REG_NOCOMM, lock_count := d.lock_count + 1 } : reg_dev).reg_num < 2 ^ 63 := hU63
  have hdescC : ∀ f, reg_flags (some ({ d with flags := d.flags ||| REG_NOCOMM, lock_count := d.lock_count + 1 } : reg_dev)) (some f) REG_DESCEND = reg_flags (some d) (some f) REG_DESCEND :=
    fun f => reg_flags_descend_or_nocomm ({ d with flags := d.flags ||| REG_NOCOMM, lock_count := d.lock_count + 1 } : reg_dev) d f rfl
  have hWokC : ∀ f ∈ ({ d with flags := d.flags ||| REG_NOCOMM, lock_count := d.lock_count + 1 } : reg_dev).field_map.getD [], reg_check_field_width ({ d with flags := d.flags ||| REG_NOCOMM, lock_count := d.lock_count + 1 } : reg_dev) f = 0 ∧ geomOK f.offs f.width ({ d with flags := d.flags ||| REG_NOCOMM, lock_count := d.lock_count + 1 } : reg_dev).reg_width := by
    intro f hf
    refine ⟨?_, (hWok f hf).2⟩
    rw [reg_check_field_width_congr ({ d with flags := d.flags ||| REG_NOCOMM, lock_count := d.lock_count + 1 } : reg_dev) d f rfl rfl (hdescC f)]
    exact (hWok f hf).1
  have hfcC : ∀ f r b, fieldCovers ({ d with flags := d.flags ||| REG_NOCOMM, lock_count := d.lock_count + 1 } : reg_dev) f r b = fieldCovers d f r b :=
    fun f r b => fieldCovers_congr ({ d with flags := d.flags ||| REG_NOCOMM, lock_count := d.lock_count + 1 } : reg_dev) d f rfl (hdescC f) r b
  have hcfC : ∀ i, reg_check_fields ({ d with flags := d.flags ||| REG_NOCOMM, lock_count := d.lock_count + 1 } : reg_dev) i = reg_check_fields d i :=
    fun i => reg_check_fields_congr2 ({ d with flags := d.flags ||| REG_NOCOMM, lock_count := d.lock_count + 1 } : reg_dev) d i rfl rfl rfl hdescC
  have hcovC : coverageDefect ({ d with flags := d.flags ||| REG_NOCOMM, lock_count := d.lock_count + 1 } : reg_dev) = coverageDefect d :=
    coverageDefect_congr ({ d with flags := d.flags ||| REG_NOCOMM, lock_count := d.lock_count + 1 } : reg_dev) d rfl rfl rfl hdescC
  have hdupiff := fields_all_iff_dup d (fun f hf => (hWok f hf).1)
  have hoviff := noall_iff_overlap d hU63 hWok
  have hul : ∀ (A : List Nat) (Lw : List (Nat × Nat)),
      reg_unlock ({ d with lock_count := d.lock_count + 1, data := A, wlog := Lw } : reg_dev) = (0, { d with lock_count := d.lock_count + 1 - 1, data := A, wlog := Lw }) := by
    intro A Lw
    unfold reg_unlock
    dsimp only
    rw [if_neg (fun hh => hh hemp), hmtx]
    rw [if_neg (by simp), if_neg (fun hh => hh (by omega))]
  have hA0len : (clearN d.reg_num d.data).length = d.reg_num := by
    rw [clearN_length]
    exact hlen
  have hA0z : ∀ r, (clearN d.reg_num d.data).getD r 0 = 0 :=
    clearN_getD_zero d.reg_num d.data hlen
  obtain ⟨⟨A1, Lw1, hck2, hckz⟩, hckiff⟩ :=
    check_fields_run ({ d with flags := d.flags ||| REG_NOCOMM, lock_count := d.lock_count + 1 } : reg_dev)
      hempC hNCbC hU63C hWokC
      (List.range (d.field_map.getD []).length)
      (fun i hi => List.mem_range.mp hi)
      (clearN d.reg_num d.data) d.wlog hA0len hA0z
  have hck2' : (check_fields_go (List.range (d.field_map.getD []).length) { d with flags := d.flags ||| REG_NOCOMM, lock_count := d.lock_count + 1, data := clearN d.reg_num d.data }).2 = { d with flags := d.flags ||| REG_NOCOMM, lock_count := d.lock_count + 1, data := A1, wlog := Lw1 } := hck2
  unfold reg_check
  dsimp only
  rw [if_neg (fun hh => hh hemp),
    if_neg (show ¬((d.lock_fn.isSome && d.unlock_fn.isNone ||
      d.lock_fn.isNone && d.unlock_fn.isSome) = true) by rw [hlf, huf]; simp),
    hlk]
  dsimp only
  rw [if_neg (fun hh : (0 : Int) ≠ 0 => hh rfl)]
  rw [reg_clear_buffer_shape ({ d with flags := d.flags ||| REG_NOCOMM, lock_count := d.lock_count + 1 } : reg_dev) hempC]
  dsimp only
  rw [if_neg (fun hh : (0 : Int) ≠ 0 => hh rfl)]
  by_cases hck0 : (check_fields_go (List.range (d.field_map.getD []).length) { d with flags := d.flags ||| REG_NOCOMM, lock_count := d.lock_count + 1, data := clearN d.reg_num d.data }).1 = 0
  · rw [if_neg (fun hh => hh hck0), hck2']
    obtain ⟨hlen1, hz1⟩ := hckz hck0
    rw [reg_clear_buffer_shape ({ d with flags := d.flags ||| REG_NOCOMM, lock_count := d.lock_count + 1, data := A1, wlog := Lw1 } : reg_dev) hemp]
    dsimp only
    rw [if_neg (fun hh : (0 : Int) ≠ 0 => hh rfl)]
    obtain ⟨⟨A3, Lw3, hpc2⟩, hpciff⟩ :=
      coverage_run ({ d with flags := d.flags ||| REG_NOCOMM, lock_count := d.lock_count + 1 } : reg_dev)
        hempC hNCbC hU63C hWokC (clearN d.reg_num A1) Lw1
        (by rw [clearN_length]; exact hlen1)
        (clearN_getD_zero d.reg_num A1 hlen1)
    have hpc2' : (reg_check_field_partial_coverage { d with flags := d.flags ||| REG_NOCOMM, lock_count := d.lock_count + 1, data := clearN d.reg_num A1, wlog := Lw1 }).2 = { d with flags := d.flags ||| REG_NOCOMM, lock_count := d.lock_count + 1, data := A3, wlog := Lw3 } := hpc2
    by_cases hpc0 : (reg_check_field_partial_coverage { d with flags := d.flags ||| REG_NOCOMM, lock_count := d.lock_count + 1, data := clearN d.reg_num A1, wlog := Lw1 }).1 = 0
    · rw [if_neg (fun hh => hh hpc0), hpc2']
      rw [reg_clear_buffer_shape ({ d with flags := d.flags ||| REG_NOCOMM, lock_count := d.lock_count + 1, data := A3, wlog := Lw3 } : reg_dev) hemp]
      dsimp only
      rw [if_neg (fun hh : (0 : Int) ≠ 0 => hh rfl)]
      rw [hul (clearN d.reg_num A3) Lw3]
      dsimp only
      rw [if_neg (fun hh : (0 : Int) ≠ 0 => hh rfl)]
      constructor
      · intro _
        have hall := hckiff.mp hck0
        have hfieldsd : ∀ i, i < (d.field_map.getD []).length →
            reg_check_fields d i = 0 := by
          intro i hi
          rw [← hcfC i]
          exact (hall i (List.mem_range.mpr hi)).1
        have hnoalld : ∀ i, i < (d.field_map.getD []).length →
            ∀ j, j < (d.field_map.getD []).length → j ≠ i →
            underscore ((d.field_map.getD []).getD j default).name = false →
            ∀ r b,
              ¬(fieldCovers d ((d.field_map.getD []).getD i default) r b = true ∧
                fieldCovers d ((d.field_map.getD []).getD j default) r b = true) := by
          intro i hi j hj hji husc r b hcc
          apply (hall i (List.mem_range.mpr hi)).2 j hj hji husc r b
          exact ⟨by rw [hfcC]; exact hcc.1, by rw [hfcC]; exact hcc.2⟩
        refine ⟨hdupiff.mp hfieldsd, hoviff.mp hnoalld, ?_⟩
        rw [← hcovC]
        exact hpciff.mp hpc0
      · intro _
        rfl
    · rw [if_pos (show (reg_check_field_partial_coverage { d with flags := d.flags ||| REG_NOCOMM, lock_count := d.lock_count + 1, data := clearN d.reg_num A1, wlog := Lw1 }).1 ≠ 0 from hpc0)]
      constructor
      · intro h0
        simp at h0
      · rintro ⟨_, _, hcv⟩
        exfalso
        apply hpc0
        apply hpciff.mpr
        rw [hcovC]
        exact hcv
  · rw [if_pos (show (check_fields_go (List.range (d.field_map.getD []).length) { d with flags := d.flags ||| REG_NOCOMM, lock_count := d.lock_count + 1, data := clearN d.reg_num d.data }).1 ≠ 0 from hck0)]
    constructor
    · intro h0
      simp at h0
    · rintro ⟨hdup, hov, _⟩
      exfalso
      apply hck0
      apply hckiff.mpr
      intro i hil
      have hi := List.mem_range.mp hil
      refine ⟨?_, ?_⟩
      · rw [hcfC i]
        exact hdupiff.mpr hdup i hi
      · intro j hj hji husc r b hcc
        rw [hfcC, hfcC] at hcc
        exact hoviff.mpr hov i hi j hj hji husc r b hcc

/-- C2 (amended): on a well-formed device handle (non-empty descriptor, buffer
sized to the register count, no mutex/lock functions, lock not held, every
field offset inside a register), `reg_check` returns 0 exactly when the map
has none of these defects: a field failing the width/span check (zero width,
width over 64, base register or chunk span outside `[0, reg_num)`), two
distinct fields sharing a non-underscore name, two distinct fields — at
least one with a non-underscore name — sharing a register bit, or a register
some of whose bits are covered by fields and some not.  Overlaps between two
underscore-named fields are NOT rejected (see the counterexample): the
overlap phase's clear loop skips underscore fields, so the original claim's
"two fields sharing any register bit" holds only when at least one of the
two names lacks the leading underscore. -/
theorem reg_check_iff_wellformed (d : reg_dev)
    (hemp : reg_empty d = 0)
    (hlen : d.data.length = d.reg_num)
    (hU63 : d.reg_num < 2 ^ 63)
    (hmtx : d.has_mutex = false)
    (hlf : d.lock_fn = none)
    (huf : d.unlock_fn = none)
    (hlc : d.lock_count = 0)
    (hoffs : ∀ f ∈ d.field_map.getD [], f.offs < d.reg_width) :
    (reg_check d).1 = 0 ↔
      (widthDefect d = false ∧ dupNameDefect d = false ∧
       overlapDefect d = false ∧ coverageDefect d = false) := by
  by_cases hwd : widthDefect d = true
  · constructor
    · intro h
      exfalso
      have hz := reg_check_zero_fields d h
      unfold widthDefect at hwd
      obtain ⟨f, hfm, hfw⟩ := List.any_eq_true.mp hwd
      simp only [decide_eq_true_eq] at hfw
      obtain ⟨i, hiL, hig⟩ := List.mem_iff_getElem.mp hfm
      have hgetD : (d.field_map.getD []).getD i default = f := by
        rw [List.getD_eq_getElem _ _ hiL]
        exact hig
      have hh := hz i hiL
      unfold reg_check_fields at hh
      dsimp only at hh
      rw [hgetD, if_pos hfw] at hh
      simp at hh
    · rintro ⟨hw, _⟩
      rw [hwd] at hw
      simp at hw
  · have hwd' : widthDefect d = false := by
      cases hq : widthDefect d
      · rfl
      · exact absurd hq hwd
    have hWok : ∀ f ∈ d.field_map.getD [], reg_check_field_width d f = 0 ∧
        geomOK f.offs f.width d.reg_width := by
      intro f hf
      have hck : reg_check_field_width d f = 0 := by
        have hx := List.any_eq_false.mp
          (show (d.field_map.getD []).any
            (fun g => decide (reg_check_field_width d g ≠ 0)) = false from hwd')
          f hf
        simp only [decide_eq_true_eq] at hx
        exact not_ne_iff.mp hx
      exact ⟨hck, geomOK_of_check d f hemp hck (hoffs f hf)⟩
    rw [reg_check_master d hemp hlen hU63 hmtx hlf huf hlc hWok, hwd']
    simp

theorem reg_check_iff_wellformed_witness :
    (reg_empty (mk_dev 16 1 [⟨"A", 0, 0, 16, 0⟩] [0]) = 0 ∧
     (mk_dev 16 1 [⟨"A", 0, 0, 16, 0⟩] [0]).data.length
       = (mk_dev 16 1 [⟨"A", 0, 0, 16, 0⟩] [0]).reg_num ∧
     (mk_dev 16 1 [⟨"A", 0, 0, 16, 0⟩] [0]).reg_num < 2 ^ 63 ∧
     (mk_dev 16 1 [⟨"A", 0, 0, 16, 0⟩] [0]).has_mutex = false ∧
     (mk_dev 16 1 [⟨"A", 0, 0, 16, 0⟩] [0]).lock_fn = none ∧
     (mk_dev 16 1 [⟨"A", 0, 0, 16, 0⟩] [0]).unlock_fn = none ∧
     (mk_dev 16 1 [⟨"A", 0, 0, 16, 0⟩] [0]).lock_count = 0 ∧
     (∀ f ∈ (mk_dev 16 1 [⟨"A", 0, 0, 16, 0⟩] [0]).field_map.getD [],
       f.offs < (mk_dev 16 1 [⟨"A", 0, 0, 16, 0⟩] [0]).reg_width)) ∧
    ((reg_check (mk_dev 16 1 [⟨"A", 0, 0, 16, 0⟩] [0])).1 = 0 ↔
      (widthDefect (mk_dev 16 1 [⟨"A", 0, 0, 16, 0⟩] [0]) = false ∧
       dupNameDefect (mk_dev 16 1 [⟨"A", 0, 0, 16, 0⟩] [0]) = false ∧
       overlapDefect (mk_dev 16 1 [⟨"A", 0, 0, 16, 0⟩] [0]) = false ∧
       coverageDefect (mk_dev 16 1 [⟨"A", 0, 0, 16, 0⟩] [0]) = false)) :=
  ⟨⟨by decide, by decide, by decide, by decide, by decide, by decide, by decide,
    by decide⟩,
   reg_check_iff_wellformed (mk_dev 16 1 [⟨"A", 0, 0, 16, 0⟩] [0])
     (by decide) (by decide) (by decide) (by decide) (by decide) (by decide)
     (by decide) (by decide)⟩
